import Mathlib

/-!
Verification of the `schemania` schema-validation library.

This file gives a shallow embedding of the code under `src/schemania`
(`validator.py`, `schema.py`, `error.py`) and proves properties about it.

Modelling conventions:
* Python values handled by the library are modelled by the inductive `Data`
  (strings, ints, bools, lists, dicts as ordered association lists, None).
  Python `bool` is a subtype of `int`, which is reflected in `isinstance`
  and in value equality `pyEq`.
* Python `==` is modelled by `pyEq`: dicts compare as unordered key/value
  maps, ints and bools compare numerically.
* `sorted(data.items())` is modelled by a stable insertion sort on the key
  using the total comparison `cmpKey`.  Real Python raises `TypeError` when
  keys of incomparable types are mixed; `cmpKey` totalises that order by
  constructor rank, which only deviates on inputs on which CPython would
  crash, and compares non-scalar keys (unhashable in Python, hence never
  dict keys there) as equal, keeping the stable sort a no-op on them.
* Exceptions that are not `ValidationError`s (`TypeError` from `len`,
  `AttributeError` from the compiler, `RecursionError` from unbounded
  self-reference) are modelled by a separate error channel.
-/

inductive Data where
  | str (s : String)
  | int (n : Int)
  | bool (b : Bool)
  | list (xs : List Data)
  | dict (xs : List (Data × Data))
  | none
deriving Repr

/-- The Python type tags the library works with (`self.type` fields and the
type tags accepted by the compiler). -/
inductive PyType where
  | str
  | int
  | list
  | dict
deriving DecidableEq, Repr

/-- Python `isinstance(data, t)`.  `bool` is a subclass of `int`, so bools
are instances of `int`. -/
def isinstance : Data → PyType → Bool
  | .str _, .str => true
  | .int _, .int => true
  | .bool _, .int => true
  | .list _, .list => true
  | .dict _, .dict => true
  | _, _ => false

/-- Non-`ValidationError` Python exceptions. -/
inductive PyExc where
  | typeError
  | valueError
  | recursionError
  | other (msg : String)
deriving DecidableEq, Repr

/-- Python `len(data)`: defined for strings, lists and dicts; raises
`TypeError` for objects with no length. -/
def pyLen : Data → Except PyExc Nat
  | .str s => .ok s.length
  | .list xs => .ok xs.length
  | .dict xs => .ok xs.length
  | _ => .error .typeError

/-- Data that is hashable and orderable as a dict key in real Python use. -/
def isScalar : Data → Bool
  | .str _ => true
  | .int _ => true
  | .bool _ => true
  | .none => true
  | _ => false

/-- Numeric value of ints and bools (Python `True == 1`, `False == 0`). -/
def numVal : Data → Option Int
  | .int n => some n
  | .bool b => some (if b then 1 else 0)
  | _ => Option.none

/-- Constructor rank used to totalise comparison between keys of distinct
types (real Python raises `TypeError` there). -/
def keyRank : Data → Nat
  | .none => 0
  | .int _ => 1
  | .bool _ => 1
  | .str _ => 2
  | .list _ => 3
  | .dict _ => 4

/-- Three-way comparison on integers. -/
def cmpInt (x y : Int) : Ordering :=
  if x < y then .lt else if x = y then .eq else .gt

/-- Three-way comparison on strings (lexicographic, as in Python). -/
def cmpStr (s t : String) : Ordering :=
  if s < t then .lt else if s = t then .eq else .gt

/-- Three-way comparison on naturals. -/
def cmpNat (x y : Nat) : Ordering :=
  if x < y then .lt else if x = y then .eq else .gt

/-- Total comparison on dict keys, modelling the order used by
`sorted(data.items())`.  Scalars of the same kind compare by value (bools
as their numeric value, as in Python); everything else is totalised. -/
def cmpKey (a b : Data) : Ordering :=
  match numVal a, numVal b with
  | some x, some y => cmpInt x y
  | _, _ =>
    match a, b with
    | .str s, .str t => cmpStr s t
    | _, _ => cmpNat (keyRank a) (keyRank b)

mutual
/-- Python `==` on the modelled values. -/
def pyEq : Data → Data → Bool
  | .str a, .str b => a == b
  | .int a, .int b => a == b
  | .bool a, .bool b => a == b
  | .int a, .bool b => a == (if b then (1 : Int) else 0)
  | .bool a, .int b => (if a then (1 : Int) else 0) == b
  | .none, .none => true
  | .list xs, .list ys => pyEqList xs ys
  | .dict xs, .dict ys => xs.length == ys.length && pyEqPairs xs ys
  | _, _ => false
termination_by a _ => (sizeOf a, 0)

/-- Elementwise Python `==` on lists. -/
def pyEqList : List Data → List Data → Bool
  | [], [] => true
  | x :: xs, y :: ys => pyEq x y && pyEqList xs ys
  | _, _ => false
termination_by xs _ => (sizeOf xs, 0)

/-- Every pair of the first dict has a `==`-matching entry in the second. -/
def pyEqPairs : List (Data × Data) → List (Data × Data) → Bool
  | [], _ => true
  | (k, v) :: rest, ys => pyLookupEq k v ys && pyEqPairs rest ys
termination_by ps _ => (sizeOf ps, 0)

/-- Whether `ys` maps a key `==`-equal to `k` to a value `==`-equal to `v`. -/
def pyLookupEq : Data → Data → List (Data × Data) → Bool
  | _, _, [] => false
  | k, v, (k1, v1) :: rest =>
    if pyEq k k1 then pyEq v v1 else pyLookupEq k v rest
termination_by k v ys => (sizeOf k + sizeOf v + 1, sizeOf ys)
end

/-- Python dict assignment `d[k] = v` on an insertion-ordered association
list: replaces the value of the first `==`-equal key in place (keeping the
originally stored key object, as CPython does), else appends. -/
def pyInsert : List (Data × Data) → Data → Data → List (Data × Data)
  | [], k, v => [(k, v)]
  | (k1, v1) :: rest, k, v =>
    if pyEq k1 k then (k1, v) :: rest else (k1, v1) :: pyInsert rest k v

/-- Stable insertion of a pair into a key-sorted pair list (ascending). -/
def insertPair (p : Data × Data) : List (Data × Data) → List (Data × Data)
  | [] => [p]
  | q :: rest =>
    match cmpKey p.1 q.1 with
    | .lt => p :: q :: rest
    | _ => q :: insertPair p rest

/-- `sorted(data.items())`: stable sort of the dict items by key. -/
def sortPairs : List (Data × Data) → List (Data × Data)
  | [] => []
  | p :: rest => insertPair p (sortPairs rest)

/-!
The validator tree (`validator.py`).  Every validator object carries an
`optional` attribute; only the constructors whose Python `__init__` exposes
an `optional` parameter can set it (the rest always construct it `False`),
so only those carry the flag here.  `FunctionValidator` holds an arbitrary
callable, modelled as a Lean function returning either a value or a raised
(non-validation) exception; `RegexValidator` holds a compiled pattern,
modelled by its match-test on strings.
-/

inductive Validator where
  | lit (literal : Data) (opt : Bool)
  | type (t : PyType) (opt : Bool)
  | listV (elem : Validator)
  | dictV (pairs : List (Validator × Validator))
  | regexV (test : String → Bool) (opt : Bool)
  | selfV (opt : Bool)
  | allV (vs : List Validator) (opt : Bool)
  | anyV (vs : List Validator) (opt : Bool)
  | funcV (f : Data → Except PyExc Data)
  | lengthV (minL maxL : Option Nat)

instance : Inhabited Validator := ⟨.selfV false⟩

/-- The `optional` attribute (`Validator.__init__` default is `False`). -/
def Validator.optional : Validator → Bool
  | .lit _ o => o
  | .type _ o => o
  | .regexV _ o => o
  | .selfV o => o
  | .allV _ o => o
  | .anyV _ o => o
  | _ => false

/-!
The error model (`error.py`).  Every error carries a `path` (a deque of
keys/indices, prepended as the error travels outwards); list indices are
stored as `Data.int` fragments.  The `validator` back-reference stored on
real errors is only consumed by the formatters and is omitted, except that
`ValidationTypeError` is modelled with the raiser's expected type and
`ValidationMissingKeyError` keeps the missing key-validator, because the
properties below talk about them.  `ValidationExclusiveError` is declared
in `error.py`; it is included here so that its absence from validation
results can be stated.
-/

inductive VError where
  | literalErr (literal : Data) (data : Data) (path : List Data)
  | typeErr (t : PyType) (data : Data) (path : List Data)
  | unknownKey (key : Data) (path : List Data)
  | missingKey (keyValidator : Validator) (path : List Data)
  | multiple (data : Data) (errors : List VError) (path : List Data)
  | matchErr (data : Data) (path : List Data)
  | functionErr (data : Data) (exc : PyExc) (path : List Data)
  | lengthErr (data : Data) (path : List Data)
  | exclusiveErr (group : String) (path : List Data)

/-- `error.path.appendleft(frag)`. -/
def VError.push (frag : Data) : VError → VError
  | .literalErr l d p => .literalErr l d (frag :: p)
  | .typeErr t d p => .typeErr t d (frag :: p)
  | .unknownKey k p => .unknownKey k (frag :: p)
  | .missingKey kv p => .missingKey kv (frag :: p)
  | .multiple d es p => .multiple d es (frag :: p)
  | .matchErr d p => .matchErr d (frag :: p)
  | .functionErr d e p => .functionErr d e (frag :: p)
  | .lengthErr d p => .lengthErr d (frag :: p)
  | .exclusiveErr g p => .exclusiveErr g (frag :: p)

/-- Outcome of one `validate` call: normal return, a raised
`ValidationError`, or a raised non-validation exception (which composite
validators do not catch). -/
inductive VResult where
  | ok (d : Data)
  | verror (e : VError)
  | pyerror (e : PyExc)

/-- Error reduction shared by `ListValidator`, `DictValidator` and
`AllValidator`: no errors returns the result, exactly one error is raised
unwrapped, several are wrapped in `ValidationMultipleError` over `data`. -/
def finishErrors (data : Data) (okRes : VResult) (errs : List VError) : VResult :=
  match errs with
  | [] => okRes
  | [e] => .verror e
  | _ => .verror (.multiple data errs [])

/-- Indices of the non-optional key-validators, i.e. the initial
`key_validators_not_matched` set of `DictValidator.validate` (Python uses
a set of validator objects; distinct objects are modelled by their index in
declaration order). -/
def initNotMatched (pairs : List (Validator × Validator)) : List Nat :=
  pairs.enum.filterMap fun p => if p.2.1.optional then Option.none else some p.1

/-- `ValidationMissingKeyError(self, key_validator)` for index `j`. -/
def mkMissing (pairs : List (Validator × Validator)) (j : Nat) : VError :=
  .missingKey (pairs.getD j (default, default)).1 []

/-- The missing-key errors appended after all input keys are processed. -/
def missingErrors (pairs : List (Validator × Validator)) (notM : List Nat) :
    List VError :=
  notM.map (mkMissing pairs)

/-- `data_length < self.min_length` (with an absent bound never firing). -/
def belowMin (mn : Option Nat) (l : Nat) : Bool :=
  match mn with
  | some m => decide (l < m)
  | _ => false

/-- `data_length > self.max_length` (with an absent bound never firing). -/
def aboveMax (mx : Option Nat) (l : Nat) : Bool :=
  match mx with
  | some m => decide (m < l)
  | _ => false

/-- Outcome of the inner key-matching loop of `DictValidator.validate` for
one input item: no key-validator accepted the key; or the first accepting
one (index `j`) was found but its value-validator failed; or both passed. -/
inductive KeyOutcome where
  | noMatch
  | valueFailed (j : Nat) (e : VError)
  | matched (j : Nat) (nk : Data) (nv : Data)

/-!
The validation engine.  `vfuel n root v d` runs `v.validate(data)` where
`root` is the owning schema's root validator (the target of
`SelfValidator`).  Python recursion through `Self` is not structurally
bounded (`Schema(Self)` overflows the CPython stack), so `Self` dispatch
consumes one unit of fuel and exhausted fuel is modelled as Python's
`RecursionError`; all other recursion is structural and fuel-free, so any
`Self`-free validation is independent of the fuel.
-/

mutual
/-- One `validate(data)` call, dispatching on the validator variant. -/
def vfuel (n : Nat) (root : Validator) : Validator → Data → VResult
  | .lit L _, d =>
    if pyEq d L then .ok d else .verror (.literalErr L d [])
  | .type t _, d =>
    if isinstance d t then .ok d else .verror (.typeErr t d [])
  | .regexV test _, d =>
    match d with
    | .str s => if test s then .ok (.str s) else .verror (.matchErr (.str s) [])
    | _ => .verror (.typeErr .str d [])
  | .listV ev, d =>
    match d with
    | .list xs =>
      match listRun n root ev 0 xs with
      | .error exc => .pyerror exc
      | .ok (nd, errs) => finishErrors (.list xs) (.ok (.list nd)) errs
    | _ => .verror (.typeErr .list d [])
  | .dictV pairs, d =>
    match d with
    | .dict items =>
      match dictRun n root pairs (sortPairs items) [] (initNotMatched pairs) with
      | .error exc => .pyerror exc
      | .ok (out, errs, nm) =>
        finishErrors (.dict items) (.ok (.dict out)) (errs ++ missingErrors pairs nm)
    | _ => .verror (.typeErr .dict d [])
  | .selfV _, d =>
    match n with
    | 0 => .pyerror .recursionError
    | m + 1 => vfuel m root root d
  | .allV vs _, d =>
    match chainRun n root vs d with
    | .error exc => .pyerror exc
    | .ok (df, errs) => finishErrors df (.ok df) errs
  | .anyV vs _, d =>
    match chainRun n root vs d with
    | .error exc => .pyerror exc
    | .ok (df, errs) =>
      if errs.length = vs.length then .verror (.multiple df errs []) else .ok df
  | .funcV f, d =>
    match f d with
    | .ok nd => .ok nd
    | .error exc => .verror (.functionErr d exc [])
  | .lengthV mn mx, d =>
    match pyLen d with
    | .error exc => .pyerror exc
    | .ok l =>
      if belowMin mn l then .verror (.lengthErr d [])
      else if aboveMax mx l then .verror (.lengthErr d [])
      else .ok d
termination_by v _ => (n, sizeOf v, 0)

/-- The element loop of `ListValidator.validate`: validates every element,
collecting normalized elements and index-tagged errors; a non-validation
exception escapes immediately. -/
def listRun (n : Nat) (root ev : Validator) : Nat → List Data →
    Except PyExc (List Data × List VError)
  | _, [] => .ok ([], [])
  | i, x :: xs =>
    match vfuel n root ev x with
    | .pyerror exc => .error exc
    | .ok y => do
      let (nd, es) ← listRun n root ev (i + 1) xs
      .ok (y :: nd, es)
    | .verror e => do
      let (nd, es) ← listRun n root ev (i + 1) xs
      .ok (nd, e.push (.int i) :: es)
termination_by _ xs => (n, sizeOf ev, 1 + sizeOf xs)

/-- The inner loop of `DictValidator.validate` over the key-validators in
declaration order: the first one accepting the key wins (the loop breaks),
after which its value-validator is applied. -/
def tryKey (n : Nat) (root : Validator) : List (Validator × Validator) →
    Nat → Data → Data → Except PyExc KeyOutcome
  | [], _, _, _ => .ok .noMatch
  | (kv, vv) :: rest, j, k, v =>
    match vfuel n root kv k with
    | .pyerror exc => .error exc
    | .verror _ => tryKey n root rest (j + 1) k v
    | .ok nk =>
      match vfuel n root vv v with
      | .pyerror exc => .error exc
      | .verror e => .ok (.valueFailed j e)
      | .ok nv => .ok (.matched j nk nv)
termination_by ps _ _ _ => (n, sizeOf ps, 0)

/-- The outer loop of `DictValidator.validate` over the sorted input
items, threading the output dict and the not-yet-matched required
key-validator set (as indices), and collecting errors in discovery order:
an unmatched key records an Unknown-key error; a matched key whose value
fails records the value error with the key prepended to its path and still
removes the key-validator from the not-matched set; a fully successful
item stores the normalized pair in the output. -/
def dictRun (n : Nat) (root : Validator) (pairs : List (Validator × Validator)) :
    List (Data × Data) → List (Data × Data) → List Nat →
    Except PyExc (List (Data × Data) × List VError × List Nat)
  | [], out, notM => .ok (out, [], notM)
  | (k, v) :: rest, out, notM =>
    match tryKey n root pairs 0 k v with
    | .error exc => .error exc
    | .ok .noMatch => do
      let (o, es, nm) ← dictRun n root pairs rest out notM
      .ok (o, .unknownKey k [] :: es, nm)
    | .ok (.valueFailed j e) => do
      let (o, es, nm) ← dictRun n root pairs rest out (notM.erase j)
      .ok (o, e.push k :: es, nm)
    | .ok (.matched j nk nv) =>
      dictRun n root pairs rest (pyInsert out nk nv) (notM.erase j)
termination_by items _ _ => (n, sizeOf pairs, 1 + sizeOf items)

/-- The shared loop of `AllValidator.validate` and `AnyValidator.validate`
(their loop bodies are textually identical in the source): each
sub-validator is applied to the current data, which is replaced by the
sub-validator's output on success and kept on failure, while failures are
collected in order. -/
def chainRun (n : Nat) (root : Validator) : List Validator → Data →
    Except PyExc (Data × List VError)
  | [], d => .ok (d, [])
  | v :: vs, d =>
    match vfuel n root v d with
    | .pyerror exc => .error exc
    | .verror e => do
      let (df, es) ← chainRun n root vs d
      .ok (df, e :: es)
    | .ok d2 => chainRun n root vs d2
termination_by vs _ => (n, sizeOf vs, 0)
end

/-!
Raw schemas and the compiler (`schema.py`).  `Schema._compile` dispatches
on the Python shape of the raw schema; the shapes form the `RawSchema`
vocabulary.  Compile-time failures are Python exceptions distinct from
validation errors: the `assert len(raw_schema) == 1` for sequences
(`AssertionError`), the final `ValueError` for unrecognized shapes, and —
decisive below — the `AttributeError` raised by the `Optional` and
`Exclusive` branches: they execute `validator.attributes[...] = ...`, but
`Validator` instances own no `attributes` member (`Validator.__init__`
only sets `schema` and `optional`), so the attribute access raises.
-/

inductive RawSchema where
  | strLit (s : String)
  | intLit (n : Int)
  | boolLit (b : Bool)
  | typeTag (t : PyType)
  | listS (xs : List RawSchema)
  | dictS (xs : List (RawSchema × RawSchema))
  | regexS (test : String → Bool)
  | funcS (f : Data → Except PyExc Data)
  | lengthS (minL maxL : Option Nat)
  | optionalS (inner : RawSchema)
  | exclusiveS (inner : RawSchema) (group : String)
  | allS (xs : List RawSchema)
  | anyS (xs : List RawSchema)
  | selfS

/-- Compile-time exceptions of `Schema._compile`. -/
inductive CompileErr where
  | attributeError
  | assertionError
  | valueError
deriving DecidableEq, Repr

mutual
/-- `Schema._compile(raw_schema)`.  Note that a Python `bool` raw schema
hits the `isinstance(raw_schema, (str, int))` branch (bool is a subclass
of int) and becomes a literal validator. -/
def compile : RawSchema → Except CompileErr Validator
  | .strLit s => .ok (.lit (.str s) false)
  | .intLit n => .ok (.lit (.int n) false)
  | .boolLit b => .ok (.lit (.bool b) false)
  | .typeTag t =>
    if t = .str ∨ t = .int then .ok (.type t false) else .error .valueError
  | .listS xs =>
    match xs with
    | [x] => do
      let v ← compile x
      .ok (.listV v)
    | _ => .error .assertionError
  | .dictS xs => do
    let ps ← compilePairs xs
    .ok (.dictV ps)
  | .regexS test => .ok (.regexV test false)
  | .funcS f => .ok (.funcV f)
  | .lengthS mn mx => .ok (.lengthV mn mx)
  | .optionalS inner => do
    let _ ← compile inner
    .error .attributeError
  | .exclusiveS inner _ => do
    let _ ← compile inner
    .error .attributeError
  | .allS xs => do
    let vs ← compileList xs
    .ok (.allV vs false)
  | .anyS xs => do
    let vs ← compileList xs
    .ok (.anyV vs false)
  | .selfS => .ok (.selfV false)

/-- Compiles the sub-schemas of `All`/`Any` in order. -/
def compileList : List RawSchema → Except CompileErr (List Validator)
  | [] => .ok []
  | x :: xs => do
    let v ← compile x
    let vs ← compileList xs
    .ok (v :: vs)

/-- Compiles the key and value of every mapping pair in declaration
order (the dict comprehension in `Schema._compile`). -/
def compilePairs : List (RawSchema × RawSchema) →
    Except CompileErr (List (Validator × Validator))
  | [] => .ok []
  | (k, v) :: xs => do
    let kv ← compile k
    let vv ← compile v
    let ps ← compilePairs xs
    .ok ((kv, vv) :: ps)
end

/-!
Helper definitions used by the statements below.
-/

/-- Whether a validation outcome is an escaped non-validation exception. -/
def VResult.isPy : VResult → Bool
  | .pyerror _ => true
  | _ => false

/-- Whether compilation of a raw schema succeeds. -/
def compileOk (s : RawSchema) : Bool :=
  match compile s with
  | .ok _ => true
  | .error _ => false

/-- A sample transforming callable: increments an int, raises on
anything else. -/
def inc : Data → Except PyExc Data
  | .int m => .ok (.int (m + 1))
  | _ => .error .typeError

/-- The normalized value the element validator produces for one element
(`none` when it does not succeed). -/
def okOf (n : Nat) (root ev : Validator) (x : Data) : Option Data :=
  match vfuel n root ev x with
  | .ok y => some y
  | _ => Option.none

/-- The index-tagged error the element validator produces for the element
at index `i` (`none` when it does not raise a validation error). -/
def errOf (n : Nat) (root ev : Validator) (i : Nat) (x : Data) : Option VError :=
  match vfuel n root ev x with
  | .verror e => some (e.push (.int i))
  | _ => Option.none

/-- The index-tagged validation errors of all failing elements, in index
order, starting at index `i`. -/
def errsFrom (n : Nat) (root ev : Validator) : Nat → List Data → List VError
  | _, [] => []
  | i, x :: xs =>
    match errOf n root ev i x with
    | some e => e :: errsFrom n root ev (i + 1) xs
    | _ => errsFrom n root ev (i + 1) xs

mutual
/-- Whether an error is, or contains (inside Aggregates), an
Exclusive-conflict error. -/
def hasExclE : VError → Bool
  | .exclusiveErr _ _ => true
  | .multiple _ es _ => hasExclL es
  | _ => false

/-- Whether any error of a list contains an Exclusive-conflict error. -/
def hasExclL : List VError → Bool
  | [] => false
  | e :: es => hasExclE e || hasExclL es
end

/-- Whether a validation outcome contains an Exclusive-conflict error. -/
def hasExclR : VResult → Bool
  | .verror e => hasExclE e
  | _ => false



mutual
/-- Whether an error is, or contains (inside Aggregates), a Missing-key
error. -/
def hasMissingE : VError → Bool
  | .missingKey _ _ => true
  | .multiple _ es _ => hasMissingL es
  | _ => false

/-- Whether any error of a list contains a Missing-key error. -/
def hasMissingL : List VError → Bool
  | [] => false
  | e :: es => hasMissingE e || hasMissingL es
end

/-- Whether a validation outcome contains a Missing-key error. -/
def hasMissingR : VResult → Bool
  | .verror e => hasMissingE e
  | _ => false

/-- All-pairs strict ascending key order (each key `cmpKey`-less than every
later one). -/
def pairwiseLtKeys : List (Data × Data) → Bool
  | [] => true
  | p :: rest =>
    rest.all (fun q => decide (cmpKey p.1 q.1 = .lt)) && pairwiseLtKeys rest

mutual
/-- No `FunctionValidator` anywhere in the tree. -/
def funcFreeV : Validator → Bool
  | .funcV _ => false
  | .listV ev => funcFreeV ev
  | .dictV ps => funcFreeP ps
  | .allV vs _ => funcFreeL vs
  | .anyV vs _ => funcFreeL vs
  | _ => true

/-- No `FunctionValidator` in any of the validators. -/
def funcFreeL : List Validator → Bool
  | [] => true
  | v :: vs => funcFreeV v && funcFreeL vs

/-- No `FunctionValidator` in any key- or value-validator. -/
def funcFreeP : List (Validator × Validator) → Bool
  | [] => true
  | (kv, vv) :: ps => funcFreeV kv && funcFreeV vv && funcFreeP ps
end

mutual
/-- No `AllValidator` or `AnyValidator` anywhere in the tree. -/
def chainFreeV : Validator → Bool
  | .allV _ _ => false
  | .anyV _ _ => false
  | .listV ev => chainFreeV ev
  | .dictV ps => chainFreeP ps
  | _ => true

/-- No `AllValidator` or `AnyValidator` in any key- or value-validator. -/
def chainFreeP : List (Validator × Validator) → Bool
  | [] => true
  | (kv, vv) :: ps => chainFreeV kv && chainFreeV vv && chainFreeP ps
end

mutual
/-- Data whose mappings, at every nesting level, have scalar (hashable)
keys in strictly ascending sorted order — i.e. data already in the normal
form that the engine's `sorted(data.items())` pass produces. -/
def dsorted : Data → Bool
  | .list xs => dsortedL xs
  | .dict xs => pairwiseLtKeys xs && dsortedP xs
  | _ => true

/-- Every element sorted-normal. -/
def dsortedL : List Data → Bool
  | [] => true
  | x :: xs => dsorted x && dsortedL xs

/-- Every key scalar and every value sorted-normal. -/
def dsortedP : List (Data × Data) → Bool
  | [] => true
  | (k, v) :: rest => isScalar k && dsorted v && dsortedP rest
end


/-- Pairwise `==`-distinct keys (what Python dict invariants guarantee). -/
def keysDistinct : List (Data × Data) → Bool
  | [] => true
  | (k, _) :: rest => rest.all (fun q => !pyEq k q.1) && keysDistinct rest

mutual
/-- Well-formed data: every mapping has scalar (hashable) keys that are
pairwise `==`-distinct — the invariants real Python dicts guarantee. -/
def wfData : Data → Bool
  | .list xs => wfL xs
  | .dict xs => keysDistinct xs && wfP xs
  | _ => true

/-- Every element well-formed. -/
def wfL : List Data → Bool
  | [] => true
  | x :: xs => wfData x && wfL xs

/-- Every key scalar and every value well-formed. -/
def wfP : List (Data × Data) → Bool
  | [] => true
  | (k, v) :: rest => isScalar k && wfData v && wfP rest
end

mutual
/-- Canonical form with respect to Python `==`: bools become their numeric
value and every mapping is rebuilt in sorted key order, recursively.  On
well-formed data, `pyEq` coincides with equality of canonical forms. -/
def canon : Data → Data
  | .bool b => .int (if b then 1 else 0)
  | .list xs => .list (canonL xs)
  | .dict xs => .dict (sortPairs (canonP xs))
  | d => d

/-- Canonical forms of all elements. -/
def canonL : List Data → List Data
  | [] => []
  | x :: xs => canon x :: canonL xs

/-- Canonical forms of all keys and values. -/
def canonP : List (Data × Data) → List (Data × Data)
  | [] => []
  | (k, v) :: xs => (canon k, canon v) :: canonP xs
end


mutual
/-- Sort-normal form: every mapping rebuilt in sorted key order,
recursively, with keys and scalars unchanged.  Two data values have the
same normal form exactly when they differ only in mapping insertion
order — the only change a transform-free validator ever makes. -/
def dnorm : Data → Data
  | .list xs => .list (dnormL xs)
  | .dict xs => .dict (sortPairs (dnormP xs))
  | d => d

/-- Sort-normal forms of all elements. -/
def dnormL : List Data → List Data
  | [] => []
  | x :: xs => dnorm x :: dnormL xs

/-- Sort-normal forms of all values (keys unchanged). -/
def dnormP : List (Data × Data) → List (Data × Data)
  | [] => []
  | (k, v) :: xs => (k, dnorm v) :: dnormP xs
end

/-- `pairwiseLtKeys` seen on the bare key list. -/
def keyListLt : List Data → Bool
  | [] => true
  | k :: ks => ks.all (fun q => decide (cmpKey k q = .lt)) && keyListLt ks

/-- `keysDistinct` seen on the bare key list. -/
def keyListDistinct : List Data → Bool
  | [] => true
  | k :: ks => ks.all (fun q => !pyEq k q) && keyListDistinct ks

/-- The string payload of a key (empty for non-strings). -/
def strVal : Data → String
  | .str s => s
  | _ => ""

/-- Rank-dispatch form of `cmpKey`, convenient for order reasoning:
numeric keys (rank 1) compare numerically, strings (rank 2) compare
lexicographically, anything else by rank alone. -/
def cmpKeyR (a b : Data) : Ordering :=
  if keyRank a = 1 ∧ keyRank b = 1 then
    cmpInt ((numVal a).getD 0) ((numVal b).getD 0)
  else if keyRank a = 2 ∧ keyRank b = 2 then cmpStr (strVal a) (strVal b)
  else cmpNat (keyRank a) (keyRank b)


/-!
C6 — `TypeValidator.validate` succeeds returning the data unchanged
exactly when the data is a Python instance of the expected type (so
instances of subtypes, such as `bool` for `int`, are accepted), and
otherwise raises exactly one `ValidationTypeError`.
-/

/-- C6: for every supported type tag `t` (one the compiler accepts) and
every data `d`, the compiled TypeCheck validator succeeds returning `d`
unchanged iff `isinstance d t`, and otherwise raises exactly one
Type-mismatch error. -/
theorem c6_typecheck (t : PyType) (v : Validator) (n : Nat) (root : Validator)
    (d : Data) (hc : compile (.typeTag t) = .ok v) :
    (isinstance d t = true → vfuel n root v d = .ok d) ∧
    (isinstance d t = false → vfuel n root v d = .verror (.typeErr t d [])) := by
  have hv : v = .type t false := by
    simp only [compile] at hc
    split at hc
    · exact (Except.ok.injEq _ _).mp hc.symm ▸ rfl
    · exact absurd hc (by simp)
  subst hv
  refine ⟨fun h => ?_, fun h => ?_⟩ <;> simp [vfuel, h]

/-- C6 witness: `int` is a supported tag and a bool (a subtype instance)
is accepted unchanged. -/
theorem c6_witness :
    vfuel 1 (.selfV false) (.type .int false) (.bool true) = .ok (.bool true) :=
  (c6_typecheck .int (.type .int false) 1 (.selfV false) (.bool true)
    (by simp [compile])).1 (by simp [isinstance])

/-!
C9 — `FunctionValidator.validate` wraps any exception of the stored
callable in exactly one `ValidationFunctionError` carrying that exception,
and on normal return the callable's result is the new normalized data.
-/

/-- C9: a FunctionTransform validator raises exactly one Transform-failure
error carrying the callable's exception when the callable raises, and
returns the callable's result as the normalized data when it returns. -/
theorem c9_function (f : Data → Except PyExc Data) (n : Nat) (root : Validator)
    (d : Data) :
    (∀ exc, f d = .error exc →
      vfuel n root (.funcV f) d = .verror (.functionErr d exc [])) ∧
    (∀ y, f d = .ok y → vfuel n root (.funcV f) d = .ok y) := by
  refine ⟨fun exc h => ?_, fun y h => ?_⟩ <;> simp [vfuel, h]

/-- C9 witness: `inc` fails on a string (wrapped with the original
exception) and transforms an int. -/
theorem c9_witness :
    vfuel 1 (.selfV false) (.funcV inc) (.str "x") =
      .verror (.functionErr (.str "x") .typeError []) ∧
    vfuel 1 (.selfV false) (.funcV inc) (.int 1) = .ok (.int 2) :=
  ⟨(c9_function inc 1 (.selfV false) (.str "x")).1 .typeError (by simp [inc]),
   (c9_function inc 1 (.selfV false) (.int 1)).2 (.int 2) (by simp [inc])⟩

/-!
C10 — `LengthValidator.validate` computes `len(data)` before looking at
the bounds, so data with no length makes the `len` call itself raise a
plain `TypeError` (not a `ValidationError` of any kind), and with both
bounds absent every input that has a length passes through unchanged.
-/

/-- C10: a LengthBound validator raises the plain TypeError coming from
the `len` call on inputs with no length (for any bounds), and with both
bounds absent returns every input that has a length unchanged. -/
theorem c10_length (mn mx : Option Nat) (n : Nat) (root : Validator) (d : Data) :
    (pyLen d = .error .typeError →
      vfuel n root (.lengthV mn mx) d = .pyerror .typeError) ∧
    (∀ l, pyLen d = .ok l →
      vfuel n root (.lengthV Option.none Option.none) d = .ok d) := by
  refine ⟨fun h => ?_, fun l h => ?_⟩ <;> simp [vfuel, h, belowMin, aboveMax]

/-- C10 witness: an int has no length and escapes as a plain TypeError
even with no bounds set; a string with a length passes unchanged. -/
theorem c10_witness :
    vfuel 1 (.selfV false) (.lengthV Option.none Option.none) (.int 5) =
      .pyerror .typeError ∧
    vfuel 1 (.selfV false) (.lengthV Option.none Option.none) (.str "ab") =
      .ok (.str "ab") :=
  ⟨(c10_length Option.none Option.none 1 (.selfV false) (.int 5)).1 (by simp [pyLen]),
   (c10_length Option.none Option.none 1 (.selfV false) (.str "ab")).2 2 rfl⟩

/-!
C3 — claimed: `AnyValidator` applies every sub-validator to the *original*
input and returns the first succeeding sub-validator's transformed value.
The code instead executes `data = validator.validate(data)` in its loop,
so each sub-validator sees the data as transformed by the successful
sub-validators before it, and the returned value is the output of the
*last* successful application.
-/

/-- C3 counterexample: `Any` of two incrementing transforms applied to `0`
returns `2` (the second transform ran on the first one's output `1`, and
the last success wins), not `1` as the claim (first success applied to the
original input) requires. -/
theorem c3_counterexample :
    vfuel 1 (.selfV false) (.anyV [.funcV inc, .funcV inc] false) (.int 0) =
      .ok (.int 2) ∧
    VResult.ok (.int 2) ≠ VResult.ok (.int 1) := by
  refine ⟨by simp [vfuel, chainRun, inc], by simp⟩

/-!
C5 — claimed: every composite validator (Sequence, Mapping, All, Any)
raises a single collected failure unwrapped and wraps several in an
Aggregate.  `ListValidator`, `DictValidator` and `AllValidator` indeed
reduce errors that way, but `AnyValidator` only fails when *every*
sub-validator failed (`len(errors) == len(self.validators)`) and then
always raises `ValidationMultipleError`, even when only one error was
collected.
-/

/-- C5 counterexample: an `Any` with a single failing sub-validator
collects exactly one error yet raises it wrapped in an Aggregate, not
unwrapped as the claim requires. -/
theorem c5_counterexample :
    vfuel 1 (.selfV false) (.anyV [.type .str false] false) (.int 1) =
      .verror (.multiple (.int 1) [.typeErr .str (.int 1) []] []) ∧
    vfuel 1 (.selfV false) (.anyV [.type .str false] false) (.int 1) ≠
      .verror (.typeErr .str (.int 1) []) := by
  have h : vfuel 1 (.selfV false) (.anyV [.type .str false] false) (.int 1) =
      .verror (.multiple (.int 1) [.typeErr .str (.int 1) []] []) := by
    simp [vfuel, chainRun, isinstance, Except.bind, bind]
  exact ⟨h, by rw [h]; simp⟩

/-!
C7 — the element loop of `ListValidator.validate` visits every element
(no short-circuit on validation failure), tags each element error with its
index, and preserves order.
-/

/-- Characterization of the element loop: as long as no element validation
escapes with a non-validation exception, the loop returns the normalized
values of all succeeding elements in order together with the index-tagged
errors of all failing elements in index order. -/
theorem listRun_spec (n : Nat) (root ev : Validator) :
    ∀ (i : Nat) (xs : List Data),
    (∀ x ∈ xs, (vfuel n root ev x).isPy = false) →
    listRun n root ev i xs =
      .ok (xs.filterMap (okOf n root ev), errsFrom n root ev i xs) := by
  intro i xs
  induction xs generalizing i with
  | nil => intro _; simp [listRun, errsFrom]
  | cons x xs ih =>
    intro h
    have hx : (vfuel n root ev x).isPy = false := h x (by simp)
    have hrest : ∀ y ∈ xs, (vfuel n root ev y).isPy = false :=
      fun y hy => h y (by simp [hy])
    cases hfx : vfuel n root ev x with
    | ok y =>
      simp [listRun, hfx, ih (i + 1) hrest, List.filterMap_cons, okOf, errOf,
        errsFrom, Except.bind, bind]
    | verror e =>
      simp [listRun, hfx, ih (i + 1) hrest, List.filterMap_cons, okOf, errOf,
        errsFrom, Except.bind, bind]
    | pyerror exc => rw [hfx] at hx; simp [VResult.isPy] at hx

/-- C7: every element is validated (no short-circuit), each element error
gets its index prepended, zero errors yields the normalized elements in
order; and for the schema `[str]` on `['a', 1, [], {}]` validation raises
an Aggregate with exactly the three Type-mismatch errors at indices 1, 2
and 3, in index order. -/
theorem c7_sequence :
    (∀ (n : Nat) (root ev : Validator) (i : Nat) (xs : List Data),
      (∀ x ∈ xs, (vfuel n root ev x).isPy = false) →
      listRun n root ev i xs =
        .ok (xs.filterMap (okOf n root ev), errsFrom n root ev i xs)) ∧
    (∀ (n : Nat) (root ev : Validator) (xs : List Data),
      (∀ x ∈ xs, (vfuel n root ev x).isPy = false) →
      errsFrom n root ev 0 xs = [] →
      vfuel n root (.listV ev) (.list xs) =
        .ok (.list (xs.filterMap (okOf n root ev)))) ∧
    (compile (.listS [.typeTag .str]) = .ok (.listV (.type .str false)) ∧
      vfuel 1 (.listV (.type .str false)) (.listV (.type .str false))
        (.list [.str "a", .int 1, .list [], .dict []]) =
      .verror (.multiple (.list [.str "a", .int 1, .list [], .dict []])
        [.typeErr .str (.int 1) [.int 1], .typeErr .str (.list []) [.int 2],
         .typeErr .str (.dict []) [.int 3]] [])) := by
  refine ⟨listRun_spec, fun n root ev xs h h0 => ?_,
    by simp [compile, Except.bind, bind], ?_⟩
  · simp [vfuel, listRun_spec n root ev 0 xs h, h0, finishErrors]
  · simp [vfuel, listRun, isinstance, VError.push, finishErrors,
      Except.bind, bind]

/-- C7 witness: the characterization at a concrete list with one failure. -/
theorem c7_witness :
    listRun 1 (.selfV false) (.type .str false) 0 [.str "a", .int 1] =
      .ok ([.str "a"], [.typeErr .str (.int 1) [.int 1]]) ∧
    vfuel 1 (.selfV false) (.listV (.type .str false)) (.list [.str "a"]) =
      .ok (.list [.str "a"]) := by
  refine ⟨?_, ?_⟩
  · have h := c7_sequence.1 1 (.selfV false) (.type .str false) 0
      [.str "a", .int 1] (by intro x hx; fin_cases hx <;> simp [vfuel, isinstance, VResult.isPy])
    rw [h]
    simp [okOf, errOf, errsFrom, vfuel, isinstance, VError.push]
  · have h := c7_sequence.2.1 1 (.selfV false) (.type .str false) [.str "a"]
      (by intro x hx; fin_cases hx; simp [vfuel, isinstance, VResult.isPy])
      (by simp [errsFrom, errOf, vfuel, isinstance])
    rw [h]
    simp [okOf, vfuel, isinstance]

/-!
C2 — claimed: compiling `Optional(S)` succeeds, marks the compiled node
optional and returns it, and such a key-validator raises no Missing-key
error when unmatched.  The `Optional` branch of `Schema._compile` executes
`validator.attributes['optional'] = True`, but validator objects own no
`attributes` member (`Validator.__init__` only sets `schema` and
`optional`), so compiling `Optional(S)` always raises `AttributeError`
(the library's own tests, e.g. `test_schema.py`'s `{Optional('a'): str}`
cases, expect it to succeed).  The validation engine itself does honour an
`optional` flag set directly on a key-validator, which is shown on a
directly-constructed validator below.
-/

/-- C1/C2 helper: compiling any raw schema wrapped this way can only end
in the inner compile's failure or the `AttributeError` of the attribute
assignment, never in success. -/
theorem compile_wrapper_fails (inner : RawSchema) :
    (compileOk (.optionalS inner) = false) ∧
    (∀ g, compileOk (.exclusiveS inner g) = false) := by
  refine ⟨?_, fun g => ?_⟩ <;>
    · simp only [compileOk, compile]
      cases h : compile inner <;> simp [h, Except.bind, bind]

/-- C2: compiling `Optional(S)` never succeeds for any raw schema `S`
(contrary to the claim); concretely, `Optional('a')` raises
`AttributeError`.  Meanwhile a key-validator whose `optional` attribute is
set directly raises no Missing-key error when unmatched, which is the
behaviour the claim ascribes to the (broken) marking. -/
theorem c2_codebug :
    (∀ s : RawSchema, compileOk (.optionalS s) = false) ∧
    compile (.optionalS (.strLit "a")) = .error .attributeError ∧
    vfuel 1 (.selfV false) (.dictV [(.lit (.str "a") true, .type .str false)])
      (.dict []) = .ok (.dict []) := by
  refine ⟨fun s => (compile_wrapper_fails s).1,
    by simp [compile, Except.bind, bind], ?_⟩
  simp [vfuel, sortPairs, dictRun, initNotMatched, Validator.optional,
    missingErrors, finishErrors]

/-!
C1 — claimed: a mapping with key-validators sharing an exclusion group
raises an Exclusive-conflict error when more than one distinct key of the
group is matched.  `error.py` declares `ValidationExclusiveError` and the
formatter table covers it, but `DictValidator.validate` contains no
exclusion-group tracking at all and no code path in `validator.py` ever
raises it; moreover the `Exclusive` branch of `Schema._compile` crashes
with `AttributeError` exactly like the `Optional` branch (the library's
own tests, `test_validation_fails_with_exclusive_error`, expect the
error to be raised).  This is established by showing that no validation
outcome whatsoever contains an Exclusive-conflict error.
-/

/-- Path prepending does not change what an error contains. -/
theorem hasExclE_push (f : Data) (e : VError) :
    hasExclE (e.push f) = hasExclE e := by
  cases e <;> simp [VError.push, hasExclE]

/-- Appending error lists. -/
theorem hasExclL_append (es fs : List VError) :
    hasExclL (es ++ fs) = (hasExclL es || hasExclL fs) := by
  induction es with
  | nil => simp [hasExclL]
  | cons e es ih => simp [hasExclL, ih, Bool.or_assoc]

/-- The missing-key errors contain no Exclusive-conflict error. -/
theorem hasExclL_missing (pairs : List (Validator × Validator))
    (nm : List Nat) : hasExclL (missingErrors pairs nm) = false := by
  induction nm with
  | nil => simp [missingErrors, hasExclL]
  | cons j nm ih =>
    simp [missingErrors, hasExclL, mkMissing, hasExclE] at ih ⊢
    exact ih


/-!
Step equations for the engine's loops, in the form used to reason about
runs: one equation per branch, with the branch conditions as hypotheses.
-/

theorem listRun_nil (n : Nat) (root ev : Validator) (i : Nat) :
    listRun n root ev i [] = .ok ([], []) := by
  rw [listRun]

theorem listRun_cons_pyerr (n : Nat) (root ev : Validator) (i : Nat)
    (x : Data) (xs : List Data) (exc : PyExc)
    (h : vfuel n root ev x = .pyerror exc) :
    listRun n root ev i (x :: xs) = .error exc := by
  rw [listRun, h]

theorem listRun_cons_ok (n : Nat) (root ev : Validator) (i : Nat)
    (x y : Data) (xs nd : List Data) (es : List VError)
    (h : vfuel n root ev x = .ok y)
    (h2 : listRun n root ev (i + 1) xs = .ok (nd, es)) :
    listRun n root ev i (x :: xs) = .ok (y :: nd, es) := by
  rw [listRun, h, h2]; rfl

theorem listRun_cons_ok_err (n : Nat) (root ev : Validator) (i : Nat)
    (x y : Data) (xs : List Data) (exc : PyExc)
    (h : vfuel n root ev x = .ok y)
    (h2 : listRun n root ev (i + 1) xs = .error exc) :
    listRun n root ev i (x :: xs) = .error exc := by
  rw [listRun, h, h2]; rfl

theorem listRun_cons_verr (n : Nat) (root ev : Validator) (i : Nat)
    (x : Data) (xs nd : List Data) (e : VError) (es : List VError)
    (h : vfuel n root ev x = .verror e)
    (h2 : listRun n root ev (i + 1) xs = .ok (nd, es)) :
    listRun n root ev i (x :: xs) = .ok (nd, e.push (.int i) :: es) := by
  rw [listRun, h, h2]; rfl

theorem listRun_cons_verr_err (n : Nat) (root ev : Validator) (i : Nat)
    (x : Data) (xs : List Data) (e : VError) (exc : PyExc)
    (h : vfuel n root ev x = .verror e)
    (h2 : listRun n root ev (i + 1) xs = .error exc) :
    listRun n root ev i (x :: xs) = .error exc := by
  rw [listRun, h, h2]; rfl

theorem chainRun_nil (n : Nat) (root : Validator) (d : Data) :
    chainRun n root [] d = .ok (d, []) := by
  rw [chainRun]

theorem chainRun_cons_ok (n : Nat) (root v : Validator) (vs : List Validator)
    (d d2 : Data) (h : vfuel n root v d = .ok d2) :
    chainRun n root (v :: vs) d = chainRun n root vs d2 := by
  rw [chainRun, h]

theorem chainRun_cons_pyerr (n : Nat) (root v : Validator) (vs : List Validator)
    (d : Data) (exc : PyExc) (h : vfuel n root v d = .pyerror exc) :
    chainRun n root (v :: vs) d = .error exc := by
  rw [chainRun, h]

theorem chainRun_cons_verr (n : Nat) (root v : Validator) (vs : List Validator)
    (d df : Data) (e : VError) (es : List VError)
    (h : vfuel n root v d = .verror e)
    (h2 : chainRun n root vs d = .ok (df, es)) :
    chainRun n root (v :: vs) d = .ok (df, e :: es) := by
  rw [chainRun, h, h2]; rfl

theorem chainRun_cons_verr_err (n : Nat) (root v : Validator)
    (vs : List Validator) (d : Data) (e : VError) (exc : PyExc)
    (h : vfuel n root v d = .verror e)
    (h2 : chainRun n root vs d = .error exc) :
    chainRun n root (v :: vs) d = .error exc := by
  rw [chainRun, h, h2]; rfl

theorem tryKey_nil (n : Nat) (root : Validator) (j : Nat) (k v : Data) :
    tryKey n root [] j k v = .ok .noMatch := by
  rw [tryKey]

theorem tryKey_cons_kv_pyerr (n : Nat) (root kv vv : Validator)
    (rest : List (Validator × Validator)) (j : Nat) (k v : Data) (exc : PyExc)
    (h : vfuel n root kv k = .pyerror exc) :
    tryKey n root ((kv, vv) :: rest) j k v = .error exc := by
  rw [tryKey, h]

theorem tryKey_cons_kv_verr (n : Nat) (root kv vv : Validator)
    (rest : List (Validator × Validator)) (j : Nat) (k v : Data) (e0 : VError)
    (h : vfuel n root kv k = .verror e0) :
    tryKey n root ((kv, vv) :: rest) j k v = tryKey n root rest (j + 1) k v := by
  rw [tryKey, h]

theorem tryKey_cons_ok_vv_verr (n : Nat) (root kv vv : Validator)
    (rest : List (Validator × Validator)) (j : Nat) (k v nk : Data) (e : VError)
    (h : vfuel n root kv k = .ok nk) (h2 : vfuel n root vv v = .verror e) :
    tryKey n root ((kv, vv) :: rest) j k v = .ok (.valueFailed j e) := by
  rw [tryKey, h, h2]

theorem tryKey_cons_ok_vv_ok (n : Nat) (root kv vv : Validator)
    (rest : List (Validator × Validator)) (j : Nat) (k v nk nv : Data)
    (h : vfuel n root kv k = .ok nk) (h2 : vfuel n root vv v = .ok nv) :
    tryKey n root ((kv, vv) :: rest) j k v = .ok (.matched j nk nv) := by
  rw [tryKey, h, h2]

theorem tryKey_cons_ok_vv_pyerr (n : Nat) (root kv vv : Validator)
    (rest : List (Validator × Validator)) (j : Nat) (k v nk : Data) (exc : PyExc)
    (h : vfuel n root kv k = .ok nk) (h2 : vfuel n root vv v = .pyerror exc) :
    tryKey n root ((kv, vv) :: rest) j k v = .error exc := by
  rw [tryKey, h, h2]

theorem dictRun_nil (n : Nat) (root : Validator)
    (pairs : List (Validator × Validator)) (out : List (Data × Data))
    (notM : List Nat) : dictRun n root pairs [] out notM = .ok (out, [], notM) := by
  rw [dictRun]

theorem dictRun_cons_err (n : Nat) (root : Validator)
    (pairs : List (Validator × Validator)) (k v : Data)
    (rest : List (Data × Data)) (out : List (Data × Data)) (notM : List Nat)
    (exc : PyExc) (h : tryKey n root pairs 0 k v = .error exc) :
    dictRun n root pairs ((k, v) :: rest) out notM = .error exc := by
  rw [dictRun, h]

theorem dictRun_cons_noMatch (n : Nat) (root : Validator)
    (pairs : List (Validator × Validator)) (k v : Data)
    (rest : List (Data × Data)) (out o : List (Data × Data)) (notM nm : List Nat)
    (es : List VError) (h : tryKey n root pairs 0 k v = .ok .noMatch)
    (h2 : dictRun n root pairs rest out notM = .ok (o, es, nm)) :
    dictRun n root pairs ((k, v) :: rest) out notM =
      .ok (o, .unknownKey k [] :: es, nm) := by
  rw [dictRun, h, h2]; rfl

theorem dictRun_cons_noMatch_err (n : Nat) (root : Validator)
    (pairs : List (Validator × Validator)) (k v : Data)
    (rest : List (Data × Data)) (out : List (Data × Data)) (notM : List Nat)
    (exc : PyExc) (h : tryKey n root pairs 0 k v = .ok .noMatch)
    (h2 : dictRun n root pairs rest out notM = .error exc) :
    dictRun n root pairs ((k, v) :: rest) out notM = .error exc := by
  rw [dictRun, h, h2]; rfl

theorem dictRun_cons_valueFailed (n : Nat) (root : Validator)
    (pairs : List (Validator × Validator)) (k v : Data)
    (rest : List (Data × Data)) (out o : List (Data × Data)) (notM nm : List Nat)
    (j : Nat) (e : VError) (es : List VError)
    (h : tryKey n root pairs 0 k v = .ok (.valueFailed j e))
    (h2 : dictRun n root pairs rest out (notM.erase j) = .ok (o, es, nm)) :
    dictRun n root pairs ((k, v) :: rest) out notM =
      .ok (o, e.push k :: es, nm) := by
  rw [dictRun, h]
  show (do
    let (o1, es1, nm1) ← dictRun n root pairs rest out (notM.erase j)
    Except.ok (o1, e.push k :: es1, nm1)) = Except.ok (o, e.push k :: es, nm)
  rw [h2]
  rfl

theorem dictRun_cons_valueFailed_err (n : Nat) (root : Validator)
    (pairs : List (Validator × Validator)) (k v : Data)
    (rest : List (Data × Data)) (out : List (Data × Data)) (notM : List Nat)
    (j : Nat) (e : VError) (exc : PyExc)
    (h : tryKey n root pairs 0 k v = .ok (.valueFailed j e))
    (h2 : dictRun n root pairs rest out (notM.erase j) = .error exc) :
    dictRun n root pairs ((k, v) :: rest) out notM = .error exc := by
  rw [dictRun, h]
  show (do
    let (o1, es1, nm1) ← dictRun n root pairs rest out (notM.erase j)
    Except.ok (o1, e.push k :: es1, nm1)) = Except.error exc
  rw [h2]
  rfl

theorem dictRun_cons_matched (n : Nat) (root : Validator)
    (pairs : List (Validator × Validator)) (k v nk nv : Data)
    (rest : List (Data × Data)) (out : List (Data × Data)) (notM : List Nat)
    (j : Nat) (h : tryKey n root pairs 0 k v = .ok (.matched j nk nv)) :
    dictRun n root pairs ((k, v) :: rest) out notM =
      dictRun n root pairs rest (pyInsert out nk nv) (notM.erase j) := by
  rw [dictRun, h]

theorem vfuel_listV_run (n : Nat) (root ev : Validator) (xs nd : List Data)
    (es : List VError) (h : listRun n root ev 0 xs = .ok (nd, es)) :
    vfuel n root (.listV ev) (.list xs) =
      finishErrors (.list xs) (.ok (.list nd)) es := by
  simp only [vfuel, h]

theorem vfuel_listV_pyerr (n : Nat) (root ev : Validator) (xs : List Data)
    (exc : PyExc) (h : listRun n root ev 0 xs = .error exc) :
    vfuel n root (.listV ev) (.list xs) = .pyerror exc := by
  simp only [vfuel, h]

theorem vfuel_dictV_run (n : Nat) (root : Validator)
    (pairs : List (Validator × Validator)) (items out : List (Data × Data))
    (es : List VError) (nm : List Nat)
    (h : dictRun n root pairs (sortPairs items) [] (initNotMatched pairs) =
      .ok (out, es, nm)) :
    vfuel n root (.dictV pairs) (.dict items) =
      finishErrors (.dict items) (.ok (.dict out)) (es ++ missingErrors pairs nm) := by
  simp only [vfuel, h]

theorem vfuel_dictV_pyerr (n : Nat) (root : Validator)
    (pairs : List (Validator × Validator)) (items : List (Data × Data))
    (exc : PyExc)
    (h : dictRun n root pairs (sortPairs items) [] (initNotMatched pairs) =
      .error exc) :
    vfuel n root (.dictV pairs) (.dict items) = .pyerror exc := by
  simp only [vfuel, h]

theorem vfuel_allV_run (n : Nat) (root : Validator) (vs : List Validator)
    (o : Bool) (d df : Data) (es : List VError)
    (h : chainRun n root vs d = .ok (df, es)) :
    vfuel n root (.allV vs o) d = finishErrors df (.ok df) es := by
  simp only [vfuel, h]

theorem vfuel_allV_pyerr (n : Nat) (root : Validator) (vs : List Validator)
    (o : Bool) (d : Data) (exc : PyExc) (h : chainRun n root vs d = .error exc) :
    vfuel n root (.allV vs o) d = .pyerror exc := by
  simp only [vfuel, h]

theorem vfuel_anyV_run (n : Nat) (root : Validator) (vs : List Validator)
    (o : Bool) (d df : Data) (es : List VError)
    (h : chainRun n root vs d = .ok (df, es)) :
    vfuel n root (.anyV vs o) d =
      if es.length = vs.length then .verror (.multiple df es []) else .ok df := by
  simp only [vfuel, h]

theorem vfuel_anyV_pyerr (n : Nat) (root : Validator) (vs : List Validator)
    (o : Bool) (d : Data) (exc : PyExc) (h : chainRun n root vs d = .error exc) :
    vfuel n root (.anyV vs o) d = .pyerror exc := by
  simp only [vfuel, h]

theorem vfuel_selfV_succ (m : Nat) (root : Validator) (o : Bool) (d : Data) :
    vfuel (m + 1) root (.selfV o) d = vfuel m root root d := by
  simp only [vfuel]

theorem vfuel_selfV_zero (root : Validator) (o : Bool) (d : Data) :
    vfuel 0 root (.selfV o) d = .pyerror .recursionError := by
  simp only [vfuel]

/-- Error reduction never introduces an Exclusive-conflict error: the
result contains one only if the collected errors or the success result
did. -/
theorem hasExclR_finish (dd : Data) (okRes : VResult) (es : List VError)
    (hok : hasExclR okRes = false) (hes : hasExclL es = false) :
    hasExclR (finishErrors dd okRes es) = false := by
  cases es with
  | nil => simpa [finishErrors] using hok
  | cons e es' =>
    cases es' with
    | nil =>
      simp [hasExclL] at hes
      simp [finishErrors, hasExclR, hes]
    | cons e2 es'' =>
      simp [finishErrors, hasExclR, hasExclE, hes]

/-- Joint statement over the whole engine: no validation outcome contains
an Exclusive-conflict error, and none of the engine's loops ever collects
one.  Proved by the functional induction principle of the engine. -/
theorem noExcl_main :
    (∀ (n : Nat) (root v : Validator) (d : Data),
      hasExclR (vfuel n root v d) = false) ∧
    (∀ (n : Nat) (root : Validator) (vs : List Validator) (d : Data),
      ∀ df es, chainRun n root vs d = Except.ok (df, es) → hasExclL es = false) ∧
    (∀ (n : Nat) (root : Validator) (pairs : List (Validator × Validator))
      (items out : List (Data × Data)) (notM : List Nat),
      ∀ o es nm, dictRun n root pairs items out notM = Except.ok (o, es, nm) →
        hasExclL es = false) ∧
    (∀ (n : Nat) (root : Validator) (ps : List (Validator × Validator))
      (j : Nat) (k v : Data),
      ∀ j2 e, tryKey n root ps j k v = Except.ok (.valueFailed j2 e) →
        hasExclE e = false) ∧
    (∀ (n : Nat) (root ev : Validator) (i : Nat) (xs : List Data),
      ∀ nd es, listRun n root ev i xs = Except.ok (nd, es) → hasExclL es = false) := by
  apply vfuel.mutual_induct
  case case1 => intro n root L opt d h; simp [vfuel, h, hasExclR]
  case case2 => intro n root L opt d h; simp [vfuel, h, hasExclR, hasExclE]
  case case3 => intro n root t opt d h; simp [vfuel, h, hasExclR]
  case case4 => intro n root t opt d h; simp [vfuel, h, hasExclR, hasExclE]
  case case5 => intro n root test opt s h; simp [vfuel, h, hasExclR]
  case case6 => intro n root test opt s h; simp [vfuel, h, hasExclR, hasExclE]
  case case7 =>
    intro n root test opt d h
    cases d
    case str s => exact absurd rfl (h s)
    all_goals simp [vfuel, hasExclR, hasExclE]
  case case8 =>
    intro n root ev xs exc h _
    rw [vfuel_listV_pyerr n root ev xs exc h]
    rfl
  case case9 =>
    intro n root ev xs nd errs h ih
    rw [vfuel_listV_run n root ev xs nd errs h]
    apply hasExclR_finish
    · rfl
    · exact ih nd errs h
  case case10 =>
    intro n root ev d h
    cases d
    case list xs => exact absurd rfl (h xs)
    all_goals simp [vfuel, hasExclR, hasExclE]
  case case11 =>
    intro n root pairs items exc h _
    rw [vfuel_dictV_pyerr n root pairs items exc h]
    rfl
  case case12 =>
    intro n root pairs items out errs nm h ih
    rw [vfuel_dictV_run n root pairs items out errs nm h]
    apply hasExclR_finish
    · rfl
    · rw [hasExclL_append, ih out errs nm h, hasExclL_missing]
      rfl
  case case13 =>
    intro n root pairs d h
    cases d
    case dict items => exact absurd rfl (h items)
    all_goals simp [vfuel, hasExclR, hasExclE]
  case case14 =>
    intro root opt d
    rw [vfuel_selfV_zero]
    rfl
  case case15 =>
    intro root opt d m ih
    rw [vfuel_selfV_succ]
    exact ih
  case case16 =>
    intro n root vs opt d exc h _
    rw [vfuel_allV_pyerr n root vs opt d exc h]
    rfl
  case case17 =>
    intro n root vs opt d df errs h ih
    rw [vfuel_allV_run n root vs opt d df errs h]
    apply hasExclR_finish
    · rfl
    · exact ih df errs h
  case case18 =>
    intro n root vs opt d exc h _
    rw [vfuel_anyV_pyerr n root vs opt d exc h]
    rfl
  case case19 =>
    intro n root vs opt d df errs h hlen ih
    rw [vfuel_anyV_run n root vs opt d df errs h]
    simp [hlen, hasExclR, hasExclE, ih df errs h]
  case case20 =>
    intro n root vs opt d df errs h hlen ih
    rw [vfuel_anyV_run n root vs opt d df errs h]
    simp [hlen, hasExclR]
  case case21 => intro n root f d nd h; simp [vfuel, h, hasExclR]
  case case22 => intro n root f d exc h; simp [vfuel, h, hasExclR, hasExclE]
  case case23 => intro n root mn mx d exc h; simp [vfuel, h, hasExclR]
  case case24 =>
    intro n root mn mx d l h hb
    simp [vfuel, h, hb, hasExclR, hasExclE]
  case case25 =>
    intro n root mn mx d l h hb ha
    rw [Bool.not_eq_true] at hb
    simp [vfuel, h, hb, ha, hasExclR, hasExclE]
  case case26 =>
    intro n root mn mx d l h hb ha
    rw [Bool.not_eq_true] at hb
    rw [Bool.not_eq_true] at ha
    simp [vfuel, h, hb, ha, hasExclR]
  case case27 =>
    intro n root d df es h
    rw [chainRun_nil] at h
    simp at h
    rw [h.2]
    rfl
  case case28 =>
    intro n root v vs d exc h _ df es hc
    rw [chainRun_cons_pyerr n root v vs d exc h] at hc
    exact absurd hc (by simp)
  case case29 =>
    intro n root v vs d e h ihv ih df es hc
    cases hrest : chainRun n root vs d with
    | error exc =>
      rw [chainRun_cons_verr_err n root v vs d e exc h hrest] at hc
      exact absurd hc (by simp)
    | ok q =>
      obtain ⟨df', es'⟩ := q
      rw [chainRun_cons_verr n root v vs d df' e es' h hrest] at hc
      simp at hc
      have he : hasExclE e = false := by
        rw [h] at ihv
        simpa [hasExclR] using ihv
      rw [← hc.2]
      simp [hasExclL, he, ih df' es' hrest]
  case case30 =>
    intro n root v vs d nv h _ ih df es hc
    rw [chainRun_cons_ok n root v vs d nv h] at hc
    exact ih df es hc
  case case31 =>
    intro n root pairs out notM o es nm h
    rw [dictRun_nil] at h
    simp at h
    rw [h.2.1]
    rfl
  case case32 =>
    intro n root pairs k v rest out notM exc h _ o es nm hd
    rw [dictRun_cons_err n root pairs k v rest out notM exc h] at hd
    exact absurd hd (by simp)
  case case33 =>
    intro n root pairs k v rest out notM h _ ih o es nm hd
    cases hrest : dictRun n root pairs rest out notM with
    | error exc =>
      rw [dictRun_cons_noMatch_err n root pairs k v rest out notM exc h hrest] at hd
      exact absurd hd (by simp)
    | ok q =>
      obtain ⟨o', es', nm'⟩ := q
      rw [dictRun_cons_noMatch n root pairs k v rest out o' notM nm' es' h hrest] at hd
      simp at hd
      rw [← hd.2.1]
      simp [hasExclL, hasExclE, ih o' es' nm' hrest]
  case case34 =>
    intro n root pairs k v rest out notM j e h ihtk ih o es nm hd
    cases hrest : dictRun n root pairs rest out (notM.erase j) with
    | error exc =>
      rw [dictRun_cons_valueFailed_err n root pairs k v rest out notM j e exc h hrest] at hd
      exact absurd hd (by simp)
    | ok q =>
      obtain ⟨o', es', nm'⟩ := q
      rw [dictRun_cons_valueFailed n root pairs k v rest out o' notM nm' j e es' h hrest] at hd
      simp at hd
      rw [← hd.2.1]
      simp [hasExclL, hasExclE_push, ihtk j e h, ih o' es' nm' hrest]
  case case35 =>
    intro n root pairs k v rest out notM j nk nv h _ ih o es nm hd
    rw [dictRun_cons_matched n root pairs k v nk nv rest out notM j h] at hd
    exact ih o es nm hd
  case case36 =>
    intro n root j k v j2 e h
    rw [tryKey_nil] at h
    exact absurd h (by simp)
  case case37 =>
    intro n root kv vv rest j k v exc h _ j2 e htk
    rw [tryKey_cons_kv_pyerr n root kv vv rest j k v exc h] at htk
    exact absurd htk (by simp)
  case case38 =>
    intro n root kv vv rest j k v e0 h _ ih j2 e htk
    rw [tryKey_cons_kv_verr n root kv vv rest j k v e0 h] at htk
    exact ih j2 e htk
  case case39 =>
    intro n root kv vv rest j k v nk h exc hv _ _ j2 e htk
    rw [tryKey_cons_ok_vv_pyerr n root kv vv rest j k v nk exc h hv] at htk
    exact absurd htk (by simp)
  case case40 =>
    intro n root kv vv rest j k v nk h e0 hv _ ihv j2 e htk
    rw [tryKey_cons_ok_vv_verr n root kv vv rest j k v nk e0 h hv] at htk
    simp at htk
    have he0 : hasExclE e0 = false := by
      rw [hv] at ihv
      simpa [hasExclR] using ihv
    rw [← htk.2]
    exact he0
  case case41 =>
    intro n root kv vv rest j k v nk h nv hv _ _ j2 e htk
    rw [tryKey_cons_ok_vv_ok n root kv vv rest j k v nk nv h hv] at htk
    exact absurd htk (by simp)
  case case42 =>
    intro n root ev i nd es h
    rw [listRun_nil] at h
    simp at h
    rw [h.2]
    rfl
  case case43 =>
    intro n root ev i x xs exc h _ nd es hl
    rw [listRun_cons_pyerr n root ev i x xs exc h] at hl
    exact absurd hl (by simp)
  case case44 =>
    intro n root ev i x xs y h _ ih nd es hl
    cases hrest : listRun n root ev (i + 1) xs with
    | error exc =>
      rw [listRun_cons_ok_err n root ev i x y xs exc h hrest] at hl
      exact absurd hl (by simp)
    | ok q =>
      obtain ⟨nd', es'⟩ := q
      rw [listRun_cons_ok n root ev i x y xs nd' es' h hrest] at hl
      simp at hl
      rw [← hl.2]
      exact ih nd' es' hrest
  case case45 =>
    intro n root ev i x xs e h ihv ih nd es hl
    cases hrest : listRun n root ev (i + 1) xs with
    | error exc =>
      rw [listRun_cons_verr_err n root ev i x xs e exc h hrest] at hl
      exact absurd hl (by simp)
    | ok q =>
      obtain ⟨nd', es'⟩ := q
      rw [listRun_cons_verr n root ev i x xs nd' e es' h hrest] at hl
      simp at hl
      have he : hasExclE e = false := by
        rw [h] at ihv
        simpa [hasExclR] using ihv
      rw [← hl.2]
      simp [hasExclL, hasExclE_push, he, ih nd' es' hrest]

/-- C1: contrary to the claim, no Exclusive-conflict error can ever be
raised: compiling an `Exclusive` wrapper never succeeds (it raises
`AttributeError`), no validation outcome contains an Exclusive-conflict
error (nothing in `validator.py` raises one), and the mapping
`{1: str, 2: str}` with both keys of the claimed exclusion group present —
the library's own exclusivity test scenario — validates successfully
instead of raising. -/
theorem c1_codebug :
    (∀ (s : RawSchema) (g : String), compileOk (.exclusiveS s g) = false) ∧
    (∀ (n : Nat) (root v : Validator) (d : Data),
      hasExclR (vfuel n root v d) = false) ∧
    vfuel 1 (.selfV false)
      (.dictV [(.lit (.int 1) false, .type .str false),
               (.lit (.int 2) false, .type .str false)])
      (.dict [(.int 1, .str "x"), (.int 2, .str "y")]) =
    .ok (.dict [(.int 1, .str "x"), (.int 2, .str "y")]) := by
  refine ⟨fun s g => (compile_wrapper_fails s).2 g, noExcl_main.1, ?_⟩
  simp [vfuel, dictRun, tryKey, sortPairs, insertPair, cmpKey, cmpInt, numVal,
    pyEq, isinstance, pyInsert, initNotMatched, Validator.optional,
    missingErrors, finishErrors, Except.bind, bind, List.erase]

/-!
C4 — claimed: when a key-validator accepts an input key but the paired
value-validator fails, the key is prepended to the sub-error's path, the
key is not added to the output, no Unknown-key error is recorded for it,
and the key-validator is *not* counted as matched (so a Missing-key error
is still emitted if it is required).  In the source the removal from
`key_validators_not_matched` happens in the `else` clause of the *key*
validation, before the value is validated, so the key-validator *is*
counted as matched even when the value fails and no Missing-key error is
emitted for it.
-/

/-- The not-matched set only ever shrinks along the item loop. -/
theorem dictRun_notM_subset (n : Nat) (root : Validator)
    (pairs : List (Validator × Validator)) :
    ∀ (items : List (Data × Data)) (out : List (Data × Data)) (notM : List Nat)
      (o : List (Data × Data)) (es : List VError) (nm : List Nat),
    dictRun n root pairs items out notM = .ok (o, es, nm) →
    ∀ x, x ∈ nm → x ∈ notM := by
  intro items
  induction items with
  | nil =>
    intro out notM o es nm h x hx
    rw [dictRun_nil] at h
    simp at h
    rw [h.2.2]
    exact hx
  | cons p rest ih =>
    intro out notM o es nm h x hx
    obtain ⟨k, v⟩ := p
    cases htk : tryKey n root pairs 0 k v with
    | error exc =>
      rw [dictRun_cons_err n root pairs k v rest out notM exc htk] at h
      exact absurd h (by simp)
    | ok oc =>
      cases oc with
      | noMatch =>
        cases hrest : dictRun n root pairs rest out notM with
        | error exc =>
          rw [dictRun_cons_noMatch_err n root pairs k v rest out notM exc htk hrest] at h
          exact absurd h (by simp)
        | ok q =>
          obtain ⟨o', es', nm'⟩ := q
          rw [dictRun_cons_noMatch n root pairs k v rest out o' notM nm' es' htk hrest] at h
          simp at h
          exact ih out notM o' es' nm' hrest x (h.2.2 ▸ hx)
      | valueFailed j e =>
        cases hrest : dictRun n root pairs rest out (notM.erase j) with
        | error exc =>
          rw [dictRun_cons_valueFailed_err n root pairs k v rest out notM j e exc htk hrest] at h
          exact absurd h (by simp)
        | ok q =>
          obtain ⟨o', es', nm'⟩ := q
          rw [dictRun_cons_valueFailed n root pairs k v rest out o' notM nm' j e es' htk hrest] at h
          simp at h
          have hmem := ih out (notM.erase j) o' es' nm' hrest x (h.2.2 ▸ hx)
          exact List.mem_of_mem_erase hmem
      | matched j nk nv =>
        rw [dictRun_cons_matched n root pairs k v nk nv rest out notM j htk] at h
        have hmem := ih (pyInsert out nk nv) (notM.erase j) o es nm h x hx
        exact List.mem_of_mem_erase hmem

/-- C4 counterexample: mapping `{'a': str}` on `{'a': 1}` — the key `'a'`
is accepted and its value fails — raises the single value error with the
key prepended to its path, and the outcome contains no Missing-key error
anywhere, although the claim requires one for the never-successfully-
matched required key-validator. -/
theorem c4_counterexample :
    vfuel 1 (.selfV false) (.dictV [(.lit (.str "a") false, .type .str false)])
      (.dict [(.str "a", .int 1)]) =
    .verror (.typeErr .str (.int 1) [.str "a"]) ∧
    hasMissingR (vfuel 1 (.selfV false)
      (.dictV [(.lit (.str "a") false, .type .str false)])
      (.dict [(.str "a", .int 1)])) = false := by
  have h : vfuel 1 (.selfV false)
      (.dictV [(.lit (.str "a") false, .type .str false)])
      (.dict [(.str "a", .int 1)]) =
      .verror (.typeErr .str (.int 1) [.str "a"]) := by
    simp [vfuel, dictRun, tryKey, sortPairs, insertPair, pyEq, isinstance,
      initNotMatched, Validator.optional, missingErrors, finishErrors,
      VError.push, Except.bind, bind, List.erase]
  exact ⟨h, by rw [h]; rfl⟩

/-- C4 amended: when the first key-validator accepting an input key has a
failing value-validator, the item loop records exactly the value error
with the key prepended to its path (in particular no Unknown-key error for
that key), leaves the output mapping untouched for that item, and — contrary
to the original claim — counts the key-validator (index `j`) as matched,
removing it from the not-matched set, so index `j` does not survive to the
final not-matched set and no Missing-key error is generated from it. -/
theorem c4_amended (n : Nat) (root : Validator)
    (pairs : List (Validator × Validator)) (k v : Data)
    (rest : List (Data × Data)) (out o : List (Data × Data)) (notM nm : List Nat)
    (j : Nat) (e : VError) (es : List VError)
    (hnd : notM.Nodup)
    (hmatch : tryKey n root pairs 0 k v = .ok (.valueFailed j e))
    (hrest : dictRun n root pairs rest out (notM.erase j) = .ok (o, es, nm)) :
    dictRun n root pairs ((k, v) :: rest) out notM =
      .ok (o, e.push k :: es, nm) ∧ j ∉ nm := by
  refine ⟨dictRun_cons_valueFailed n root pairs k v rest out o notM nm j e es
    hmatch hrest, fun hj => ?_⟩
  have hmem := dictRun_notM_subset n root pairs rest out (notM.erase j)
    o es nm hrest j hj
  exact hnd.not_mem_erase hmem

/-- C4 witness: the amended behaviour at the counterexample input — one
required key-validator, key accepted, value fails: the run returns the
pushed error, no output entry, and the not-matched set is emptied. -/
theorem c4_witness :
    dictRun 1 (.selfV false) [(.lit (.str "a") false, .type .str false)]
      [(.str "a", .int 1)] [] [0] =
      .ok ([], [VError.typeErr .str (.int 1) [.str "a"]], []) ∧ 0 ∉ ([] : List Nat) := by
  have h := c4_amended 1 (.selfV false)
    [(.lit (.str "a") false, .type .str false)] (.str "a") (.int 1)
    [] [] [] [0] [] 0 (.typeErr .str (.int 1) []) []
    (by simp)
    (by simp [tryKey, vfuel, pyEq, isinstance])
    (by simp [List.erase, dictRun])
  simpa [VError.push] using h

/-!
C8 — helper lemmas about sorted-normal data and the engine.
-/

/-- Scalars are trivially sorted-normal. -/
theorem scalar_dsorted (a : Data) (h : isScalar a = true) : dsorted a = true := by
  cases a <;> simp_all [isScalar, dsorted]

/-- Strictly `cmpKey`-smaller scalar keys are not Python-`==`-equal. -/
theorem cmpKey_lt_pyEq_false (a b : Data) (ha : isScalar a = true)
    (hb : isScalar b = true) (hlt : cmpKey a b = .lt) : pyEq a b = false := by
  cases a with
  | str s =>
    cases b with
    | str t =>
      simp only [cmpKey, numVal, cmpStr] at hlt
      split_ifs at hlt with h1 h2
      simp only [pyEq, beq_eq_false_iff_ne, ne_eq]
      intro he
      subst he
      exact lt_irrefl _ h1
    | _ => simp [pyEq]
  | int x =>
    cases b with
    | int y =>
      simp only [cmpKey, numVal, cmpInt] at hlt
      split_ifs at hlt with h1 h2
      simp only [pyEq, beq_eq_false_iff_ne, ne_eq]
      omega
    | bool c =>
      cases c <;> simp only [cmpKey, numVal, cmpInt] at hlt <;>
        split_ifs at hlt with h1 h2 <;>
        first
          | (simp [pyEq]; omega)
          | simp_all
    | _ => simp [pyEq]
  | bool c =>
    cases b with
    | int y =>
      cases c <;> simp only [cmpKey, numVal, cmpInt] at hlt <;>
        split_ifs at hlt with h1 h2 <;> (simp [pyEq]; omega)
    | bool c2 =>
      cases c <;> cases c2 <;>
        simp only [cmpKey, numVal, cmpInt] at hlt <;>
        split_ifs at hlt with h1 h2 <;> simp_all [pyEq]
    | _ => simp [pyEq]
  | none =>
    cases b with
    | none => simp [cmpKey, numVal, cmpNat, keyRank] at hlt
    | _ => simp [pyEq]
  | list xs => simp [isScalar] at ha
  | dict xs => simp [isScalar] at ha

/-- A pair list in all-pairs strict key order is a fixed point of the
sort. -/
theorem sortPairs_of_sorted :
    ∀ (xs : List (Data × Data)), pairwiseLtKeys xs = true → sortPairs xs = xs := by
  intro xs
  induction xs with
  | nil => simp [sortPairs]
  | cons p rest ih =>
    intro h
    simp [pairwiseLtKeys] at h
    rw [sortPairs, ih h.2]
    cases rest with
    | nil => rfl
    | cons q rest' =>
      have hq : cmpKey p.1 q.1 = .lt := by
        have hx := h.1 q.1 q.2 (by simp)
        exact hx
      simp [insertPair, hq]

/-- Python dict assignment appends when no stored key is `==`-equal to the
new one. -/
theorem pyInsert_append :
    ∀ (out : List (Data × Data)) (k v : Data),
    (∀ p ∈ out, pyEq p.1 k = false) →
    pyInsert out k v = out ++ [(k, v)] := by
  intro out
  induction out with
  | nil => intro k v _; rfl
  | cons q rest ih =>
    intro k v h
    have hq : pyEq q.1 k = false := h q (by simp)
    simp [pyInsert, hq]
    exact ih k v fun p hp => h p (by simp [hp])

/-- Error reduction returns normally only when no error was collected. -/
theorem finishErrors_ok (dd : Data) (res : VResult) (es : List VError)
    (e : Data) (h : finishErrors dd res es = .ok e) :
    es = [] ∧ res = .ok e := by
  cases es with
  | nil => exact ⟨rfl, h⟩
  | cons e1 es' =>
    cases es' with
    | nil => exact absurd h (by simp [finishErrors])
    | cons e2 es'' => exact absurd h (by simp [finishErrors])

/-- Membership facts from a sorted-normal pair list. -/
theorem dsortedP_mem :
    ∀ (ps : List (Data × Data)), dsortedP ps = true →
    ∀ q ∈ ps, isScalar q.1 = true ∧ dsorted q.2 = true := by
  intro ps
  induction ps with
  | nil => intro _ q hq; exact absurd hq (by simp)
  | cons p rest ih =>
    intro h q hq
    obtain ⟨k, v⟩ := p
    simp [dsortedP] at h
    rcases List.mem_cons.mp hq with h1 | h2
    · rw [h1]; exact ⟨h.1.1, h.1.2⟩
    · exact ih h.2 q h2

/-- Joint statement over the whole engine: on function-free validator
trees, successful validation of sorted-normal data returns it unchanged
(the only data transformations a transform-free tree performs are the
key-sorted rebuilds of mappings, which fix sorted-normal data).  Proved by
the functional induction principle of the engine. -/
theorem identity_main :
    (∀ (n : Nat) (root v : Validator) (d : Data),
      funcFreeV root = true → funcFreeV v = true → dsorted d = true →
      ∀ e, vfuel n root v d = .ok e → e = d) ∧
    (∀ (n : Nat) (root : Validator) (vs : List Validator) (d : Data),
      funcFreeV root = true → funcFreeL vs = true → dsorted d = true →
      ∀ df es, chainRun n root vs d = Except.ok (df, es) → df = d) ∧
    (∀ (n : Nat) (root : Validator) (pairs : List (Validator × Validator))
      (items out : List (Data × Data)) (notM : List Nat),
      funcFreeV root = true → funcFreeP pairs = true →
      dsortedP items = true → pairwiseLtKeys items = true →
      (∀ q ∈ items, ∀ p ∈ out, pyEq p.1 q.1 = false) →
      ∀ o es nm, dictRun n root pairs items out notM = Except.ok (o, es, nm) →
        es = [] → o = out ++ items) ∧
    (∀ (n : Nat) (root : Validator) (ps : List (Validator × Validator))
      (j : Nat) (k v : Data),
      funcFreeV root = true → funcFreeP ps = true →
      isScalar k = true → dsorted v = true →
      ∀ j2 nk nv, tryKey n root ps j k v = Except.ok (.matched j2 nk nv) →
        nk = k ∧ nv = v) ∧
    (∀ (n : Nat) (root ev : Validator) (i : Nat) (xs : List Data),
      funcFreeV root = true → funcFreeV ev = true → dsortedL xs = true →
      ∀ nd es, listRun n root ev i xs = Except.ok (nd, es) → es = [] → nd = xs) := by
  apply vfuel.mutual_induct
  case case1 =>
    intro n root L opt d hpy hfr hfv hds e h
    simp [vfuel, hpy] at h
    subst h
    rfl
  case case2 =>
    intro n root L opt d hpy hfr hfv hds e h
    simp [vfuel, hpy] at h
  case case3 =>
    intro n root t opt d hin hfr hfv hds e h
    simp [vfuel, hin] at h
    subst h
    rfl
  case case4 =>
    intro n root t opt d hin hfr hfv hds e h
    simp [vfuel, hin] at h
  case case5 =>
    intro n root test opt s hts hfr hfv hds e h
    simp [vfuel, hts] at h
    subst h
    rfl
  case case6 =>
    intro n root test opt s hts hfr hfv hds e h
    simp [vfuel, hts] at h
  case case7 =>
    intro n root test opt d hne hfr hfv hds e h
    cases d
    case str s => exact absurd rfl (hne s)
    all_goals simp [vfuel] at h
  case case8 =>
    intro n root ev xs exc hlr _ hfr hfv hds e h
    rw [vfuel_listV_pyerr n root ev xs exc hlr] at h
    exact absurd h (by simp)
  case case9 =>
    intro n root ev xs nd errs hrun ih hfr hfv hds e h
    rw [vfuel_listV_run n root ev xs nd errs hrun] at h
    obtain ⟨hes, hok⟩ := finishErrors_ok _ _ _ _ h
    simp [funcFreeV] at hfv
    simp [dsorted] at hds
    have hnd := ih hfr hfv hds nd errs hrun hes
    simp at hok
    rw [← hok, hnd]
  case case10 =>
    intro n root ev d hne hfr hfv hds e h
    cases d
    case list xs => exact absurd rfl (hne xs)
    all_goals simp [vfuel] at h
  case case11 =>
    intro n root pairs items exc hdr _ hfr hfv hds e h
    rw [vfuel_dictV_pyerr n root pairs items exc hdr] at h
    exact absurd h (by simp)
  case case12 =>
    intro n root pairs items out errs nm hrun ih hfr hfv hds e h
    rw [vfuel_dictV_run n root pairs items out errs nm hrun] at h
    obtain ⟨hes, hok⟩ := finishErrors_ok _ _ _ _ h
    rw [List.append_eq_nil] at hes
    simp [funcFreeV] at hfv
    simp [dsorted] at hds
    have hfix : sortPairs items = items := sortPairs_of_sorted items hds.1
    rw [hfix] at hrun ih
    have hout := ih hfr hfv hds.2 hds.1 (by intro q _ p hp; simp at hp)
      out errs nm hrun hes.1
    simp at hout hok
    rw [← hok, hout]
  case case13 =>
    intro n root pairs d hne hfr hfv hds e h
    cases d
    case dict items => exact absurd rfl (hne items)
    all_goals simp [vfuel] at h
  case case14 =>
    intro root opt d hfr hfv hds e h
    rw [vfuel_selfV_zero] at h
    exact absurd h (by simp)
  case case15 =>
    intro root opt d m ih hfr hfv hds e h
    rw [vfuel_selfV_succ] at h
    exact ih hfr hfr hds e h
  case case16 =>
    intro n root vs opt d exc hcr _ hfr hfv hds e h
    rw [vfuel_allV_pyerr n root vs opt d exc hcr] at h
    exact absurd h (by simp)
  case case17 =>
    intro n root vs opt d df errs hcr ih hfr hfv hds e h
    rw [vfuel_allV_run n root vs opt d df errs hcr] at h
    obtain ⟨hes, hok⟩ := finishErrors_ok _ _ _ _ h
    simp [funcFreeV] at hfv
    have hdf := ih hfr hfv hds df errs hcr
    simp at hok
    rw [← hok, hdf]
  case case18 =>
    intro n root vs opt d exc hcr _ hfr hfv hds e h
    rw [vfuel_anyV_pyerr n root vs opt d exc hcr] at h
    exact absurd h (by simp)
  case case19 =>
    intro n root vs opt d df errs hcr hlen ih hfr hfv hds e h
    rw [vfuel_anyV_run n root vs opt d df errs hcr] at h
    simp [hlen] at h
  case case20 =>
    intro n root vs opt d df errs hcr hlen ih hfr hfv hds e h
    rw [vfuel_anyV_run n root vs opt d df errs hcr] at h
    simp [hlen] at h
    simp [funcFreeV] at hfv
    have hdf := ih hfr hfv hds df errs hcr
    rw [← h, hdf]
  case case21 =>
    intro n root f d nd hf hfr hfv hds e h
    simp [funcFreeV] at hfv
  case case22 =>
    intro n root f d exc hf hfr hfv hds e h
    simp [funcFreeV] at hfv
  case case23 =>
    intro n root mn mx d exc hp hfr hfv hds e h
    simp [vfuel, hp] at h
  case case24 =>
    intro n root mn mx d l hp hb hfr hfv hds e h
    simp [vfuel, hp, hb] at h
  case case25 =>
    intro n root mn mx d l hp hb ha hfr hfv hds e h
    rw [Bool.not_eq_true] at hb
    simp [vfuel, hp, hb, ha] at h
  case case26 =>
    intro n root mn mx d l hp hb ha hfr hfv hds e h
    rw [Bool.not_eq_true] at hb
    rw [Bool.not_eq_true] at ha
    simp [vfuel, hp, hb, ha] at h
    subst h
    rfl
  case case27 =>
    intro n root d hfr hfv hds df es h
    rw [chainRun_nil] at h
    simp at h
    exact h.1.symm
  case case28 =>
    intro n root v vs d exc hv _ hfr hfv hds df es h
    rw [chainRun_cons_pyerr n root v vs d exc hv] at h
    exact absurd h (by simp)
  case case29 =>
    intro n root v vs d e hv _ ih hfr hfv hds df es h
    simp [funcFreeL] at hfv
    cases hrest : chainRun n root vs d with
    | error exc =>
      rw [chainRun_cons_verr_err n root v vs d e exc hv hrest] at h
      exact absurd h (by simp)
    | ok q =>
      obtain ⟨df', es'⟩ := q
      rw [chainRun_cons_verr n root v vs d df' e es' hv hrest] at h
      simp at h
      have hdf' := ih hfr hfv.2 hds df' es' hrest
      rw [← h.1, hdf']
  case case30 =>
    intro n root v vs d nv hv ihv ih hfr hfv hds df es h
    simp [funcFreeL] at hfv
    have hnv : nv = d := ihv hfr hfv.1 hds nv hv
    rw [chainRun_cons_ok n root v vs d nv hv] at h
    subst hnv
    exact ih hfr hfv.2 hds df es h
  case case31 =>
    intro n root pairs out notM hfr hfp hdsp hpl hd o es nm h _
    rw [dictRun_nil] at h
    simp at h
    rw [← h.1]
    simp
  case case32 =>
    intro n root pairs k v rest out notM exc htk _ hfr hfp hdsp hpl hd o es nm h _
    rw [dictRun_cons_err n root pairs k v rest out notM exc htk] at h
    exact absurd h (by simp)
  case case33 =>
    intro n root pairs k v rest out notM htk _ ih hfr hfp hdsp hpl hd o es nm h hes
    cases hrest : dictRun n root pairs rest out notM with
    | error exc =>
      rw [dictRun_cons_noMatch_err n root pairs k v rest out notM exc htk hrest] at h
      exact absurd h (by simp)
    | ok q =>
      obtain ⟨o', es', nm'⟩ := q
      rw [dictRun_cons_noMatch n root pairs k v rest out o' notM nm' es' htk hrest] at h
      simp at h
      rw [← h.2.1] at hes
      exact absurd hes (by simp)
  case case34 =>
    intro n root pairs k v rest out notM j e htk _ ih hfr hfp hdsp hpl hd o es nm h hes
    cases hrest : dictRun n root pairs rest out (notM.erase j) with
    | error exc =>
      rw [dictRun_cons_valueFailed_err n root pairs k v rest out notM j e exc htk hrest] at h
      exact absurd h (by simp)
    | ok q =>
      obtain ⟨o', es', nm'⟩ := q
      rw [dictRun_cons_valueFailed n root pairs k v rest out o' notM nm' j e es' htk hrest] at h
      simp at h
      rw [← h.2.1] at hes
      exact absurd hes (by simp)
  case case35 =>
    intro n root pairs k v rest out notM j nk nv htk ihtk ih hfr hfp hdsp hpl hd o es nm h hes
    simp [dsortedP] at hdsp
    simp [pairwiseLtKeys] at hpl
    obtain ⟨hnk, hnv⟩ := ihtk hfr hfp hdsp.1.1 hdsp.1.2 j nk nv htk
    rw [dictRun_cons_matched n root pairs k v nk nv rest out notM j htk] at h
    rw [hnk, hnv] at h ih
    have hins : pyInsert out k v = out ++ [(k, v)] :=
      pyInsert_append out k v (fun p hp => hd (k, v) (by simp) p hp)
    rw [hins] at h ih
    have hdisj : ∀ q ∈ rest, ∀ p ∈ out ++ [(k, v)], pyEq p.1 q.1 = false := by
      intro q hq p hp
      rw [List.mem_append] at hp
      cases hp with
      | inl hp0 => exact hd q (by simp [hq]) p hp0
      | inr hp1 =>
        simp at hp1
        rw [hp1]
        have hlt := hpl.1 q.1 q.2 hq
        exact cmpKey_lt_pyEq_false k q.1 hdsp.1.1
          ((dsortedP_mem rest hdsp.2 q hq).1) hlt
    have hrest := ih hfr hfp hdsp.2 hpl.2 hdisj o es nm h hes
    rw [hrest, List.append_assoc]
    rfl
  case case36 =>
    intro n root j k v hfr hfp hsk hdv j2 nk nv h
    rw [tryKey_nil] at h
    exact absurd h (by simp)
  case case37 =>
    intro n root kv vv rest j k v exc hk _ hfr hfp hsk hdv j2 nk nv h
    rw [tryKey_cons_kv_pyerr n root kv vv rest j k v exc hk] at h
    exact absurd h (by simp)
  case case38 =>
    intro n root kv vv rest j k v e0 hk _ ih hfr hfp hsk hdv j2 nk nv h
    simp [funcFreeP] at hfp
    rw [tryKey_cons_kv_verr n root kv vv rest j k v e0 hk] at h
    exact ih hfr hfp.2 hsk hdv j2 nk nv h
  case case39 =>
    intro n root kv vv rest j k v nk0 hk exc hv _ _ hfr hfp hsk hdv j2 nk nv h
    rw [tryKey_cons_ok_vv_pyerr n root kv vv rest j k v nk0 exc hk hv] at h
    exact absurd h (by simp)
  case case40 =>
    intro n root kv vv rest j k v nk0 hk e0 hv _ _ hfr hfp hsk hdv j2 nk nv h
    rw [tryKey_cons_ok_vv_verr n root kv vv rest j k v nk0 e0 hk hv] at h
    exact absurd h (by simp)
  case case41 =>
    intro n root kv vv rest j k v nk0 hk nv0 hv ihkv ihvv hfr hfp hsk hdv j2 nk nv h
    simp [funcFreeP] at hfp
    rw [tryKey_cons_ok_vv_ok n root kv vv rest j k v nk0 nv0 hk hv] at h
    simp at h
    have h1 : nk0 = k := ihkv hfr hfp.1.1 (scalar_dsorted k hsk) nk0 hk
    have h2 : nv0 = v := ihvv hfr hfp.1.2 hdv nv0 hv
    exact ⟨h.2.1 ▸ h1, h.2.2 ▸ h2⟩
  case case42 =>
    intro n root ev i hfr hfv hds nd es h _
    rw [listRun_nil] at h
    simp at h
    exact h.1
  case case43 =>
    intro n root ev i x xs exc hx _ hfr hfv hds nd es h _
    rw [listRun_cons_pyerr n root ev i x xs exc hx] at h
    exact absurd h (by simp)
  case case44 =>
    intro n root ev i x xs y hx ihx ih hfr hfv hds nd es h hes
    simp [dsortedL] at hds
    cases hrest : listRun n root ev (i + 1) xs with
    | error exc =>
      rw [listRun_cons_ok_err n root ev i x y xs exc hx hrest] at h
      exact absurd h (by simp)
    | ok q =>
      obtain ⟨nd', es'⟩ := q
      rw [listRun_cons_ok n root ev i x y xs nd' es' hx hrest] at h
      simp at h
      rw [← h.2] at hes
      have hy : y = x := ihx hfr hfv hds.1 y hx
      have hnd' := ih hfr hfv hds.2 nd' es' hrest hes
      rw [← h.1, hy, hnd']
  case case45 =>
    intro n root ev i x xs e hx _ ih hfr hfv hds nd es h hes
    cases hrest : listRun n root ev (i + 1) xs with
    | error exc =>
      rw [listRun_cons_verr_err n root ev i x xs e exc hx hrest] at h
      exact absurd h (by simp)
    | ok q =>
      obtain ⟨nd', es'⟩ := q
      rw [listRun_cons_verr n root ev i x xs nd' e es' hx hrest] at h
      simp at h
      rw [← h.2] at hes
      exact absurd hes (by simp)

/-- C8 counterexample: a schema holding a callable transform is not
idempotent — validating `0` yields `1`, but re-validating the normalized
output `1` yields `2`, not an output equal to `1`. -/
theorem c8_counterexample :
    compile (.funcS inc) = .ok (.funcV inc) ∧
    vfuel 1 (.funcV inc) (.funcV inc) (.int 0) = .ok (.int 1) ∧
    vfuel 1 (.funcV inc) (.funcV inc) (.int 1) = .ok (.int 2) ∧
    VResult.ok (.int 2) ≠ VResult.ok (.int 1) := by
  refine ⟨by simp [compile], by simp [vfuel, inc], by simp [vfuel, inc], by simp⟩

/-!
C8 upgrade machinery: properties of `canon`, `cmpKey` and `sortPairs`.
-/

/-- Canonicalization preserves the key comparison. -/
theorem cmpKey_canon (a b : Data) : cmpKey (canon a) (canon b) = cmpKey a b := by
  cases a <;> cases b <;> simp [canon, cmpKey, numVal, keyRank]

/-- Canonicalization preserves scalarity. -/
theorem isScalar_canon (a : Data) : isScalar (canon a) = isScalar a := by
  cases a <;> simp [canon, isScalar]

/-- On scalars, Python `==` is equality of canonical forms. -/
theorem pyEq_canon_scalar (a b : Data) (ha : isScalar a = true)
    (hb : isScalar b = true) : pyEq a b = true ↔ canon a = canon b := by
  cases a with
  | str s =>
    cases b with
    | str t => simp [pyEq, canon]
    | int m => simp [pyEq, canon]
    | bool c => simp [pyEq, canon]
    | none => simp [pyEq, canon]
    | list xs => simp [isScalar] at hb
    | dict xs => simp [isScalar] at hb
  | int x =>
    cases b with
    | str t => simp [pyEq, canon]
    | int y => simp [pyEq, canon]
    | bool c => cases c <;> simp [pyEq, canon]
    | none => simp [pyEq, canon]
    | list xs => simp [isScalar] at hb
    | dict xs => simp [isScalar] at hb
  | bool c =>
    cases b with
    | str t => cases c <;> simp [pyEq, canon]
    | int y => cases c <;> simp [pyEq, canon]
    | bool c2 => cases c <;> cases c2 <;> simp [pyEq, canon]
    | none => cases c <;> simp [pyEq, canon]
    | list xs => simp [isScalar] at hb
    | dict xs => simp [isScalar] at hb
  | none =>
    cases b with
    | str t => simp [pyEq, canon]
    | int y => simp [pyEq, canon]
    | bool c => cases c <;> simp [pyEq, canon]
    | none => simp [pyEq, canon]
    | list xs => simp [isScalar] at hb
    | dict xs => simp [isScalar] at hb
  | list xs => simp [isScalar] at ha
  | dict xs => simp [isScalar] at ha

theorem cmpInt_lt_iff (x y : Int) : cmpInt x y = .lt ↔ x < y := by
  unfold cmpInt
  split_ifs <;> simp_all

theorem cmpInt_eq_iff (x y : Int) : cmpInt x y = .eq ↔ x = y := by
  unfold cmpInt
  split_ifs <;> simp_all
  omega

theorem cmpInt_gt_iff (x y : Int) : cmpInt x y = .gt ↔ y < x := by
  unfold cmpInt
  split_ifs <;> simp_all
  · omega
  · omega

theorem cmpNat_lt_iff (x y : Nat) : cmpNat x y = .lt ↔ x < y := by
  unfold cmpNat
  split_ifs <;> simp_all

theorem cmpNat_eq_iff (x y : Nat) : cmpNat x y = .eq ↔ x = y := by
  unfold cmpNat
  split_ifs <;> simp_all
  omega

theorem cmpNat_gt_iff (x y : Nat) : cmpNat x y = .gt ↔ y < x := by
  unfold cmpNat
  split_ifs <;> simp_all
  · omega
  · omega

theorem cmpStr_lt_iff (s t : String) : cmpStr s t = .lt ↔ s < t := by
  unfold cmpStr
  split_ifs <;> simp_all

theorem cmpStr_eq_iff (s t : String) : cmpStr s t = .eq ↔ s = t := by
  unfold cmpStr
  split_ifs with h1 h2
  · simp only [reduceCtorEq, false_iff]
    intro he
    subst he
    exact lt_irrefl _ h1
  · simp [h2]
  · simp [h2]

theorem cmpStr_gt_iff (s t : String) : cmpStr s t = .gt ↔ t < s := by
  unfold cmpStr
  split_ifs with h1 h2
  · simp only [reduceCtorEq, false_iff]
    intro hts
    exact absurd (lt_trans h1 hts) (lt_irrefl _)
  · simp only [reduceCtorEq, false_iff]
    subst h2
    exact lt_irrefl _
  · simp only [true_iff]
    rcases lt_trichotomy s t with h | h | h
    · exact absurd h h1
    · exact absurd h h2
    · exact h

/-- `cmpKey` agrees with its rank-dispatch form. -/
theorem cmpKey_char (a b : Data) : cmpKey a b = cmpKeyR a b := by
  cases a <;> cases b <;>
    simp [cmpKey, cmpKeyR, numVal, keyRank, strVal]

theorem cmpInt_flip (x y : Int) : cmpInt y x = (cmpInt x y).swap := by
  unfold cmpInt
  split_ifs <;> first | rfl | omega

theorem cmpNat_flip (x y : Nat) : cmpNat y x = (cmpNat x y).swap := by
  unfold cmpNat
  split_ifs <;> first | rfl | omega

theorem cmpStr_flip (s t : String) : cmpStr t s = (cmpStr s t).swap := by
  unfold cmpStr
  rcases lt_trichotomy s t with h | h | h
  · rw [if_neg (asymm h), if_neg h.ne', if_pos h]
    rfl
  · subst h
    rw [if_neg (lt_irrefl s), if_pos rfl]
    rfl
  · rw [if_pos h, if_neg (asymm h), if_neg h.ne']
    rfl

/-- Swapping the arguments of `cmpKey` swaps the ordering. -/
theorem cmpKey_flip (a b : Data) : cmpKey b a = (cmpKey a b).swap := by
  rw [cmpKey_char, cmpKey_char]
  unfold cmpKeyR
  by_cases h11 : keyRank a = 1 ∧ keyRank b = 1
  · rw [if_pos (And.intro h11.2 h11.1), if_pos h11]
    exact cmpInt_flip _ _
  · have h11b : ¬(keyRank b = 1 ∧ keyRank a = 1) := fun hc => h11 ⟨hc.2, hc.1⟩
    by_cases h22 : keyRank a = 2 ∧ keyRank b = 2
    · rw [if_neg h11b, if_pos (And.intro h22.2 h22.1), if_neg h11, if_pos h22]
      exact cmpStr_flip _ _
    · have h22b : ¬(keyRank b = 2 ∧ keyRank a = 2) := fun hc => h22 ⟨hc.2, hc.1⟩
      rw [if_neg h11b, if_neg h22b, if_neg h11, if_neg h22]
      exact cmpNat_flip _ _

/-- The key order is transitive (strict version). -/
theorem cmpKey_lt_trans (a b c : Data) (h1 : cmpKey a b = .lt)
    (h2 : cmpKey b c = .lt) : cmpKey a c = .lt := by
  rw [cmpKey_char] at h1 h2 ⊢
  unfold cmpKeyR at h1 h2 ⊢
  split_ifs at h1 h2 ⊢ <;>
    simp only [cmpInt_lt_iff, cmpNat_lt_iff, cmpStr_lt_iff] at h1 h2 ⊢ <;>
    first
      | omega
      | exact lt_trans h1 h2

/-- The key order is transitive (non-strict version). -/
theorem cmpKey_le_trans (a b c : Data) (h1 : cmpKey a b ≠ .gt)
    (h2 : cmpKey b c ≠ .gt) : cmpKey a c ≠ .gt := by
  rw [cmpKey_char] at h1 h2 ⊢
  unfold cmpKeyR at h1 h2 ⊢
  split_ifs at h1 h2 ⊢ <;>
    simp only [ne_eq, cmpInt_gt_iff, cmpNat_gt_iff, cmpStr_gt_iff] at h1 h2 ⊢ <;>
    first
      | omega
      | exact fun hc =>
          absurd (lt_of_lt_of_le hc
            (le_trans (le_of_not_lt h1) (le_of_not_lt h2))) (lt_irrefl _)

/-- The key order is total. -/
theorem cmpKey_le_total (a b : Data) :
    cmpKey a b ≠ .gt ∨ cmpKey b a ≠ .gt := by
  cases h : cmpKey a b with
  | lt => exact Or.inl (by simp [h])
  | eq => exact Or.inl (by simp [h])
  | gt =>
    refine Or.inr ?_
    rw [cmpKey_flip, h]
    simp [Ordering.swap]

/-- Scalars are trivially well-formed. -/
theorem scalar_wf (a : Data) (h : isScalar a = true) : wfData a = true := by
  cases a <;> simp_all [isScalar, wfData]

theorem scalar_wf_witness : isScalar (.int 3) = true ∧ wfData (.int 3) = true :=
  ⟨by decide, scalar_wf (.int 3) (by decide)⟩

/-- Python `==` is reflexive on scalars. -/
theorem pyEq_refl_scalar (a : Data) (h : isScalar a = true) : pyEq a a = true := by
  cases a <;> simp_all [isScalar, pyEq]

theorem pyEq_refl_scalar_witness : isScalar (.int 3) = true ∧ pyEq (.int 3) (.int 3) = true :=
  ⟨by decide, pyEq_refl_scalar (.int 3) (by decide)⟩

/-- Python `==` is symmetric on scalars. -/
theorem pyEq_symm_scalar (a b : Data) (ha : isScalar a = true)
    (hb : isScalar b = true) : pyEq a b = pyEq b a := by
  by_cases h : pyEq a b = true
  · have hc := (pyEq_canon_scalar a b ha hb).mp h
    have h2 := (pyEq_canon_scalar b a hb ha).mpr hc.symm
    rw [h, h2]
  · rw [Bool.not_eq_true] at h
    by_cases h2 : pyEq b a = true
    · have hc := (pyEq_canon_scalar b a hb ha).mp h2
      have h3 := (pyEq_canon_scalar a b ha hb).mpr hc.symm
      rw [h3] at h
      exact absurd h (by simp)
    · rw [Bool.not_eq_true] at h2
      rw [h, h2]

theorem pyEq_symm_scalar_witness :
    isScalar (.int 1) = true ∧ isScalar (.bool true) = true ∧
    pyEq (.int 1) (.bool true) = pyEq (.bool true) (.int 1) :=
  ⟨by decide, by decide, pyEq_symm_scalar (.int 1) (.bool true) (by decide) (by decide)⟩

/-- `cmpKey`-equal scalars are Python-`==`-equal. -/
theorem cmpKey_eq_pyEq (a b : Data) (ha : isScalar a = true)
    (hb : isScalar b = true) (h : cmpKey a b = .eq) : pyEq a b = true := by
  cases a <;> cases b <;>
    simp_all [isScalar, cmpKey, numVal, cmpInt, cmpStr, cmpNat, keyRank, pyEq]
  all_goals
    first
      | omega
      | (split_ifs at h
         all_goals simp_all)

theorem cmpKey_eq_pyEq_witness :
    isScalar (.int 1) = true ∧ isScalar (.bool true) = true ∧
    cmpKey (.int 1) (.bool true) = .eq ∧ pyEq (.int 1) (.bool true) = true :=
  ⟨by decide, by decide, by decide,
    cmpKey_eq_pyEq (.int 1) (.bool true) (by decide) (by decide) (by decide)⟩

theorem pyEq_canon_scalar_witness :
    isScalar (.int 1) = true ∧ isScalar (.bool true) = true ∧
    (pyEq (.int 1) (.bool true) = true ↔ canon (.int 1) = canon (.bool true)) :=
  ⟨by decide, by decide, pyEq_canon_scalar (.int 1) (.bool true) (by decide) (by decide)⟩

theorem cmpKey_lt_trans_witness :
    cmpKey (.int 0) (.int 1) = .lt ∧ cmpKey (.int 1) (.int 2) = .lt ∧
    cmpKey (.int 0) (.int 2) = .lt :=
  ⟨by decide, by decide, cmpKey_lt_trans (.int 0) (.int 1) (.int 2) (by decide) (by decide)⟩

theorem cmpKey_le_trans_witness :
    cmpKey (.int 0) (.int 1) ≠ .gt ∧ cmpKey (.int 1) (.int 1) ≠ .gt ∧
    cmpKey (.int 0) (.int 1) ≠ .gt :=
  ⟨by decide, by decide, cmpKey_le_trans (.int 0) (.int 1) (.int 1) (by decide) (by decide)⟩

/-- `all` over the key projection. -/
theorem all_map_fst (l : List (Data × Data)) (f : Data → Bool) :
    (l.map Prod.fst).all f = l.all (fun p => f p.1) := by
  induction l with
  | nil => rfl
  | cons p rest ih => simp [ih]

/-- `pairwiseLtKeys` only looks at the keys. -/
theorem pairwiseLtKeys_eq :
    ∀ (l : List (Data × Data)), pairwiseLtKeys l = keyListLt (l.map Prod.fst) := by
  intro l
  induction l with
  | nil => rfl
  | cons p rest ih =>
    simp [pairwiseLtKeys, keyListLt, ih, all_map_fst]

/-- `keysDistinct` only looks at the keys. -/
theorem keysDistinct_eq :
    ∀ (l : List (Data × Data)), keysDistinct l = keyListDistinct (l.map Prod.fst) := by
  intro l
  induction l with
  | nil => rfl
  | cons p rest ih =>
    obtain ⟨k, v⟩ := p
    simp [keysDistinct, keyListDistinct, ih, all_map_fst]

/-- `pairwiseLtKeys` as a `Pairwise` statement. -/
theorem pairwiseLtKeys_iff :
    ∀ (l : List (Data × Data)),
    pairwiseLtKeys l = true ↔
      List.Pairwise (fun p q => cmpKey p.1 q.1 = Ordering.lt) l := by
  intro l
  induction l with
  | nil => simp [pairwiseLtKeys]
  | cons p rest ih =>
    simp [pairwiseLtKeys, List.pairwise_cons, ih]

/-- `keysDistinct` as a `Pairwise` statement. -/
theorem keysDistinct_iff :
    ∀ (l : List (Data × Data)),
    keysDistinct l = true ↔
      List.Pairwise (fun p q => pyEq p.1 q.1 = false) l := by
  intro l
  induction l with
  | nil => simp [keysDistinct]
  | cons p rest ih =>
    obtain ⟨k, v⟩ := p
    simp [keysDistinct, List.pairwise_cons, ih, Bool.not_eq_true']

/-- `pyEqPairs` as a per-pair lookup statement. -/
theorem pyEqPairs_forall :
    ∀ (l ys : List (Data × Data)),
    pyEqPairs l ys = true ↔ ∀ p ∈ l, pyLookupEq p.1 p.2 ys = true := by
  intro l ys
  induction l with
  | nil => simp [pyEqPairs]
  | cons p rest ih =>
    obtain ⟨k, v⟩ := p
    simp [pyEqPairs, ih]

/-- `wfP` as a per-pair statement. -/
theorem wfP_forall :
    ∀ (l : List (Data × Data)),
    wfP l = true ↔ ∀ p ∈ l, isScalar p.1 = true ∧ wfData p.2 = true := by
  intro l
  induction l with
  | nil => simp [wfP]
  | cons p rest ih =>
    obtain ⟨k, v⟩ := p
    simp [wfP, ih]

/-- `wfL` as a per-element statement. -/
theorem wfL_forall :
    ∀ (l : List Data),
    wfL l = true ↔ ∀ x ∈ l, wfData x = true := by
  intro l
  induction l with
  | nil => simp [wfL]
  | cons x rest ih => simp [wfL, ih]

/-- `wfP` is invariant under permutation. -/
theorem wfP_perm (l1 l2 : List (Data × Data)) (hp : l1.Perm l2)
    (h : wfP l1 = true) : wfP l2 = true := by
  rw [wfP_forall] at h ⊢
  intro p hmem
  exact h p (hp.mem_iff.mpr hmem)

theorem wfP_perm_witness :
    ([((Data.int 1), Data.none), ((Data.int 2), Data.none)].Perm
      [((Data.int 2), Data.none), ((Data.int 1), Data.none)]) ∧
    wfP [((Data.int 1), Data.none), ((Data.int 2), Data.none)] = true ∧
    wfP [((Data.int 2), Data.none), ((Data.int 1), Data.none)] = true := by
  refine ⟨List.Perm.swap _ _ _, by simp [wfP, isScalar, wfData], ?_⟩
  exact wfP_perm _ _ (List.Perm.swap _ _ _) (by simp [wfP, isScalar, wfData])

/-- Distinctness of scalar keys is invariant under permutation. -/
theorem keysDistinct_perm (l1 l2 : List (Data × Data)) (hp : l1.Perm l2)
    (hs : ∀ p ∈ l1, isScalar p.1 = true) (h : keysDistinct l1 = true) :
    keysDistinct l2 = true := by
  rw [keysDistinct_iff] at h ⊢
  have h2 : List.Pairwise
      (fun p q : Data × Data => pyEq p.1 q.1 = false ∧ pyEq q.1 p.1 = false) l1 := by
    refine List.Pairwise.imp_of_mem ?_ h
    intro p q hpm hqm hpq
    refine ⟨hpq, ?_⟩
    rw [← pyEq_symm_scalar p.1 q.1 (hs p hpm) (hs q hqm)]
    exact hpq
  have h3 := (hp.pairwise_iff (fun hab => ⟨hab.2, hab.1⟩)).mp h2
  exact h3.imp (fun hab => hab.1)

theorem keysDistinct_perm_witness :
    ([((Data.int 1), Data.none), ((Data.int 2), Data.none)].Perm
      [((Data.int 2), Data.none), ((Data.int 1), Data.none)]) ∧
    (∀ p ∈ [((Data.int 1), Data.none), ((Data.int 2), Data.none)], isScalar p.1 = true) ∧
    keysDistinct [((Data.int 2), Data.none), ((Data.int 1), Data.none)] = true := by
  refine ⟨List.Perm.swap _ _ _, by simp [isScalar], ?_⟩
  exact keysDistinct_perm _ _ (List.Perm.swap _ _ _) (by simp [isScalar])
    (by simp [keysDistinct, pyEq])

/-- `insertPair` permutes to consing. -/
theorem insertPair_perm (p : Data × Data) :
    ∀ (l : List (Data × Data)), (insertPair p l).Perm (p :: l) := by
  intro l
  induction l with
  | nil => exact List.Perm.refl _
  | cons q rest ih =>
    cases h : cmpKey p.1 q.1 with
    | lt => simp [insertPair, h]
    | eq =>
      simp only [insertPair, h]
      exact (ih.cons q).trans (List.Perm.swap p q rest)
    | gt =>
      simp only [insertPair, h]
      exact (ih.cons q).trans (List.Perm.swap p q rest)

/-- `sortPairs` is a permutation. -/
theorem sortPairs_perm : ∀ (l : List (Data × Data)), (sortPairs l).Perm l := by
  intro l
  induction l with
  | nil => exact List.Perm.refl _
  | cons p rest ih => exact (insertPair_perm p (sortPairs rest)).trans (ih.cons p)

/-- Inserting into a key-sorted list keeps it key-sorted. -/
theorem insertPair_sorted (p : Data × Data) :
    ∀ (l : List (Data × Data)),
    List.Pairwise (fun x y : Data × Data => cmpKey x.1 y.1 ≠ Ordering.gt) l →
    List.Pairwise (fun x y : Data × Data => cmpKey x.1 y.1 ≠ Ordering.gt)
      (insertPair p l) := by
  intro l
  induction l with
  | nil => intro _; simp [insertPair]
  | cons q rest ih =>
    intro hs
    rw [List.pairwise_cons] at hs
    obtain ⟨hq, hrest⟩ := hs
    cases h : cmpKey p.1 q.1 with
    | lt =>
      simp only [insertPair, h]
      rw [List.pairwise_cons]
      refine ⟨?_, ?_⟩
      · intro r hr
        rcases List.mem_cons.mp hr with h1 | h2
        · rw [h1, h]
          decide
        · exact cmpKey_le_trans p.1 q.1 r.1 (by rw [h]; decide) (hq r h2)
      · rw [List.pairwise_cons]
        exact ⟨hq, hrest⟩
    | eq =>
      simp only [insertPair, h]
      rw [List.pairwise_cons]
      refine ⟨?_, ih hrest⟩
      intro r hr
      rcases List.mem_cons.mp ((insertPair_perm p rest).mem_iff.mp hr) with h1 | h2
      · rw [h1, cmpKey_flip, h]
        decide
      · exact hq r h2
    | gt =>
      simp only [insertPair, h]
      rw [List.pairwise_cons]
      refine ⟨?_, ih hrest⟩
      intro r hr
      rcases List.mem_cons.mp ((insertPair_perm p rest).mem_iff.mp hr) with h1 | h2
      · rw [h1, cmpKey_flip, h]
        decide
      · exact hq r h2

theorem insertPair_sorted_witness :
    List.Pairwise (fun x y : Data × Data => cmpKey x.1 y.1 ≠ Ordering.gt)
      [((Data.int 1), Data.none), ((Data.int 3), Data.none)] ∧
    List.Pairwise (fun x y : Data × Data => cmpKey x.1 y.1 ≠ Ordering.gt)
      (insertPair ((Data.int 2), Data.none)
        [((Data.int 1), Data.none), ((Data.int 3), Data.none)]) :=
  ⟨by decide, insertPair_sorted ((Data.int 2), Data.none)
    [((Data.int 1), Data.none), ((Data.int 3), Data.none)] (by decide)⟩

/-- `sortPairs` sorts by key (non-strictly). -/
theorem sortPairs_sorted :
    ∀ (l : List (Data × Data)),
    List.Pairwise (fun x y : Data × Data => cmpKey x.1 y.1 ≠ Ordering.gt)
      (sortPairs l) := by
  intro l
  induction l with
  | nil => simp [sortPairs]
  | cons p rest ih => exact insertPair_sorted p (sortPairs rest) ih

/-- A non-strictly key-sorted list with `==`-distinct scalar keys is
strictly key-sorted. -/
theorem sorted_distinct_strict (l : List (Data × Data))
    (hs : List.Pairwise (fun x y : Data × Data => cmpKey x.1 y.1 ≠ Ordering.gt) l)
    (hd : keysDistinct l = true) (hsc : ∀ p ∈ l, isScalar p.1 = true) :
    pairwiseLtKeys l = true := by
  rw [pairwiseLtKeys_iff]
  have hd2 := (keysDistinct_iff l).mp hd
  refine List.Pairwise.imp_of_mem ?_ (hs.and hd2)
  intro p q hp hq hpq
  cases hcc : cmpKey p.1 q.1 with
  | lt => rfl
  | eq =>
    have := cmpKey_eq_pyEq p.1 q.1 (hsc p hp) (hsc q hq) hcc
    rw [hpq.2] at this
    exact absurd this (by simp)
  | gt => exact absurd hcc hpq.1

theorem sorted_distinct_strict_witness :
    List.Pairwise (fun x y : Data × Data => cmpKey x.1 y.1 ≠ Ordering.gt)
      [((Data.int 1), Data.none), ((Data.int 2), Data.none)] ∧
    keysDistinct [((Data.int 1), Data.none), ((Data.int 2), Data.none)] = true ∧
    (∀ p ∈ [((Data.int 1), Data.none), ((Data.int 2), Data.none)], isScalar p.1 = true) ∧
    pairwiseLtKeys [((Data.int 1), Data.none), ((Data.int 2), Data.none)] = true := by
  refine ⟨by decide, by simp [keysDistinct, pyEq], by simp [isScalar], ?_⟩
  exact sorted_distinct_strict _ (by decide) (by simp [keysDistinct, pyEq])
    (by simp [isScalar])

/-- Keys agree along the pairwise output/input relation. -/
theorem forall2_keys (l1 l2 : List (Data × Data))
    (h : List.Forall₂ (fun p q : Data × Data => p.1 = q.1 ∧ pyEq p.2 q.2 = true) l1 l2) :
    l1.map Prod.fst = l2.map Prod.fst := by
  induction h with
  | nil => rfl
  | cons hpq _ ih => simp [ih, hpq.1]

theorem forall2_keys_witness :
    List.Forall₂ (fun p q : Data × Data => p.1 = q.1 ∧ pyEq p.2 q.2 = true)
      [((Data.int 1), Data.int 5)] [((Data.int 1), Data.int 5)] ∧
    List.map Prod.fst [((Data.int 1), Data.int 5)] =
      List.map Prod.fst [((Data.int 1), Data.int 5)] := by
  have hf : List.Forall₂ (fun p q : Data × Data => p.1 = q.1 ∧ pyEq p.2 q.2 = true)
      [((Data.int 1), Data.int 5)] [((Data.int 1), Data.int 5)] :=
    List.Forall₂.cons ⟨rfl, by simp [pyEq]⟩ List.Forall₂.nil
  exact ⟨hf, forall2_keys _ _ hf⟩

/-- A member of the left list of a `Forall₂` has a related member on the
right. -/
theorem forall2_mem_left {R : Data × Data → Data × Data → Prop}
    (l1 l2 : List (Data × Data)) (h : List.Forall₂ R l1 l2) :
    ∀ q ∈ l1, ∃ r, r ∈ l2 ∧ R q r := by
  induction h with
  | nil => intro q hq; exact absurd hq (by simp)
  | cons hpq hrest ih =>
    intro q hq
    rcases List.mem_cons.mp hq with h1 | h2
    · exact ⟨_, by simp, h1 ▸ hpq⟩
    · obtain ⟨r, hr, hqr⟩ := ih q h2
      exact ⟨r, by simp [hr], hqr⟩

theorem forall2_mem_left_witness :
    List.Forall₂ (fun p q : Data × Data => p.1 = q.1)
      [((Data.int 1), Data.int 5)] [((Data.int 1), Data.int 6)] ∧
    (((Data.int 1), Data.int 5) ∈ [((Data.int 1), (Data.int 5))]) ∧
    (∃ r, r ∈ [((Data.int 1), Data.int 6)] ∧
      ((Data.int 1 : Data), (Data.int 5 : Data)).1 = r.1) := by
  have hf : List.Forall₂ (fun p q : Data × Data => p.1 = q.1)
      [((Data.int 1), Data.int 5)] [((Data.int 1), Data.int 6)] :=
    List.Forall₂.cons rfl List.Forall₂.nil
  exact ⟨hf, by simp, forall2_mem_left _ _ hf _ (by simp)⟩

/-- A stored pair is found by Python dict lookup when the keys are
distinct scalars, up to `==` on the stored value. -/
theorem lookup_of_mem :
    ∀ (ys : List (Data × Data)) (k v w : Data),
    keysDistinct ys = true → (∀ q ∈ ys, isScalar q.1 = true) →
    (k, v) ∈ ys → pyEq w v = true → pyLookupEq k w ys = true := by
  intro ys
  induction ys with
  | nil => intro k v w _ _ hmem _; exact absurd hmem (by simp)
  | cons q rest ih =>
    intro k v w hd hs hmem hwv
    obtain ⟨k1, v1⟩ := q
    simp only [keysDistinct, Bool.and_eq_true, List.all_eq_true] at hd
    rcases List.mem_cons.mp hmem with h1 | h2
    · rw [Prod.mk.injEq] at h1
      obtain ⟨hk, hv⟩ := h1
      subst hk
      subst hv
      have hrefl : pyEq k k = true := pyEq_refl_scalar k (hs (k, v) (by simp))
      simp [pyLookupEq, hrefl, hwv]
    · have hk1k : pyEq k1 k = false := by
        have := hd.1 (k, v) h2
        simp only [Bool.not_eq_true'] at this
        exact this
      have hsk : isScalar k = true := hs (k, v) (by simp [h2])
      have hsk1 : isScalar k1 = true := hs (k1, v1) (by simp)
      have hkk1 : pyEq k k1 = false := by
        rw [pyEq_symm_scalar k k1 hsk hsk1]
        exact hk1k
      simp only [pyLookupEq, hkk1]
      simp only [Bool.false_eq_true, if_false]
      exact ih k v w hd.2 (fun q hq => hs q (by simp [hq])) h2 hwv

theorem lookup_of_mem_witness :
    keysDistinct [((Data.int 2), Data.int 5), ((Data.int 1), Data.int 6)] = true ∧
    (∀ q ∈ [((Data.int 2), Data.int 5), ((Data.int 1), Data.int 6)],
      isScalar q.1 = true) ∧
    (((Data.int 1), Data.int 6) ∈
      [((Data.int 2), Data.int 5), ((Data.int 1), Data.int 6)]) ∧
    pyEq (Data.int 6) (Data.int 6) = true ∧
    pyLookupEq (Data.int 1) (Data.int 6)
      [((Data.int 2), Data.int 5), ((Data.int 1), Data.int 6)] = true := by
  refine ⟨by simp [keysDistinct, pyEq], by simp [isScalar], by simp, by simp [pyEq], ?_⟩
  exact lookup_of_mem [((Data.int 2), Data.int 5), ((Data.int 1), Data.int 6)]
    (Data.int 1) (Data.int 6) (Data.int 6)
    (by simp [keysDistinct, pyEq]) (by simp [isScalar]) (by simp) (by simp [pyEq])

/-- Elementwise reflexivity gives list reflexivity. -/
theorem pyEqList_refl_of :
    ∀ (xs : List Data), (∀ x ∈ xs, pyEq x x = true) → pyEqList xs xs = true := by
  intro xs
  induction xs with
  | nil => intro _; simp [pyEqList]
  | cons x rest ih =>
    intro h
    simp only [pyEqList, Bool.and_eq_true]
    exact ⟨h x (by simp), ih (fun y hy => h y (by simp [hy]))⟩

theorem pyEqList_refl_of_witness :
    (∀ x ∈ [Data.int 1, Data.none], pyEq x x = true) ∧
    pyEqList [Data.int 1, Data.none] [Data.int 1, Data.none] = true :=
  ⟨by simp [pyEq], pyEqList_refl_of [Data.int 1, Data.none] (by simp [pyEq])⟩

/-- Python `==` is reflexive on well-formed data (size-bounded form). -/
theorem pyEq_refl_aux :
    ∀ (N : Nat) (d : Data), sizeOf d ≤ N → wfData d = true → pyEq d d = true := by
  intro N
  induction N with
  | zero =>
    intro d hsz _
    exfalso
    cases d <;> simp at hsz
  | succ N ih =>
    intro d hsz hwf
    cases d with
    | str s => simp [pyEq]
    | int n => simp [pyEq]
    | bool b => simp [pyEq]
    | none => simp [pyEq]
    | list xs =>
      simp only [pyEq]
      refine pyEqList_refl_of xs ?_
      intro x hx
      refine ih x ?_ ?_
      · have h1 := List.sizeOf_lt_of_mem hx
        have h2 : sizeOf (Data.list xs) = 1 + sizeOf xs := by simp
        omega
      · simp only [wfData] at hwf
        exact (wfL_forall xs).mp hwf x hx
    | dict xs =>
      simp only [pyEq]
      simp only [wfData, Bool.and_eq_true] at hwf
      rw [Bool.and_eq_true]
      refine ⟨by simp, ?_⟩
      rw [pyEqPairs_forall]
      intro p hp
      obtain ⟨k, v⟩ := p
      refine lookup_of_mem xs k v v hwf.1 ?_ hp ?_
      · intro q hq
        exact ((wfP_forall xs).mp hwf.2 q hq).1
      · refine ih v ?_ ?_
        · have h1 := List.sizeOf_lt_of_mem hp
          have h2 : sizeOf ((k, v)) = 1 + sizeOf k + sizeOf v := by simp
          have h3 : sizeOf (Data.dict xs) = 1 + sizeOf xs := by simp
          omega
        · exact ((wfP_forall xs).mp hwf.2 (k, v) hp).2

theorem pyEq_refl_aux_witness :
    sizeOf (Data.none) ≤ 1 ∧ wfData Data.none = true ∧
    pyEq Data.none Data.none = true :=
  ⟨by decide, by decide, pyEq_refl_aux 1 Data.none (by decide) (by decide)⟩

/-- Python `==` is reflexive on well-formed data. -/
theorem pyEq_refl_wf (d : Data) (h : wfData d = true) : pyEq d d = true :=
  pyEq_refl_aux (sizeOf d) d (le_refl _) h

theorem pyEq_refl_wf_witness :
    wfData (Data.dict [(Data.int 1, Data.none)]) = true ∧
    pyEq (Data.dict [(Data.int 1, Data.none)])
      (Data.dict [(Data.int 1, Data.none)]) = true := by
  refine ⟨by simp [wfData, keysDistinct, wfP, isScalar], ?_⟩
  exact pyEq_refl_wf (Data.dict [(Data.int 1, Data.none)])
    (by simp [wfData, keysDistinct, wfP, isScalar])

/-- Stable-point theorem for transform-free, combinator-free validators:
on well-formed data, a successful validation returns well-formed output
that is Python-`==` to the input and is itself a fixed point of the
validator.  Proven mutually with the corresponding invariants of the
element loop, the key loop and the item loop. -/
theorem stab_main :
    (∀ (n : Nat) (root v : Validator) (d : Data),
      chainFreeV root = true → chainFreeV v = true →
      funcFreeV root = true → funcFreeV v = true → wfData d = true →
      ∀ e, vfuel n root v d = .ok e →
        wfData e = true ∧ pyEq e d = true ∧ vfuel n root v e = .ok e) ∧
    (∀ (_n : Nat) (_root : Validator) (_vs : List Validator) (_d : Data), True) ∧
    (∀ (n : Nat) (root : Validator) (pairs : List (Validator × Validator))
      (items out : List (Data × Data)) (notM : List Nat),
      chainFreeV root = true → chainFreeP pairs = true →
      funcFreeV root = true → funcFreeP pairs = true →
      wfP items = true → keysDistinct items = true →
      (∀ q ∈ items, ∀ p ∈ out, pyEq p.1 q.1 = false) →
      ∀ o es nm, dictRun n root pairs items out notM = .ok (o, es, nm) → es = [] →
        ∃ items2,
          o = out ++ items2 ∧
          List.Forall₂ (fun p q : Data × Data => p.1 = q.1 ∧ pyEq p.2 q.2 = true)
            items2 items ∧
          wfP items2 = true ∧
          (∀ out2, (∀ q ∈ items2, ∀ p ∈ out2, pyEq p.1 q.1 = false) →
            dictRun n root pairs items2 out2 notM = .ok (out2 ++ items2, [], nm))) ∧
    (∀ (n : Nat) (root : Validator) (ps : List (Validator × Validator))
      (j : Nat) (k v : Data),
      chainFreeV root = true → chainFreeP ps = true →
      funcFreeV root = true → funcFreeP ps = true →
      isScalar k = true → wfData v = true →
      ∀ j2 nk nv, tryKey n root ps j k v = .ok (.matched j2 nk nv) →
        nk = k ∧ wfData nv = true ∧ pyEq nv v = true ∧
        tryKey n root ps j k nv = .ok (.matched j2 k nv)) ∧
    (∀ (n : Nat) (root ev : Validator) (i : Nat) (xs : List Data),
      chainFreeV root = true → chainFreeV ev = true →
      funcFreeV root = true → funcFreeV ev = true → wfL xs = true →
      ∀ nd es, listRun n root ev i xs = .ok (nd, es) → es = [] →
        wfL nd = true ∧ pyEqList nd xs = true ∧
        (∀ i2, listRun n root ev i2 nd = .ok (nd, []))) := by
  apply vfuel.mutual_induct
  case case1 =>
    intro n root L opt d hpy hcr hcv hfr hfv hwf e h
    simp [vfuel, hpy] at h
    subst h
    exact ⟨hwf, pyEq_refl_wf d hwf, by simp [vfuel, hpy]⟩
  case case2 =>
    intro n root L opt d hpy hcr hcv hfr hfv hwf e h
    simp [vfuel, hpy] at h
  case case3 =>
    intro n root t opt d hin hcr hcv hfr hfv hwf e h
    simp [vfuel, hin] at h
    subst h
    exact ⟨hwf, pyEq_refl_wf d hwf, by simp [vfuel, hin]⟩
  case case4 =>
    intro n root t opt d hin hcr hcv hfr hfv hwf e h
    simp [vfuel, hin] at h
  case case5 =>
    intro n root test opt s hts hcr hcv hfr hfv hwf e h
    simp [vfuel, hts] at h
    subst h
    exact ⟨by simp [wfData], by simp [pyEq], by simp [vfuel, hts]⟩
  case case6 =>
    intro n root test opt s hts hcr hcv hfr hfv hwf e h
    simp [vfuel, hts] at h
  case case7 =>
    intro n root test opt d hne hcr hcv hfr hfv hwf e h
    cases d
    case str s => exact absurd rfl (hne s)
    all_goals simp [vfuel] at h
  case case8 =>
    intro n root ev xs exc hlr _ hcr hcv hfr hfv hwf e h
    rw [vfuel_listV_pyerr n root ev xs exc hlr] at h
    exact absurd h (by simp)
  case case9 =>
    intro n root ev xs nd errs hrun ih hcr hcv hfr hfv hwf e h
    rw [vfuel_listV_run n root ev xs nd errs hrun] at h
    obtain ⟨hes, hok⟩ := finishErrors_ok _ _ _ _ h
    simp [chainFreeV] at hcv
    simp [funcFreeV] at hfv
    simp [wfData] at hwf
    obtain ⟨hwnd, hpeq, hrev⟩ := ih hcr hcv hfr hfv hwf nd errs hrun hes
    simp at hok
    subst hok
    refine ⟨by simp [wfData, hwnd], by simp [pyEq, hpeq], ?_⟩
    rw [vfuel_listV_run n root ev nd nd [] (hrev 0)]
    simp [finishErrors]
  case case10 =>
    intro n root ev d hne hcr hcv hfr hfv hwf e h
    cases d
    case list xs => exact absurd rfl (hne xs)
    all_goals simp [vfuel] at h
  case case11 =>
    intro n root pairs items exc hdr _ hcr hcv hfr hfv hwf e h
    rw [vfuel_dictV_pyerr n root pairs items exc hdr] at h
    exact absurd h (by simp)
  case case12 =>
    intro n root pairs items out errs nm hrun ih hcr hcv hfr hfv hwf e h
    rw [vfuel_dictV_run n root pairs items out errs nm hrun] at h
    obtain ⟨hes, hok⟩ := finishErrors_ok _ _ _ _ h
    rw [List.append_eq_nil] at hes
    simp [chainFreeV] at hcv
    simp [funcFreeV] at hfv
    simp [wfData] at hwf
    have hperm := sortPairs_perm items
    have hsc : ∀ p ∈ items, isScalar p.1 = true :=
      fun p hp => ((wfP_forall items).mp hwf.2 p hp).1
    have hwfP2 : wfP (sortPairs items) = true :=
      wfP_perm items (sortPairs items) hperm.symm hwf.2
    have hkd2 : keysDistinct (sortPairs items) = true :=
      keysDistinct_perm items (sortPairs items) hperm.symm hsc hwf.1
    obtain ⟨items2, ho, hf2, hwf2, hrev⟩ :=
      ih hcr hcv hfr hfv hwfP2 hkd2 (by intro q _ p hp; simp at hp)
        out errs nm hrun hes.1
    rw [List.nil_append] at ho
    subst ho
    simp at hok
    subst hok
    have hkeys := forall2_keys out (sortPairs items) hf2
    have hkd3 : keysDistinct out = true := by
      rw [keysDistinct_eq, hkeys, ← keysDistinct_eq]
      exact hkd2
    have hsort2 : pairwiseLtKeys (sortPairs items) = true :=
      sorted_distinct_strict (sortPairs items) (sortPairs_sorted items) hkd2
        (fun p hp => hsc p (hperm.mem_iff.mp hp))
    have hsort3 : pairwiseLtKeys out = true := by
      rw [pairwiseLtKeys_eq, hkeys, ← pairwiseLtKeys_eq]
      exact hsort2
    have hfix : sortPairs out = out := sortPairs_of_sorted out hsort3
    have hlen : out.length = items.length := by
      have h1 := List.Forall₂.length_eq hf2
      have h2 := hperm.length_eq
      omega
    refine ⟨by simp [wfData, hkd3, hwf2], ?_, ?_⟩
    · simp only [pyEq, Bool.and_eq_true]
      refine ⟨by simp [hlen], ?_⟩
      rw [pyEqPairs_forall]
      intro p hp
      obtain ⟨k, w⟩ := p
      obtain ⟨r, hr, hrel⟩ := forall2_mem_left out (sortPairs items) hf2 (k, w) hp
      obtain ⟨rk, rv⟩ := r
      have hkr : k = rk := hrel.1
      subst hkr
      exact lookup_of_mem items k rv w hwf.1 hsc (hperm.mem_iff.mp hr) hrel.2
    · have hrev2 := hrev [] (by intro q _ p hp; simp at hp)
      rw [List.nil_append] at hrev2
      rw [vfuel_dictV_run n root pairs out out [] nm (by rw [hfix]; exact hrev2)]
      simp [hes.2, finishErrors]
  case case13 =>
    intro n root pairs d hne hcr hcv hfr hfv hwf e h
    cases d
    case dict items => exact absurd rfl (hne items)
    all_goals simp [vfuel] at h
  case case14 =>
    intro root opt d hcr hcv hfr hfv hwf e h
    rw [vfuel_selfV_zero] at h
    exact absurd h (by simp)
  case case15 =>
    intro root opt d m ih hcr hcv hfr hfv hwf e h
    rw [vfuel_selfV_succ] at h
    obtain ⟨h1, h2, h3⟩ := ih hcr hcr hfr hfr hwf e h
    exact ⟨h1, h2, by rw [vfuel_selfV_succ]; exact h3⟩
  case case16 =>
    intro n root vs opt d exc hch ihx hcr hcv hfr hfv hwf e h
    simp [chainFreeV] at hcv
  case case17 =>
    intro n root vs opt d df errs hch ihx hcr hcv hfr hfv hwf e h
    simp [chainFreeV] at hcv
  case case18 =>
    intro n root vs opt d exc hch ihx hcr hcv hfr hfv hwf e h
    simp [chainFreeV] at hcv
  case case19 =>
    intro n root vs opt d df errs hch hlen ihx hcr hcv hfr hfv hwf e h
    simp [chainFreeV] at hcv
  case case20 =>
    intro n root vs opt d df errs hch hlen ihx hcr hcv hfr hfv hwf e h
    simp [chainFreeV] at hcv
  case case21 =>
    intro n root f d nd hf hcr hcv hfr hfv hwf e h
    simp [funcFreeV] at hfv
  case case22 =>
    intro n root f d exc hf hcr hcv hfr hfv hwf e h
    simp [funcFreeV] at hfv
  case case23 =>
    intro n root mn mx d exc hp hcr hcv hfr hfv hwf e h
    simp [vfuel, hp] at h
  case case24 =>
    intro n root mn mx d l hp hb hcr hcv hfr hfv hwf e h
    simp [vfuel, hp, hb] at h
  case case25 =>
    intro n root mn mx d l hp hb ha hcr hcv hfr hfv hwf e h
    rw [Bool.not_eq_true] at hb
    simp [vfuel, hp, hb, ha] at h
  case case26 =>
    intro n root mn mx d l hp hb ha hcr hcv hfr hfv hwf e h
    rw [Bool.not_eq_true] at hb
    rw [Bool.not_eq_true] at ha
    simp [vfuel, hp, hb, ha] at h
    subst h
    exact ⟨hwf, pyEq_refl_wf d hwf, by simp [vfuel, hp, hb, ha]⟩
  case case27 =>
    intros
    trivial
  case case28 =>
    intros
    trivial
  case case29 =>
    intros
    trivial
  case case30 =>
    intros
    trivial
  case case31 =>
    intro n root pairs out notM hcr hcp hfr hfp hwfP hkd hd o es nm h hes
    rw [dictRun_nil] at h
    simp at h
    refine ⟨[], by simp [← h.1], List.Forall₂.nil, by simp [wfP], ?_⟩
    intro out2 _
    rw [dictRun_nil]
    simp [← h.2.2]
  case case32 =>
    intro n root pairs k v rest out notM exc htk _ hcr hcp hfr hfp hwfP hkd hd o es nm h hes
    rw [dictRun_cons_err n root pairs k v rest out notM exc htk] at h
    exact absurd h (by simp)
  case case33 =>
    intro n root pairs k v rest out notM htk _ ih hcr hcp hfr hfp hwfP hkd hd o es nm h hes
    cases hrest : dictRun n root pairs rest out notM with
    | error exc =>
      rw [dictRun_cons_noMatch_err n root pairs k v rest out notM exc htk hrest] at h
      exact absurd h (by simp)
    | ok q =>
      obtain ⟨o', es', nm'⟩ := q
      rw [dictRun_cons_noMatch n root pairs k v rest out o' notM nm' es' htk hrest] at h
      simp at h
      rw [← h.2.1] at hes
      exact absurd hes (by simp)
  case case34 =>
    intro n root pairs k v rest out notM j e htk _ ih hcr hcp hfr hfp hwfP hkd hd o es nm h hes
    cases hrest : dictRun n root pairs rest out (notM.erase j) with
    | error exc =>
      rw [dictRun_cons_valueFailed_err n root pairs k v rest out notM j e exc htk hrest] at h
      exact absurd h (by simp)
    | ok q =>
      obtain ⟨o', es', nm'⟩ := q
      rw [dictRun_cons_valueFailed n root pairs k v rest out o' notM nm' j e es' htk hrest] at h
      simp at h
      rw [← h.2.1] at hes
      exact absurd hes (by simp)
  case case35 =>
    intro n root pairs k v rest out notM j nk nv htk ihtk ih hcr hcp hfr hfp hwfP hkd hd o es nm h hes
    simp only [wfP, Bool.and_eq_true] at hwfP
    simp only [keysDistinct, Bool.and_eq_true, List.all_eq_true,
      Bool.not_eq_true'] at hkd
    obtain ⟨hnk, hwfnv, hpnv, htks⟩ :=
      ihtk hcr hcp hfr hfp hwfP.1.1 hwfP.1.2 j nk nv htk
    subst hnk
    rw [dictRun_cons_matched n root pairs nk v nk nv rest out notM j htk] at h
    have hins : pyInsert out nk nv = out ++ [(nk, nv)] :=
      pyInsert_append out nk nv (fun p hp => hd (nk, v) (by simp) p hp)
    rw [hins] at h ih
    have hd2 : ∀ q ∈ rest, ∀ p ∈ out ++ [(nk, nv)], pyEq p.1 q.1 = false := by
      intro q hq p hp
      rcases List.mem_append.mp hp with hp0 | hp1
      · exact hd q (by simp [hq]) p hp0
      · simp at hp1
        rw [hp1]
        exact hkd.1 q hq
    obtain ⟨items2r, ho, hf2, hwf2, hrev⟩ :=
      ih hcr hcp hfr hfp hwfP.2 hkd.2 hd2 o es nm h hes
    refine ⟨(nk, nv) :: items2r, ?_, List.Forall₂.cons ⟨rfl, hpnv⟩ hf2,
      by simp [wfP, hwfP.1.1, hwfnv, hwf2], ?_⟩
    · rw [ho, List.append_assoc]
      rfl
    · intro out2 hdisj2
      have hdk : ∀ p ∈ out2, pyEq p.1 nk = false :=
        fun p hp => hdisj2 (nk, nv) (by simp) p hp
      rw [dictRun_cons_matched n root pairs nk nv nk nv items2r out2 notM j htks]
      rw [pyInsert_append out2 nk nv hdk]
      have hdisj3 : ∀ q ∈ items2r, ∀ p ∈ out2 ++ [(nk, nv)], pyEq p.1 q.1 = false := by
        intro q hq p hp
        rcases List.mem_append.mp hp with hp0 | hp1
        · exact hdisj2 q (by simp [hq]) p hp0
        · simp at hp1
          rw [hp1]
          obtain ⟨r, hr, hrel⟩ := forall2_mem_left items2r rest hf2 q hq
          rw [hrel.1]
          exact hkd.1 r hr
      rw [hrev (out2 ++ [(nk, nv)]) hdisj3]
      simp
  case case36 =>
    intro n root j k v hcr hcp hfr hfp hsk hwv j2 nk nv h
    rw [tryKey_nil] at h
    exact absurd h (by simp)
  case case37 =>
    intro n root kv vv rest j k v exc hk _ hcr hcp hfr hfp hsk hwv j2 nk nv h
    rw [tryKey_cons_kv_pyerr n root kv vv rest j k v exc hk] at h
    exact absurd h (by simp)
  case case38 =>
    intro n root kv vv rest j k v e0 hk _ ih hcr hcp hfr hfp hsk hwv j2 nk nv h
    simp [chainFreeP] at hcp
    simp [funcFreeP] at hfp
    rw [tryKey_cons_kv_verr n root kv vv rest j k v e0 hk] at h
    obtain ⟨h1, h2, h3, h4⟩ := ih hcr hcp.2 hfr hfp.2 hsk hwv j2 nk nv h
    refine ⟨h1, h2, h3, ?_⟩
    rw [tryKey_cons_kv_verr n root kv vv rest j k nv e0 hk]
    exact h4
  case case39 =>
    intro n root kv vv rest j k v nk0 hk exc hv _ _ hcr hcp hfr hfp hsk hwv j2 nk nv h
    rw [tryKey_cons_ok_vv_pyerr n root kv vv rest j k v nk0 exc hk hv] at h
    exact absurd h (by simp)
  case case40 =>
    intro n root kv vv rest j k v nk0 hk e0 hv _ _ hcr hcp hfr hfp hsk hwv j2 nk nv h
    rw [tryKey_cons_ok_vv_verr n root kv vv rest j k v nk0 e0 hk hv] at h
    exact absurd h (by simp)
  case case41 =>
    intro n root kv vv rest j k v nk0 hk nv0 hv ihkv ihvv hcr hcp hfr hfp hsk hwv j2 nk nv h
    simp [chainFreeP] at hcp
    simp [funcFreeP] at hfp
    rw [tryKey_cons_ok_vv_ok n root kv vv rest j k v nk0 nv0 hk hv] at h
    simp at h
    have hnk0 : nk0 = k :=
      identity_main.1 n root kv k hfr hfp.1.1 (scalar_dsorted k hsk) nk0 hk
    obtain ⟨hwnv0, hpnv0, hsnv0⟩ := ihvv hcr hcp.1.2 hfr hfp.1.2 hwv nv0 hv
    obtain ⟨hj, hnk, hnv⟩ := h
    subst hj
    subst hnk
    subst hnv
    refine ⟨hnk0, hwnv0, hpnv0, ?_⟩
    rw [tryKey_cons_ok_vv_ok n root kv vv rest j k nv0 nk0 nv0 hk hsnv0, hnk0]
  case case42 =>
    intro n root ev i hcr hcv hfr hfv hwl nd es h hes
    rw [listRun_nil] at h
    simp at h
    refine ⟨by simp [h.1, wfL], by simp [h.1, pyEqList], ?_⟩
    intro i2
    rw [h.1, listRun_nil]
  case case43 =>
    intro n root ev i x xs exc hx _ hcr hcv hfr hfv hwl nd es h hes
    rw [listRun_cons_pyerr n root ev i x xs exc hx] at h
    exact absurd h (by simp)
  case case44 =>
    intro n root ev i x xs y hx ihx ih hcr hcv hfr hfv hwl nd es h hes
    simp only [wfL, Bool.and_eq_true] at hwl
    cases hrest : listRun n root ev (i + 1) xs with
    | error exc =>
      rw [listRun_cons_ok_err n root ev i x y xs exc hx hrest] at h
      exact absurd h (by simp)
    | ok q =>
      obtain ⟨nd', es'⟩ := q
      rw [listRun_cons_ok n root ev i x y xs nd' es' hx hrest] at h
      simp at h
      rw [← h.2] at hes
      obtain ⟨hwy, hpy, hsy⟩ := ihx hcr hcv hfr hfv hwl.1 y hx
      obtain ⟨hwnd', hpnd', hrev'⟩ := ih hcr hcv hfr hfv hwl.2 nd' es' hrest hes
      rw [← h.1]
      refine ⟨by simp [wfL, hwy, hwnd'], by simp [pyEqList, hpy, hpnd'], ?_⟩
      intro i2
      exact listRun_cons_ok n root ev i2 y y nd' nd' [] hsy (hrev' (i2 + 1))
  case case45 =>
    intro n root ev i x xs e hx _ ih hcr hcv hfr hfv hwl nd es h hes
    cases hrest : listRun n root ev (i + 1) xs with
    | error exc =>
      rw [listRun_cons_verr_err n root ev i x xs e exc hx hrest] at h
      exact absurd h (by simp)
    | ok q =>
      obtain ⟨nd', es'⟩ := q
      rw [listRun_cons_verr n root ev i x xs nd' e es' hx hrest] at h
      simp at h
      rw [← h.2] at hes
      exact absurd hes (by simp)

/-- The All/Any loop collects at most one error per sub-validator. -/
theorem chainRun_errCount (n : Nat) (root : Validator) :
    ∀ (vs : List Validator) (d df : Data) (es : List VError),
    chainRun n root vs d = .ok (df, es) → es.length ≤ vs.length := by
  intro vs
  induction vs with
  | nil =>
    intro d df es h
    rw [chainRun_nil] at h
    simp at h
    simp [← h.2]
  | cons v vs ih =>
    intro d df es h
    cases hv : vfuel n root v d with
    | pyerror exc =>
      rw [chainRun_cons_pyerr n root v vs d exc hv] at h
      exact absurd h (by simp)
    | ok d2 =>
      rw [chainRun_cons_ok n root v vs d d2 hv] at h
      have := ih d2 df es h
      simp
      omega
    | verror e =>
      cases hrest : chainRun n root vs d with
      | error exc =>
        rw [chainRun_cons_verr_err n root v vs d e exc hv hrest] at h
        exact absurd h (by simp)
      | ok q =>
        obtain ⟨df', es'⟩ := q
        rw [chainRun_cons_verr n root v vs d df' e es' hv hrest] at h
        simp at h
        have := ih d df' es' hrest
        simp [← h.2]
        omega

theorem chainRun_errCount_witness :
    chainRun 1 (.selfV false) [.type .str false] (.int 1) =
      .ok (.int 1, [.typeErr .str (.int 1) []]) ∧
    [VError.typeErr .str (.int 1) []].length ≤ [Validator.type .str false].length := by
  have h : chainRun 1 (.selfV false) [.type .str false] (.int 1) =
      .ok (.int 1, [.typeErr .str (.int 1) []]) := by
    simp [chainRun, vfuel, isinstance, Except.bind, bind]
  exact ⟨h, chainRun_errCount 1 (.selfV false) [.type .str false] (.int 1) _ _ h⟩

/-- When every sub-validator failed, the All/Any loop returns the data
unchanged. -/
theorem chainRun_allFail (n : Nat) (root : Validator) :
    ∀ (vs : List Validator) (d df : Data) (es : List VError),
    chainRun n root vs d = .ok (df, es) → es.length = vs.length → df = d := by
  intro vs
  induction vs with
  | nil =>
    intro d df es h _
    rw [chainRun_nil] at h
    simp at h
    exact h.1.symm
  | cons v vs ih =>
    intro d df es h hlen
    cases hv : vfuel n root v d with
    | pyerror exc =>
      rw [chainRun_cons_pyerr n root v vs d exc hv] at h
      exact absurd h (by simp)
    | ok d2 =>
      rw [chainRun_cons_ok n root v vs d d2 hv] at h
      have := chainRun_errCount n root vs d2 df es h
      simp at hlen
      omega
    | verror e =>
      cases hrest : chainRun n root vs d with
      | error exc =>
        rw [chainRun_cons_verr_err n root v vs d e exc hv hrest] at h
        exact absurd h (by simp)
      | ok q =>
        obtain ⟨df', es'⟩ := q
        rw [chainRun_cons_verr n root v vs d df' e es' hv hrest] at h
        simp at h
        rw [← h.1]
        refine ih d df' es' hrest ?_
        rw [← h.2] at hlen
        simp at hlen
        omega

theorem chainRun_allFail_witness :
    chainRun 1 (.selfV false) [.type .str false] (.int 1) =
      .ok (.int 1, [.typeErr .str (.int 1) []]) ∧
    [VError.typeErr .str (.int 1) []].length = [Validator.type .str false].length ∧
    (Data.int 1) = (Data.int 1) := by
  have h : chainRun 1 (.selfV false) [.type .str false] (.int 1) =
      .ok (.int 1, [.typeErr .str (.int 1) []]) := by
    simp [chainRun, vfuel, isinstance, Except.bind, bind]
  exact ⟨h, by simp,
    chainRun_allFail 1 (.selfV false) [.type .str false] (.int 1) _ _ h (by simp)⟩

/-- When at least one sub-validator succeeded, the All/Any loop's final
data is the output of the last successful application: the validator list
splits into a prefix run, a last succeeding validator applied to the
prefix's final data, and a suffix on which every validator fails, keeping
the data. -/
theorem chain_last_success (n : Nat) (root : Validator) :
    ∀ (vs : List Validator) (d df : Data) (es : List VError),
    chainRun n root vs d = .ok (df, es) → es.length < vs.length →
    ∃ (ws : List Validator) (w : Validator) (ws2 : List Validator)
      (dw : Data) (es1 es2 : List VError),
      vs = ws ++ w :: ws2 ∧
      chainRun n root ws d = .ok (dw, es1) ∧
      vfuel n root w dw = .ok df ∧
      chainRun n root ws2 df = .ok (df, es2) ∧
      es2.length = ws2.length ∧
      es = es1 ++ es2 := by
  intro vs
  induction vs with
  | nil =>
    intro d df es h hlen
    rw [chainRun_nil] at h
    simp at h
    rw [h.2] at hlen
    simp at hlen
  | cons v vs ih =>
    intro d df es h hlen
    cases hv : vfuel n root v d with
    | pyerror exc =>
      rw [chainRun_cons_pyerr n root v vs d exc hv] at h
      exact absurd h (by simp)
    | ok d2 =>
      rw [chainRun_cons_ok n root v vs d d2 hv] at h
      by_cases hall : es.length = vs.length
      · have hdf : df = d2 := chainRun_allFail n root vs d2 df es h hall
        subst hdf
        exact ⟨[], v, vs, d, [], es, by simp, chainRun_nil n root d, hv, h, hall,
          by simp⟩
      · have hlt : es.length < vs.length := by
          have := chainRun_errCount n root vs d2 df es h
          omega
        obtain ⟨ws, w, ws2, dw, es1, es2, hsplit, hpre, hw, hpost, hlen2, heq⟩ :=
          ih d2 df es h hlt
        refine ⟨v :: ws, w, ws2, dw, es1, es2, by simp [hsplit], ?_, hw, hpost,
          hlen2, heq⟩
        rw [chainRun_cons_ok n root v ws d d2 hv]
        exact hpre
    | verror e =>
      cases hrest : chainRun n root vs d with
      | error exc =>
        rw [chainRun_cons_verr_err n root v vs d e exc hv hrest] at h
        exact absurd h (by simp)
      | ok q =>
        obtain ⟨df', es'⟩ := q
        rw [chainRun_cons_verr n root v vs d df' e es' hv hrest] at h
        simp at h
        obtain ⟨h1, h2⟩ := h
        subst h1
        have hlt : es'.length < vs.length := by
          rw [← h2] at hlen
          simp at hlen
          omega
        obtain ⟨ws, w, ws2, dw, es1, es2, hsplit, hpre, hw, hpost, hlen2, heq⟩ :=
          ih d df' es' hrest hlt
        refine ⟨v :: ws, w, ws2, dw, e :: es1, es2, by simp [hsplit], ?_, hw,
          hpost, hlen2, by simp [← h2, heq]⟩
        exact chainRun_cons_verr n root v ws d dw e es1 hv hpre

theorem chain_last_success_witness :
    chainRun 1 (.selfV false) [.funcV inc, .type .str false] (.int 0) =
      .ok (.int 1, [.typeErr .str (.int 1) []]) ∧
    [VError.typeErr .str (.int 1) []].length <
      [Validator.funcV inc, Validator.type .str false].length ∧
    (∃ (ws : List Validator) (w : Validator) (ws2 : List Validator)
      (dw : Data) (es1 es2 : List VError),
      [Validator.funcV inc, Validator.type .str false] = ws ++ w :: ws2 ∧
      chainRun 1 (.selfV false) ws (.int 0) = .ok (dw, es1) ∧
      vfuel 1 (.selfV false) w dw = .ok (.int 1) ∧
      chainRun 1 (.selfV false) ws2 (.int 1) = .ok (.int 1, es2) ∧
      es2.length = ws2.length ∧
      [VError.typeErr .str (.int 1) []] = es1 ++ es2) := by
  have h : chainRun 1 (.selfV false) [.funcV inc, .type .str false] (.int 0) =
      .ok (.int 1, [.typeErr .str (.int 1) []]) := by
    simp [chainRun, vfuel, inc, isinstance, Except.bind, bind]
  exact ⟨h, by simp,
    chain_last_success 1 (.selfV false) [.funcV inc, .type .str false]
      (.int 0) (.int 1) _ h (by simp)⟩

/-- C3 amended: in the Any loop each sub-validator is applied to the data
as transformed so far — a successful sub-validator's output replaces the
data for the sub-validators after it, while a failing one leaves it — and
for an arbitrary sub-validator list with at least one success, `Any`
returns the final chained data, which is the output of the last
successful application: the list splits into a prefix run producing some
data `dw`, a last succeeding sub-validator mapping `dw` to the result,
and a suffix of sub-validators that all fail and keep it. -/
theorem c3_amended (n : Nat) (root : Validator) :
    (∀ (v : Validator) (vs : List Validator) (d d2 : Data),
      vfuel n root v d = .ok d2 →
      chainRun n root (v :: vs) d = chainRun n root vs d2) ∧
    (∀ (v : Validator) (vs : List Validator) (d df : Data) (e : VError)
      (es : List VError),
      vfuel n root v d = .verror e → chainRun n root vs d = .ok (df, es) →
      chainRun n root (v :: vs) d = .ok (df, e :: es)) ∧
    (∀ (vs : List Validator) (o : Bool) (d df : Data) (es : List VError),
      chainRun n root vs d = .ok (df, es) → es.length < vs.length →
      vfuel n root (.anyV vs o) d = .ok df ∧
      ∃ (ws : List Validator) (w : Validator) (ws2 : List Validator)
        (dw : Data) (es1 es2 : List VError),
        vs = ws ++ w :: ws2 ∧
        chainRun n root ws d = .ok (dw, es1) ∧
        vfuel n root w dw = .ok df ∧
        chainRun n root ws2 df = .ok (df, es2) ∧
        es2.length = ws2.length ∧
        es = es1 ++ es2) := by
  refine ⟨fun v vs d d2 h => chainRun_cons_ok n root v vs d d2 h,
    fun v vs d df e es h h2 => chainRun_cons_verr n root v vs d df e es h h2,
    fun vs o d df es h hlen => ⟨?_, chain_last_success n root vs d df es h hlen⟩⟩
  rw [vfuel_anyV_run n root vs o d df es h]
  have hne : es.length ≠ vs.length := by omega
  simp [hne]

/-- C3 witness: `Any` of two incrementing transforms on `0`: the second
transform receives the first one's output `1` (not the original `0`), the
chain returns the last successful output `2`, and the decomposition
exhibits the split `[inc] ++ inc :: []`. -/
theorem c3_witness :
    vfuel 1 (.selfV false) (.anyV [.funcV inc, .funcV inc] false) (.int 0) =
      .ok (.int 2) ∧
    ∃ (ws : List Validator) (w : Validator) (ws2 : List Validator)
      (dw : Data) (es1 es2 : List VError),
      [Validator.funcV inc, Validator.funcV inc] = ws ++ w :: ws2 ∧
      chainRun 1 (.selfV false) ws (.int 0) = .ok (dw, es1) ∧
      vfuel 1 (.selfV false) w dw = .ok (.int 2) ∧
      chainRun 1 (.selfV false) ws2 (.int 2) = .ok (.int 2, es2) ∧
      es2.length = ws2.length ∧
      ([] : List VError) = es1 ++ es2 :=
  (c3_amended 1 (.selfV false)).2.2 [.funcV inc, .funcV inc] false (.int 0)
    (.int 2) []
    (by simp [chainRun, vfuel, inc, Except.bind, bind])
    (by simp)

/-- C5 amended: the error reduction shared by Sequence, Mapping and All
raises exactly one collected failure unwrapped and wraps two or more in a
single Aggregate (first two conjuncts, for every collected list), and each
of the three validators routes exactly its collected child failures
through that reduction (next three conjuncts).  `Any` never uses it: it
collects at most one failure per sub-validator, fails exactly when every
sub-validator failed, and then always wraps the collected failures in an
Aggregate, even a single one (last conjunct). -/
theorem c5_amended :
    (∀ (dd : Data) (res : VResult) (e : VError),
      finishErrors dd res [e] = .verror e) ∧
    (∀ (dd : Data) (res : VResult) (e1 e2 : VError) (es : List VError),
      finishErrors dd res (e1 :: e2 :: es) =
        .verror (.multiple dd (e1 :: e2 :: es) [])) ∧
    (∀ (n : Nat) (root ev : Validator) (xs nd : List Data) (errs : List VError),
      listRun n root ev 0 xs = .ok (nd, errs) →
      vfuel n root (.listV ev) (.list xs) =
        finishErrors (.list xs) (.ok (.list nd)) errs) ∧
    (∀ (n : Nat) (root : Validator) (pairs : List (Validator × Validator))
      (items out : List (Data × Data)) (errs : List VError) (nm : List Nat),
      dictRun n root pairs (sortPairs items) [] (initNotMatched pairs) =
        .ok (out, errs, nm) →
      vfuel n root (.dictV pairs) (.dict items) =
        finishErrors (.dict items) (.ok (.dict out)) (errs ++ missingErrors pairs nm)) ∧
    (∀ (n : Nat) (root : Validator) (vs : List Validator) (o : Bool) (d df : Data)
      (errs : List VError),
      chainRun n root vs d = .ok (df, errs) →
      vfuel n root (.allV vs o) d = finishErrors df (.ok df) errs) ∧
    (∀ (n : Nat) (root : Validator) (vs : List Validator) (o : Bool) (d df : Data)
      (errs : List VError),
      chainRun n root vs d = .ok (df, errs) →
      errs.length ≤ vs.length ∧
      vfuel n root (.anyV vs o) d =
        (if errs.length = vs.length then .verror (.multiple df errs [])
         else .ok df)) := by
  refine ⟨fun dd res e => rfl,
    fun dd res e1 e2 es => rfl,
    fun n root ev xs nd errs h => vfuel_listV_run n root ev xs nd errs h,
    fun n root pairs items out errs nm h => vfuel_dictV_run n root pairs items out errs nm h,
    fun n root vs o d df errs h => vfuel_allV_run n root vs o d df errs h,
    fun n root vs o d df errs h =>
      ⟨chainRun_errCount n root vs d df errs h, vfuel_anyV_run n root vs o d df errs h⟩⟩

/-- C5 witness: the reduction laws and their wiring at concrete inputs —
one collected failure raised unwrapped, two wrapped in one Aggregate, a
list validator's collected failure surfacing unwrapped through the
reduction, and an `Any` with a single failing sub-validator failing (one
error, one validator) with that error wrapped. -/
theorem c5_witness :
    finishErrors (.int 0) (.ok (.int 0)) [.typeErr .str (.int 1) []] =
      .verror (.typeErr .str (.int 1) []) ∧
    finishErrors (.int 0) (.ok (.int 0))
        [.typeErr .str (.int 1) [], .typeErr .int (.str "a") []] =
      .verror (.multiple (.int 0)
        [.typeErr .str (.int 1) [], .typeErr .int (.str "a") []] []) ∧
    vfuel 1 (.selfV false) (.listV (.type .str false)) (.list [.str "a", .int 1]) =
      finishErrors (.list [.str "a", .int 1]) (.ok (.list [.str "a"]))
        [.typeErr .str (.int 1) [.int 1]] ∧
    ([VError.typeErr .str (.int 1) []].length ≤ [Validator.type .str false].length ∧
      vfuel 1 (.selfV false) (.anyV [.type .str false] false) (.int 1) =
        (if [VError.typeErr .str (.int 1) []].length =
            [Validator.type .str false].length then
          .verror (.multiple (.int 1) [.typeErr .str (.int 1) []] [])
         else .ok (.int 1))) := by
  refine ⟨c5_amended.1 (.int 0) (.ok (.int 0)) (.typeErr .str (.int 1) []),
    c5_amended.2.1 (.int 0) (.ok (.int 0)) (.typeErr .str (.int 1) [])
      (.typeErr .int (.str "a") []) [],
    c5_amended.2.2.1 1 (.selfV false) (.type .str false) [.str "a", .int 1]
      [.str "a"] [.typeErr .str (.int 1) [.int 1]]
      (by simp [listRun, vfuel, isinstance, VError.push, Except.bind, bind]),
    c5_amended.2.2.2.2.2 1 (.selfV false) [.type .str false] false (.int 1)
      (.int 1) [.typeErr .str (.int 1) []]
      (by simp [chainRun, vfuel, isinstance, Except.bind, bind])⟩

/-- Sort-normalization leaves scalars unchanged. -/
theorem dnorm_scalar (a : Data) (h : isScalar a = true) : dnorm a = a := by
  cases a <;> simp_all [isScalar, dnorm]

theorem dnorm_scalar_witness : isScalar (.int 3) = true ∧ dnorm (.int 3) = .int 3 :=
  ⟨by decide, dnorm_scalar (.int 3) (by decide)⟩

theorem dnormL_length : ∀ (l : List Data), (dnormL l).length = l.length := by
  intro l
  induction l with
  | nil => rfl
  | cons x xs ih => simp [dnormL, ih]

theorem dnormP_length : ∀ (l : List (Data × Data)), (dnormP l).length = l.length := by
  intro l
  induction l with
  | nil => rfl
  | cons p xs ih =>
    obtain ⟨k, v⟩ := p
    simp [dnormP, ih]

/-- Sort-normalization keeps the keys. -/
theorem map_fst_dnormP :
    ∀ (l : List (Data × Data)), (dnormP l).map Prod.fst = l.map Prod.fst := by
  intro l
  induction l with
  | nil => rfl
  | cons p xs ih =>
    obtain ⟨k, v⟩ := p
    simp [dnormP, ih]

/-- Membership in a sort-normalized pair list. -/
theorem mem_dnormP :
    ∀ (l : List (Data × Data)) (p : Data × Data),
    p ∈ dnormP l ↔ ∃ q, q ∈ l ∧ p = (q.1, dnorm q.2) := by
  intro l
  induction l with
  | nil => intro p; simp [dnormP]
  | cons q0 xs ih =>
    intro p
    obtain ⟨k, v⟩ := q0
    simp only [dnormP, List.mem_cons, ih]
    constructor
    · intro h
      rcases h with h1 | ⟨q, hq, hp⟩
      · exact ⟨(k, v), Or.inl rfl, h1⟩
      · exact ⟨q, Or.inr hq, hp⟩
    · intro ⟨q, hq, hp⟩
      rcases hq with h1 | h2
      · subst h1; exact Or.inl hp
      · exact Or.inr ⟨q, h2, hp⟩

/-- Value normalization commutes with sorted insertion (keys decide). -/
theorem dnormP_insertPair :
    ∀ (p : Data × Data) (l : List (Data × Data)),
    dnormP (insertPair p l) = insertPair (p.1, dnorm p.2) (dnormP l) := by
  intro p l
  induction l with
  | nil =>
    obtain ⟨pk, pv⟩ := p
    rfl
  | cons q rest ih =>
    obtain ⟨pk, pv⟩ := p
    obtain ⟨qk, qv⟩ := q
    cases h : cmpKey pk qk with
    | lt => simp [insertPair, h, dnormP]
    | eq => simp [insertPair, h, dnormP, ih]
    | gt => simp [insertPair, h, dnormP, ih]

/-- Value normalization commutes with the sort. -/
theorem dnormP_sortPairs :
    ∀ (l : List (Data × Data)), dnormP (sortPairs l) = sortPairs (dnormP l) := by
  intro l
  induction l with
  | nil => rfl
  | cons p rest ih =>
    obtain ⟨pk, pv⟩ := p
    simp only [sortPairs, dnormP, dnormP_insertPair, ih]

/-- Distinctness of keys is unaffected by value normalization. -/
theorem keysDistinct_dnormP (l : List (Data × Data)) :
    keysDistinct (dnormP l) = keysDistinct l := by
  rw [keysDistinct_eq, map_fst_dnormP, ← keysDistinct_eq]

/-- Scalarity of keys is unaffected by value normalization. -/
theorem scalarKeys_dnormP (l : List (Data × Data))
    (h : ∀ p ∈ l, isScalar p.1 = true) :
    ∀ p ∈ dnormP l, isScalar p.1 = true := by
  intro p hp
  obtain ⟨q, hq, hpq⟩ := (mem_dnormP l p).mp hp
  rw [hpq]
  exact h q hq

theorem scalarKeys_dnormP_witness :
    (∀ p ∈ [((Data.int 1), Data.none)], isScalar p.1 = true) ∧
    (∀ p ∈ dnormP [((Data.int 1), Data.none)], isScalar p.1 = true) :=
  ⟨by simp [isScalar], scalarKeys_dnormP [((Data.int 1), Data.none)] (by simp [isScalar])⟩

/-- Sorting is idempotent on pair lists with `==`-distinct scalar keys. -/
theorem sortPairs_idem (l : List (Data × Data)) (hd : keysDistinct l = true)
    (hsc : ∀ p ∈ l, isScalar p.1 = true) :
    sortPairs (sortPairs l) = sortPairs l := by
  refine sortPairs_of_sorted _ (sorted_distinct_strict (sortPairs l)
    (sortPairs_sorted l) ?_ ?_)
  · exact keysDistinct_perm l (sortPairs l) (sortPairs_perm l).symm hsc hd
  · exact fun p hp => hsc p ((sortPairs_perm l).mem_iff.mp hp)

theorem sortPairs_idem_witness :
    keysDistinct [((Data.int 2), Data.none), ((Data.int 1), Data.none)] = true ∧
    (∀ p ∈ [((Data.int 2), Data.none), ((Data.int 1), Data.none)], isScalar p.1 = true) ∧
    sortPairs (sortPairs [((Data.int 2), Data.none), ((Data.int 1), Data.none)]) =
      sortPairs [((Data.int 2), Data.none), ((Data.int 1), Data.none)] := by
  refine ⟨by simp [keysDistinct, pyEq], by simp [isScalar], ?_⟩
  exact sortPairs_idem _ (by simp [keysDistinct, pyEq]) (by simp [isScalar])

/-- Destructing a sort-normal equality of element lists (nil case). -/
theorem dnormL_eq_nil (ys : List Data) (h : dnormL [] = dnormL ys) : ys = [] := by
  cases ys with
  | nil => rfl
  | cons y ys2 => simp [dnormL] at h

theorem dnormL_eq_nil_witness :
    dnormL [] = dnormL [] ∧ ([] : List Data) = [] :=
  ⟨rfl, dnormL_eq_nil [] rfl⟩

/-- Destructing a sort-normal equality of element lists (cons case). -/
theorem dnormL_eq_cons (x : Data) (xs ys : List Data)
    (h : dnormL (x :: xs) = dnormL ys) :
    ∃ y ys2, ys = y :: ys2 ∧ dnorm x = dnorm y ∧ dnormL xs = dnormL ys2 := by
  cases ys with
  | nil => simp [dnormL] at h
  | cons y ys2 =>
    simp only [dnormL, List.cons.injEq] at h
    exact ⟨y, ys2, rfl, h.1, h.2⟩

theorem dnormL_eq_cons_witness :
    dnormL [Data.int 1] = dnormL [Data.int 1] ∧
    (∃ y ys2, [Data.int 1] = y :: ys2 ∧ dnorm (.int 1) = dnorm y ∧
      dnormL [] = dnormL ys2) :=
  ⟨rfl, dnormL_eq_cons (.int 1) [] [Data.int 1] rfl⟩

/-- Destructing a sort-normal equality of pair lists (nil case). -/
theorem dnormP_eq_nil (ys : List (Data × Data)) (h : dnormP [] = dnormP ys) :
    ys = [] := by
  cases ys with
  | nil => rfl
  | cons y ys2 =>
    obtain ⟨k, v⟩ := y
    simp [dnormP] at h

theorem dnormP_eq_nil_witness :
    dnormP [] = dnormP [] ∧ ([] : List (Data × Data)) = [] :=
  ⟨rfl, dnormP_eq_nil [] rfl⟩

/-- Destructing a sort-normal equality of pair lists (cons case): the
heads carry the same key. -/
theorem dnormP_eq_cons (k v : Data) (xs ys : List (Data × Data))
    (h : dnormP ((k, v) :: xs) = dnormP ys) :
    ∃ w ys2, ys = (k, w) :: ys2 ∧ dnorm v = dnorm w ∧ dnormP xs = dnormP ys2 := by
  cases ys with
  | nil => simp [dnormP] at h
  | cons q ys2 =>
    obtain ⟨qk, qv⟩ := q
    simp only [dnormP, List.cons.injEq, Prod.mk.injEq] at h
    obtain ⟨⟨hk, hv⟩, hrest⟩ := h
    subst hk
    exact ⟨qv, ys2, rfl, hv, hrest⟩

theorem dnormP_eq_cons_witness :
    dnormP [((Data.int 1), Data.none)] = dnormP [((Data.int 1), Data.none)] ∧
    (∃ w ys2, [((Data.int 1), Data.none)] = ((Data.int 1), w) :: ys2 ∧
      dnorm Data.none = dnorm w ∧ dnormP [] = dnormP ys2) :=
  ⟨rfl, dnormP_eq_cons (.int 1) Data.none [] [((Data.int 1), Data.none)] rfl⟩

/-- Booleans agreeing on truth agree. -/
theorem bool_eq_of_iff (a b : Bool) (h : a = true ↔ b = true) : a = b := by
  cases a <;> cases b <;> simp_all

theorem bool_eq_of_iff_witness : (true = true ↔ true = true) ∧ true = true :=
  ⟨Iff.rfl, bool_eq_of_iff true true Iff.rfl⟩

/-- `isinstance` only sees the constructor, which `dnorm` preserves. -/
theorem isinstance_congr (a b : Data) (t : PyType) (h : dnorm a = dnorm b) :
    isinstance a t = isinstance b t := by
  cases a <;> cases b <;> first
    | (cases t <;> rfl)
    | simp [dnorm] at h

theorem isinstance_congr_witness :
    dnorm (.dict [(Data.int 2, Data.none), (Data.int 1, Data.none)]) =
      dnorm (.dict [(Data.int 1, Data.none), (Data.int 2, Data.none)]) ∧
    isinstance (.dict [(Data.int 2, Data.none), (Data.int 1, Data.none)]) .dict =
      isinstance (.dict [(Data.int 1, Data.none), (Data.int 2, Data.none)]) .dict := by
  have h : dnorm (.dict [(Data.int 2, Data.none), (Data.int 1, Data.none)]) =
      dnorm (.dict [(Data.int 1, Data.none), (Data.int 2, Data.none)]) := by
    simp [dnorm, dnormP, sortPairs, insertPair, cmpKey, numVal, cmpInt]
  exact ⟨h, isinstance_congr _ _ .dict h⟩

/-- `len` is unaffected by sort-normalization equality. -/
theorem pyLen_congr (a b : Data) (h : dnorm a = dnorm b) : pyLen a = pyLen b := by
  cases a <;> cases b <;> first
    | rfl
    | simp [dnorm] at h
  case str.str => rw [h]
  case list.list =>
    have := congrArg List.length h
    rw [dnormL_length, dnormL_length] at this
    simp [pyLen, this]
  case dict.dict =>
    have := congrArg List.length h
    rw [(sortPairs_perm _).length_eq, (sortPairs_perm _).length_eq,
      dnormP_length, dnormP_length] at this
    simp [pyLen, this]

theorem pyLen_congr_witness :
    dnorm (.dict [(Data.int 2, Data.none), (Data.int 1, Data.none)]) =
      dnorm (.dict [(Data.int 1, Data.none), (Data.int 2, Data.none)]) ∧
    pyLen (.dict [(Data.int 2, Data.none), (Data.int 1, Data.none)]) =
      pyLen (.dict [(Data.int 1, Data.none), (Data.int 2, Data.none)]) := by
  have h : dnorm (.dict [(Data.int 2, Data.none), (Data.int 1, Data.none)]) =
      dnorm (.dict [(Data.int 1, Data.none), (Data.int 2, Data.none)]) := by
    simp [dnorm, dnormP, sortPairs, insertPair, cmpKey, numVal, cmpInt]
  exact ⟨h, pyLen_congr _ _ h⟩

/-- Python `==` is unaffected by sort-normalization equality of its left
argument (size-bounded form). -/
theorem pyEq_congr_aux :
    ∀ (N : Nat) (a a2 b : Data), sizeOf a ≤ N → dnorm a = dnorm a2 →
    pyEq a b = pyEq a2 b := by
  intro N
  induction N with
  | zero =>
    intro a a2 b hsz _
    exfalso
    cases a <;> simp at hsz
  | succ N ih =>
    intro a a2 b hsz hdn
    have hlist : ∀ (xs1 ys1 : List Data), (∀ x ∈ xs1, sizeOf x ≤ N) →
        dnormL xs1 = dnormL ys1 → ∀ zs1, pyEqList xs1 zs1 = pyEqList ys1 zs1 := by
      intro xs1
      induction xs1 with
      | nil =>
        intro ys1 _ hd zs1
        rw [dnormL_eq_nil ys1 hd]
      | cons x xs1 ihl =>
        intro ys1 hb hd zs1
        obtain ⟨y, ys2, hys, hxy, hrest⟩ := dnormL_eq_cons x xs1 ys1 hd
        subst hys
        cases zs1 with
        | nil => simp [pyEqList]
        | cons z zs2 =>
          simp only [pyEqList]
          rw [ih x y z (hb x (by simp)) hxy,
            ihl ys2 (fun u hu => hb u (by simp [hu])) hrest zs2]
    have hlook : ∀ (zs1 : List (Data × Data)) (k v v' : Data), sizeOf v ≤ N →
        dnorm v = dnorm v' → pyLookupEq k v zs1 = pyLookupEq k v' zs1 := by
      intro zs1
      induction zs1 with
      | nil =>
        intro k v v' _ _
        simp [pyLookupEq]
      | cons q rest ihz =>
        intro k v v' hb hvv
        obtain ⟨k1, v1⟩ := q
        by_cases hk : pyEq k k1 = true
        · simp only [pyLookupEq, hk, if_true]
          exact ih v v' v1 hb hvv
        · rw [Bool.not_eq_true] at hk
          simp only [pyLookupEq, hk, Bool.false_eq_true, if_false]
          exact ihz k v v' hb hvv
    cases a <;> cases a2 <;> first
      | rfl
      | simp [dnorm] at hdn
    case str.str => rw [hdn]
    case int.int => rw [hdn]
    case bool.bool => rw [hdn]
    case list.list xs ys =>
      cases b <;> simp only [pyEq]
      case list zs =>
        have hb : ∀ x ∈ xs, sizeOf x ≤ N := by
          intro x hx
          have h1 := List.sizeOf_lt_of_mem hx
          have h2 : sizeOf (Data.list xs) = 1 + sizeOf xs := by simp
          omega
        rw [hlist xs ys hb hdn zs]
    case dict.dict xs ys =>
      have hlen : xs.length = ys.length := by
        have := congrArg List.length hdn
        rw [(sortPairs_perm _).length_eq, (sortPairs_perm _).length_eq,
          dnormP_length, dnormP_length] at this
        exact this
      have hb : ∀ (k v : Data), (k, v) ∈ xs → sizeOf v ≤ N := by
        intro k v hm
        have h1 := List.sizeOf_lt_of_mem hm
        have h2 : sizeOf ((k, v)) = 1 + sizeOf k + sizeOf v := by simp
        have h3 : sizeOf (Data.dict xs) = 1 + sizeOf xs := by simp
        omega
      have htrans : ∀ (k v : Data), (k, v) ∈ xs →
          ∃ v', (k, v') ∈ ys ∧ dnorm v' = dnorm v := by
        intro k v hm
        have h1 : (k, dnorm v) ∈ dnormP xs := (mem_dnormP xs _).mpr ⟨(k, v), hm, rfl⟩
        have h2 : (k, dnorm v) ∈ sortPairs (dnormP xs) :=
          (sortPairs_perm _).mem_iff.mpr h1
        rw [hdn] at h2
        have h3 : (k, dnorm v) ∈ dnormP ys := (sortPairs_perm _).mem_iff.mp h2
        obtain ⟨q, hq, hpq⟩ := (mem_dnormP ys _).mp h3
        obtain ⟨qk, qv⟩ := q
        simp only [Prod.mk.injEq] at hpq
        refine ⟨qv, ?_, hpq.2.symm⟩
        rw [hpq.1]
        exact hq
      have htrans2 : ∀ (k v' : Data), (k, v') ∈ ys →
          ∃ v, (k, v) ∈ xs ∧ dnorm v = dnorm v' := by
        intro k v' hm
        have h1 : (k, dnorm v') ∈ dnormP ys := (mem_dnormP ys _).mpr ⟨(k, v'), hm, rfl⟩
        have h2 : (k, dnorm v') ∈ sortPairs (dnormP ys) :=
          (sortPairs_perm _).mem_iff.mpr h1
        rw [← hdn] at h2
        have h3 : (k, dnorm v') ∈ dnormP xs := (sortPairs_perm _).mem_iff.mp h2
        obtain ⟨q, hq, hpq⟩ := (mem_dnormP xs _).mp h3
        obtain ⟨qk, qv⟩ := q
        simp only [Prod.mk.injEq] at hpq
        refine ⟨qv, ?_, hpq.2.symm⟩
        rw [hpq.1]
        exact hq
      cases b <;> simp only [pyEq]
      case dict zs =>
        have hpp : pyEqPairs xs zs = pyEqPairs ys zs := by
          refine bool_eq_of_iff _ _ ?_
          rw [pyEqPairs_forall, pyEqPairs_forall]
          constructor
          · intro hall p hp
            obtain ⟨k, v'⟩ := p
            obtain ⟨v, hvm, hvv⟩ := htrans2 k v' hp
            have := hall (k, v) hvm
            rw [hlook zs k v v' (hb k v hvm) hvv] at this
            exact this
          · intro hall p hp
            obtain ⟨k, v⟩ := p
            obtain ⟨v', hvm, hvv⟩ := htrans k v hp
            have := hall (k, v') hvm
            rw [hlook zs k v v' (hb k v hp) hvv.symm]
            exact this
        rw [hlen, hpp]

theorem pyEq_congr_aux_witness :
    sizeOf (Data.int 1) ≤ sizeOf (Data.int 1) ∧ dnorm (.int 1) = dnorm (.int 1) ∧
    pyEq (.int 1) (.bool true) = pyEq (.int 1) (.bool true) :=
  ⟨le_refl _, rfl,
    pyEq_congr_aux (sizeOf (Data.int 1)) (.int 1) (.int 1) (.bool true)
      (le_refl _) rfl⟩

/-- Python `==` is unaffected by sort-normalization equality of its left
argument. -/
theorem pyEq_congr_left (a a2 b : Data) (h : dnorm a = dnorm a2) :
    pyEq a b = pyEq a2 b :=
  pyEq_congr_aux (sizeOf a) a a2 b (le_refl _) h

theorem pyEq_congr_left_witness :
    dnorm (.dict [(Data.int 2, Data.none), (Data.int 1, Data.none)]) =
      dnorm (.dict [(Data.int 1, Data.none), (Data.int 2, Data.none)]) ∧
    pyEq (.dict [(Data.int 2, Data.none), (Data.int 1, Data.none)]) (.int 7) =
      pyEq (.dict [(Data.int 1, Data.none), (Data.int 2, Data.none)]) (.int 7) := by
  have h : dnorm (.dict [(Data.int 2, Data.none), (Data.int 1, Data.none)]) =
      dnorm (.dict [(Data.int 1, Data.none), (Data.int 2, Data.none)]) := by
    simp [dnorm, dnormP, sortPairs, insertPair, cmpKey, numVal, cmpInt]
  exact ⟨h, pyEq_congr_left _ _ (.int 7) h⟩

/-- Data with equal sort-normal forms are Python-`==`. -/
theorem pyEq_of_dnorm_eq (a b : Data) (hwf : wfData b = true)
    (h : dnorm a = dnorm b) : pyEq a b = true := by
  rw [pyEq_congr_left a b b h]
  exact pyEq_refl_wf b hwf

theorem pyEq_of_dnorm_eq_witness :
    wfData (.dict [(Data.int 1, Data.none), (Data.int 2, Data.none)]) = true ∧
    dnorm (.dict [(Data.int 2, Data.none), (Data.int 1, Data.none)]) =
      dnorm (.dict [(Data.int 1, Data.none), (Data.int 2, Data.none)]) ∧
    pyEq (.dict [(Data.int 2, Data.none), (Data.int 1, Data.none)])
      (.dict [(Data.int 1, Data.none), (Data.int 2, Data.none)]) = true := by
  have hwf : wfData (.dict [(Data.int 1, Data.none), (Data.int 2, Data.none)]) = true := by
    simp [wfData, keysDistinct, wfP, isScalar, pyEq]
  have h : dnorm (.dict [(Data.int 2, Data.none), (Data.int 1, Data.none)]) =
      dnorm (.dict [(Data.int 1, Data.none), (Data.int 2, Data.none)]) := by
    simp [dnorm, dnormP, sortPairs, insertPair, cmpKey, numVal, cmpInt]
  exact ⟨hwf, h, pyEq_of_dnorm_eq _ _ hwf h⟩

/-- A nonempty collected error list reduces to some validation error. -/
theorem finishErrors_verror_of_ne_nil (dd : Data) (res : VResult)
    (es : List VError) (h : es ≠ []) :
    ∃ er, finishErrors dd res es = .verror er := by
  cases es with
  | nil => exact absurd rfl h
  | cons e1 es1 =>
    cases es1 with
    | nil => exact ⟨e1, rfl⟩
    | cons e2 es2 => exact ⟨.multiple dd (e1 :: e2 :: es2) [], rfl⟩

theorem finishErrors_verror_of_ne_nil_witness :
    ([VError.lengthErr (.int 1) []] ≠ []) ∧
    (∃ er, finishErrors (.int 0) (.ok (.int 0)) [VError.lengthErr (.int 1) []] =
      .verror er) :=
  ⟨by simp, finishErrors_verror_of_ne_nil (.int 0) (.ok (.int 0))
    [VError.lengthErr (.int 1) []] (by simp)⟩

/-- Outcome bisimulation for transform-free validators: on well-formed
inputs with equal sort-normal forms, every validator produces outcomes of
the same kind — successes yield well-formed outputs whose sort-normal
form equals the input's (the engine only reorders mappings), validation
errors yield validation errors, and non-validation exceptions yield
non-validation exceptions.  Proven mutually with the corresponding
relational invariants of the element loop, the key loop, the item loop
and the All/Any loop. -/
theorem sim_main :
    (∀ (n : Nat) (root v : Validator) (d : Data),
      funcFreeV root = true → funcFreeV v = true → wfData d = true →
      ∀ d_b, wfData d_b = true → dnorm d = dnorm d_b →
        (∀ e, vfuel n root v d = .ok e →
          wfData e = true ∧ dnorm e = dnorm d ∧
          ∃ e2, vfuel n root v d_b = .ok e2 ∧ wfData e2 = true ∧
            dnorm e2 = dnorm e) ∧
        (∀ er, vfuel n root v d = .verror er →
          ∃ er2, vfuel n root v d_b = .verror er2) ∧
        (∀ exc, vfuel n root v d = .pyerror exc →
          ∃ exc2, vfuel n root v d_b = .pyerror exc2)) ∧
    (∀ (n : Nat) (root : Validator) (vs : List Validator) (d : Data),
      funcFreeV root = true → funcFreeL vs = true → wfData d = true →
      ∀ d_b, wfData d_b = true → dnorm d = dnorm d_b →
        (∀ df es, chainRun n root vs d = .ok (df, es) →
          wfData df = true ∧ dnorm df = dnorm d ∧
          ∃ df2 es2, chainRun n root vs d_b = .ok (df2, es2) ∧
            wfData df2 = true ∧ dnorm df2 = dnorm df ∧ es2.length = es.length) ∧
        (∀ exc, chainRun n root vs d = .error exc →
          ∃ exc2, chainRun n root vs d_b = .error exc2)) ∧
    (∀ (n : Nat) (root : Validator) (pairs : List (Validator × Validator))
      (items out : List (Data × Data)) (notM : List Nat),
      funcFreeV root = true → funcFreeP pairs = true →
      wfP items = true → keysDistinct items = true →
      (∀ q ∈ items, ∀ p ∈ out, pyEq p.1 q.1 = false) →
      ∀ (items_b out_b : List (Data × Data)),
        wfP items_b = true → keysDistinct items_b = true →
        dnormP items = dnormP items_b →
        (∀ q ∈ items_b, ∀ p ∈ out_b, pyEq p.1 q.1 = false) →
        (∀ o es nm, dictRun n root pairs items out notM = .ok (o, es, nm) →
          ∃ new1 new2 es2,
            o = out ++ new1 ∧ wfP new1 = true ∧
            dictRun n root pairs items_b out_b notM = .ok (out_b ++ new2, es2, nm) ∧
            wfP new2 = true ∧ dnormP new2 = dnormP new1 ∧
            (es = [] → dnormP new1 = dnormP items) ∧
            es2.length = es.length) ∧
        (∀ exc, dictRun n root pairs items out notM = .error exc →
          ∃ exc2, dictRun n root pairs items_b out_b notM = .error exc2)) ∧
    (∀ (n : Nat) (root : Validator) (ps : List (Validator × Validator))
      (j : Nat) (k v : Data),
      funcFreeV root = true → funcFreeP ps = true →
      isScalar k = true → wfData v = true →
      ∀ v_b, wfData v_b = true → dnorm v = dnorm v_b →
        (tryKey n root ps j k v = .ok .noMatch →
          tryKey n root ps j k v_b = .ok .noMatch) ∧
        (∀ j2 e, tryKey n root ps j k v = .ok (.valueFailed j2 e) →
          ∃ e2, tryKey n root ps j k v_b = .ok (.valueFailed j2 e2)) ∧
        (∀ j2 nk nv, tryKey n root ps j k v = .ok (.matched j2 nk nv) →
          nk = k ∧ wfData nv = true ∧ dnorm nv = dnorm v ∧
          ∃ nv2, tryKey n root ps j k v_b = .ok (.matched j2 k nv2) ∧
            wfData nv2 = true ∧ dnorm nv2 = dnorm nv) ∧
        (∀ exc, tryKey n root ps j k v = .error exc →
          ∃ exc2, tryKey n root ps j k v_b = .error exc2)) ∧
    (∀ (n : Nat) (root ev : Validator) (i : Nat) (xs : List Data),
      funcFreeV root = true → funcFreeV ev = true → wfL xs = true →
      ∀ ys, wfL ys = true → dnormL xs = dnormL ys →
        (∀ nd es, listRun n root ev i xs = .ok (nd, es) →
          ∃ nd2 es2, listRun n root ev i ys = .ok (nd2, es2) ∧
            wfL nd = true ∧ wfL nd2 = true ∧ dnormL nd2 = dnormL nd ∧
            (es = [] → dnormL nd = dnormL xs) ∧ es2.length = es.length) ∧
        (∀ exc, listRun n root ev i xs = .error exc →
          ∃ exc2, listRun n root ev i ys = .error exc2)) := by
  apply vfuel.mutual_induct
  case case1 =>
    intro n root L opt d hpy hfr hfv hwf d_b hwfb hdn
    refine ⟨?_, ?_, ?_⟩
    · intro e h
      simp [vfuel, hpy] at h
      subst h
      have hpy2 : pyEq d_b L = true := by
        rw [pyEq_congr_left d_b d L hdn.symm]
        exact hpy
      exact ⟨hwf, rfl, d_b, by simp [vfuel, hpy2], hwfb, hdn.symm⟩
    · intro er h
      simp [vfuel, hpy] at h
    · intro exc h
      simp [vfuel, hpy] at h
  case case2 =>
    intro n root L opt d hpy hfr hfv hwf d_b hwfb hdn
    have hpy2 : pyEq d_b L = pyEq d L := pyEq_congr_left d_b d L hdn.symm
    refine ⟨?_, ?_, ?_⟩
    · intro e h
      simp [vfuel, hpy] at h
    · intro er h
      refine ⟨.literalErr L d_b [], ?_⟩
      rw [Bool.not_eq_true] at hpy
      rw [hpy] at hpy2
      simp [vfuel, hpy2]
    · intro exc h
      simp [vfuel, hpy] at h
  case case3 =>
    intro n root t opt d hin hfr hfv hwf d_b hwfb hdn
    have hin2 : isinstance d_b t = isinstance d t := isinstance_congr d_b d t hdn.symm
    refine ⟨?_, ?_, ?_⟩
    · intro e h
      simp [vfuel, hin] at h
      subst h
      rw [hin] at hin2
      exact ⟨hwf, rfl, d_b, by simp [vfuel, hin2], hwfb, hdn.symm⟩
    · intro er h
      simp [vfuel, hin] at h
    · intro exc h
      simp [vfuel, hin] at h
  case case4 =>
    intro n root t opt d hin hfr hfv hwf d_b hwfb hdn
    have hin2 : isinstance d_b t = isinstance d t := isinstance_congr d_b d t hdn.symm
    refine ⟨?_, ?_, ?_⟩
    · intro e h
      simp [vfuel, hin] at h
    · intro er h
      refine ⟨.typeErr t d_b [], ?_⟩
      rw [Bool.not_eq_true] at hin
      rw [hin] at hin2
      simp [vfuel, hin2]
    · intro exc h
      simp [vfuel, hin] at h
  case case5 =>
    intro n root test opt s hts hfr hfv hwf d_b hwfb hdn
    have hdb : d_b = .str s := by
      cases d_b <;> simp [dnorm] at hdn
      rw [hdn]
    subst hdb
    refine ⟨?_, ?_, ?_⟩
    · intro e h
      simp [vfuel, hts] at h
      subst h
      exact ⟨by simp [wfData], rfl, .str s, by simp [vfuel, hts], by simp [wfData], rfl⟩
    · intro er h
      simp [vfuel, hts] at h
    · intro exc h
      simp [vfuel, hts] at h
  case case6 =>
    intro n root test opt s hts hfr hfv hwf d_b hwfb hdn
    have hdb : d_b = .str s := by
      cases d_b <;> simp [dnorm] at hdn
      rw [hdn]
    subst hdb
    refine ⟨?_, ?_, ?_⟩
    · intro e h
      simp [vfuel, hts] at h
    · intro er h
      exact ⟨.matchErr (.str s) [], by simp [vfuel, hts]⟩
    · intro exc h
      simp [vfuel, hts] at h
  case case7 =>
    intro n root test opt d hne hfr hfv hwf d_b hwfb hdn
    have hne2 : ∀ s2, d_b ≠ .str s2 := by
      intro s2 hs2
      subst hs2
      cases d
      case str s => exact hne s rfl
      all_goals simp [dnorm] at hdn
    refine ⟨?_, ?_, ?_⟩
    · intro e h
      cases d
      case str s => exact absurd rfl (hne s)
      all_goals simp [vfuel] at h
    · intro er h
      refine ⟨.typeErr .str d_b [], ?_⟩
      cases d_b
      case str s2 => exact absurd rfl (hne2 s2)
      all_goals simp [vfuel]
    · intro exc h
      cases d
      case str s => exact absurd rfl (hne s)
      all_goals simp [vfuel] at h
  case case8 =>
    intro n root ev xs exc0 hlr ih hfr hfv hwf d_b hwfb hdn
    simp [funcFreeV] at hfv
    simp [wfData] at hwf
    refine ⟨?_, ?_, ?_⟩
    · intro e h
      rw [vfuel_listV_pyerr n root ev xs exc0 hlr] at h
      exact absurd h (by simp)
    · intro er h
      rw [vfuel_listV_pyerr n root ev xs exc0 hlr] at h
      exact absurd h (by simp)
    · intro exc h
      cases d_b <;> simp [dnorm] at hdn
      case list ys =>
        simp [wfData] at hwfb
        obtain ⟨exc2, hrun2⟩ := (ih hfr hfv hwf ys hwfb hdn).2 exc0 hlr
        exact ⟨exc2, by rw [vfuel_listV_pyerr n root ev ys exc2 hrun2]⟩
  case case9 =>
    intro n root ev xs nd errs hrun ih hfr hfv hwf d_b hwfb hdn
    simp [funcFreeV] at hfv
    simp [wfData] at hwf
    cases d_b <;> simp [dnorm] at hdn
    case list ys =>
      simp [wfData] at hwfb
      obtain ⟨nd2, es2, hrun2, hwnd, hwnd2, hdnd, hcond, hlen⟩ :=
        (ih hfr hfv hwf ys hwfb hdn).1 nd errs hrun
      refine ⟨?_, ?_, ?_⟩
      · intro e h
        rw [vfuel_listV_run n root ev xs nd errs hrun] at h
        obtain ⟨hes, hok⟩ := finishErrors_ok _ _ _ _ h
        simp at hok
        subst hok
        have hes2 : es2 = [] := by
          rw [hes] at hlen
          simp at hlen
          exact hlen
        refine ⟨by simp [wfData, hwnd], by simp [dnorm, hcond hes], .list nd2, ?_,
          by simp [wfData, hwnd2], by simp [dnorm, hdnd]⟩
        rw [vfuel_listV_run n root ev ys nd2 es2 hrun2, hes2]
        simp [finishErrors]
      · intro er h
        rw [vfuel_listV_run n root ev xs nd errs hrun] at h
        have hne : errs ≠ [] := by
          intro hc
          rw [hc] at h
          simp [finishErrors] at h
        have hne2 : es2 ≠ [] := by
          intro hc
          rw [hc] at hlen
          cases errs with
          | nil => exact hne rfl
          | cons e1 es1 => simp at hlen
        obtain ⟨er2, her2⟩ :=
          finishErrors_verror_of_ne_nil (.list ys) (.ok (.list nd2)) es2 hne2
        refine ⟨er2, ?_⟩
        rw [vfuel_listV_run n root ev ys nd2 es2 hrun2]
        exact her2
      · intro exc h
        rw [vfuel_listV_run n root ev xs nd errs hrun] at h
        cases errs with
        | nil => simp [finishErrors] at h
        | cons e1 es1 =>
          cases es1 with
          | nil => simp [finishErrors] at h
          | cons e2 es2x => simp [finishErrors] at h
  case case10 =>
    intro n root ev d hne hfr hfv hwf d_b hwfb hdn
    have hne2 : ∀ ys, d_b ≠ .list ys := by
      intro ys hys
      subst hys
      cases d
      case list xs => exact hne xs rfl
      all_goals simp [dnorm] at hdn
    refine ⟨?_, ?_, ?_⟩
    · intro e h
      cases d
      case list xs => exact absurd rfl (hne xs)
      all_goals simp [vfuel] at h
    · intro er h
      refine ⟨.typeErr .list d_b [], ?_⟩
      cases d_b
      case list ys => exact absurd rfl (hne2 ys)
      all_goals simp [vfuel]
    · intro exc h
      cases d
      case list xs => exact absurd rfl (hne xs)
      all_goals simp [vfuel] at h
  case case11 =>
    intro n root pairs items exc0 hdr ih hfr hfv hwf d_b hwfb hdn
    simp [funcFreeV] at hfv
    simp [wfData] at hwf
    refine ⟨?_, ?_, ?_⟩
    · intro e h
      rw [vfuel_dictV_pyerr n root pairs items exc0 hdr] at h
      exact absurd h (by simp)
    · intro er h
      rw [vfuel_dictV_pyerr n root pairs items exc0 hdr] at h
      exact absurd h (by simp)
    · intro exc h
      cases d_b <;> simp [dnorm] at hdn
      case dict ys =>
        simp [wfData] at hwfb
        have hsc : ∀ p ∈ items, isScalar p.1 = true :=
          fun p hp => ((wfP_forall items).mp hwf.2 p hp).1
        have hscy : ∀ p ∈ ys, isScalar p.1 = true :=
          fun p hp => ((wfP_forall ys).mp hwfb.2 p hp).1
        have hdnp : dnormP (sortPairs items) = dnormP (sortPairs ys) := by
          rw [dnormP_sortPairs, dnormP_sortPairs]
          exact hdn
        obtain ⟨exc2, hrun2⟩ :=
          (ih hfr hfv (wfP_perm items _ (sortPairs_perm items).symm hwf.2)
            (keysDistinct_perm items _ (sortPairs_perm items).symm hsc hwf.1)
            (by intro q _ p hp; simp at hp)
            (sortPairs ys) []
            (wfP_perm ys _ (sortPairs_perm ys).symm hwfb.2)
            (keysDistinct_perm ys _ (sortPairs_perm ys).symm hscy hwfb.1)
            hdnp
            (by intro q _ p hp; simp at hp)).2 exc0 hdr
        exact ⟨exc2, by rw [vfuel_dictV_pyerr n root pairs ys exc2 hrun2]⟩
  case case12 =>
    intro n root pairs items out errs nm hrun ih hfr hfv hwf d_b hwfb hdn
    simp [funcFreeV] at hfv
    simp [wfData] at hwf
    cases d_b <;> simp [dnorm] at hdn
    case dict ys =>
      simp [wfData] at hwfb
      have hsc : ∀ p ∈ items, isScalar p.1 = true :=
        fun p hp => ((wfP_forall items).mp hwf.2 p hp).1
      have hscy : ∀ p ∈ ys, isScalar p.1 = true :=
        fun p hp => ((wfP_forall ys).mp hwfb.2 p hp).1
      have hkdsx : keysDistinct (sortPairs items) = true :=
        keysDistinct_perm items _ (sortPairs_perm items).symm hsc hwf.1
      have hdnp : dnormP (sortPairs items) = dnormP (sortPairs ys) := by
        rw [dnormP_sortPairs, dnormP_sortPairs]
        exact hdn
      obtain ⟨new1, new2, es2, ho, hwn1, hrun2, hwn2, hdn21, hcond, hlen⟩ :=
        (ih hfr hfv (wfP_perm items _ (sortPairs_perm items).symm hwf.2)
          hkdsx
          (by intro q _ p hp; simp at hp)
          (sortPairs ys) []
          (wfP_perm ys _ (sortPairs_perm ys).symm hwfb.2)
          (keysDistinct_perm ys _ (sortPairs_perm ys).symm hscy hwfb.1)
          hdnp
          (by intro q _ p hp; simp at hp)).1 out errs nm hrun
      rw [List.nil_append] at ho hrun2
      subst ho
      refine ⟨?_, ?_, ?_⟩
      · intro e h
        rw [vfuel_dictV_run n root pairs items out errs nm hrun] at h
        obtain ⟨hes, hok⟩ := finishErrors_ok _ _ _ _ h
        rw [List.append_eq_nil] at hes
        simp at hok
        subst hok
        have hdn1x : dnormP out = sortPairs (dnormP items) := by
          rw [hcond hes.1, dnormP_sortPairs]
        have hmf1 : out.map Prod.fst = (sortPairs items).map Prod.fst := by
          have := congrArg (List.map Prod.fst) (hcond hes.1)
          rw [map_fst_dnormP, map_fst_dnormP] at this
          exact this
        have hkd1 : keysDistinct out = true := by
          rw [keysDistinct_eq, hmf1, ← keysDistinct_eq]
          exact hkdsx
        have hmf2 : new2.map Prod.fst = out.map Prod.fst := by
          have := congrArg (List.map Prod.fst) hdn21
          rw [map_fst_dnormP, map_fst_dnormP] at this
          exact this
        have hkd2b : keysDistinct new2 = true := by
          rw [keysDistinct_eq, hmf2, ← keysDistinct_eq]
          exact hkd1
        have hidem : sortPairs (sortPairs (dnormP items)) = sortPairs (dnormP items) :=
          sortPairs_idem (dnormP items)
            (by rw [keysDistinct_dnormP]; exact hwf.1)
            (scalarKeys_dnormP items hsc)
        have hes2 : es2 = [] := by
          rw [hes.1] at hlen
          simp at hlen
          exact hlen
        refine ⟨by simp [wfData, hkd1, hwn1], ?_, .dict new2, ?_,
          by simp [wfData, hkd2b, hwn2], ?_⟩
        · simp only [dnorm, Data.dict.injEq]
          rw [hdn1x]
          exact hidem
        · rw [vfuel_dictV_run n root pairs ys new2 es2 nm hrun2, hes2, hes.2]
          simp [finishErrors]
        · simp only [dnorm, Data.dict.injEq]
          rw [hdn21]
      · intro er h
        rw [vfuel_dictV_run n root pairs items out errs nm hrun] at h
        have hne : errs ++ missingErrors pairs nm ≠ [] := by
          intro hc
          rw [hc] at h
          simp [finishErrors] at h
        have hne2 : es2 ++ missingErrors pairs nm ≠ [] := by
          intro hc
          apply hne
          rw [List.append_eq_nil] at hc ⊢
          refine ⟨?_, hc.2⟩
          rw [hc.1] at hlen
          simp at hlen
          exact List.eq_nil_of_length_eq_zero hlen.symm
        obtain ⟨er2, her2⟩ := finishErrors_verror_of_ne_nil (.dict ys)
          (.ok (.dict new2)) (es2 ++ missingErrors pairs nm) hne2
        refine ⟨er2, ?_⟩
        rw [vfuel_dictV_run n root pairs ys new2 es2 nm hrun2]
        exact her2
      · intro exc h
        rw [vfuel_dictV_run n root pairs items out errs nm hrun] at h
        cases hl : errs ++ missingErrors pairs nm with
        | nil => rw [hl] at h; simp [finishErrors] at h
        | cons e1 es1 =>
          rw [hl] at h
          cases es1 with
          | nil => simp [finishErrors] at h
          | cons e2 es2x => simp [finishErrors] at h
  case case13 =>
    intro n root pairs d hne hfr hfv hwf d_b hwfb hdn
    have hne2 : ∀ ys, d_b ≠ .dict ys := by
      intro ys hys
      subst hys
      cases d
      case dict xs => exact hne xs rfl
      all_goals simp [dnorm] at hdn
    refine ⟨?_, ?_, ?_⟩
    · intro e h
      cases d
      case dict xs => exact absurd rfl (hne xs)
      all_goals simp [vfuel] at h
    · intro er h
      refine ⟨.typeErr .dict d_b [], ?_⟩
      cases d_b
      case dict ys => exact absurd rfl (hne2 ys)
      all_goals simp [vfuel]
    · intro exc h
      cases d
      case dict xs => exact absurd rfl (hne xs)
      all_goals simp [vfuel] at h
  case case14 =>
    intro root opt d hfr hfv hwf d_b hwfb hdn
    refine ⟨?_, ?_, ?_⟩
    · intro e h
      rw [vfuel_selfV_zero] at h
      exact absurd h (by simp)
    · intro er h
      rw [vfuel_selfV_zero] at h
      exact absurd h (by simp)
    · intro exc h
      exact ⟨.recursionError, by rw [vfuel_selfV_zero]⟩
  case case15 =>
    intro root opt d m ih hfr hfv hwf d_b hwfb hdn
    have := ih hfr hfr hwf d_b hwfb hdn
    refine ⟨?_, ?_, ?_⟩
    · intro e h
      rw [vfuel_selfV_succ] at h
      obtain ⟨h1, h2, e2, h3, h4, h5⟩ := this.1 e h
      exact ⟨h1, h2, e2, by rw [vfuel_selfV_succ]; exact h3, h4, h5⟩
    · intro er h
      rw [vfuel_selfV_succ] at h
      obtain ⟨er2, h3⟩ := this.2.1 er h
      exact ⟨er2, by rw [vfuel_selfV_succ]; exact h3⟩
    · intro exc h
      rw [vfuel_selfV_succ] at h
      obtain ⟨exc2, h3⟩ := this.2.2 exc h
      exact ⟨exc2, by rw [vfuel_selfV_succ]; exact h3⟩
  case case16 =>
    intro n root vs opt d exc0 hch ih hfr hfv hwf d_b hwfb hdn
    simp [funcFreeV] at hfv
    refine ⟨?_, ?_, ?_⟩
    · intro e h
      rw [vfuel_allV_pyerr n root vs opt d exc0 hch] at h
      exact absurd h (by simp)
    · intro er h
      rw [vfuel_allV_pyerr n root vs opt d exc0 hch] at h
      exact absurd h (by simp)
    · intro exc h
      obtain ⟨exc2, hch2⟩ := (ih hfr hfv hwf d_b hwfb hdn).2 exc0 hch
      exact ⟨exc2, by rw [vfuel_allV_pyerr n root vs opt d_b exc2 hch2]⟩
  case case17 =>
    intro n root vs opt d df errs hch ih hfr hfv hwf d_b hwfb hdn
    simp [funcFreeV] at hfv
    obtain ⟨hwdf, hdndf, df2, es2, hch2, hwdf2, hdndf2, hlen⟩ :=
      (ih hfr hfv hwf d_b hwfb hdn).1 df errs hch
    refine ⟨?_, ?_, ?_⟩
    · intro e h
      rw [vfuel_allV_run n root vs opt d df errs hch] at h
      obtain ⟨hes, hok⟩ := finishErrors_ok _ _ _ _ h
      simp at hok
      subst hok
      have hes2 : es2 = [] := by
        rw [hes] at hlen
        simp at hlen
        exact hlen
      refine ⟨hwdf, hdndf, df2, ?_, hwdf2, hdndf2⟩
      rw [vfuel_allV_run n root vs opt d_b df2 es2 hch2, hes2]
      simp [finishErrors]
    · intro er h
      rw [vfuel_allV_run n root vs opt d df errs hch] at h
      have hne : errs ≠ [] := by
        intro hc
        rw [hc] at h
        simp [finishErrors] at h
      have hne2 : es2 ≠ [] := by
        intro hc
        rw [hc] at hlen
        cases errs with
        | nil => exact hne rfl
        | cons e1 es1 => simp at hlen
      obtain ⟨er2, her2⟩ := finishErrors_verror_of_ne_nil df2 (.ok df2) es2 hne2
      refine ⟨er2, ?_⟩
      rw [vfuel_allV_run n root vs opt d_b df2 es2 hch2]
      exact her2
    · intro exc h
      rw [vfuel_allV_run n root vs opt d df errs hch] at h
      cases errs with
      | nil => simp [finishErrors] at h
      | cons e1 es1 =>
        cases es1 with
        | nil => simp [finishErrors] at h
        | cons e2 es2x => simp [finishErrors] at h
  case case18 =>
    intro n root vs opt d exc0 hch ih hfr hfv hwf d_b hwfb hdn
    simp [funcFreeV] at hfv
    refine ⟨?_, ?_, ?_⟩
    · intro e h
      rw [vfuel_anyV_pyerr n root vs opt d exc0 hch] at h
      exact absurd h (by simp)
    · intro er h
      rw [vfuel_anyV_pyerr n root vs opt d exc0 hch] at h
      exact absurd h (by simp)
    · intro exc h
      obtain ⟨exc2, hch2⟩ := (ih hfr hfv hwf d_b hwfb hdn).2 exc0 hch
      exact ⟨exc2, by rw [vfuel_anyV_pyerr n root vs opt d_b exc2 hch2]⟩
  case case19 =>
    intro n root vs opt d df errs hch hlen0 ih hfr hfv hwf d_b hwfb hdn
    simp [funcFreeV] at hfv
    obtain ⟨hwdf, hdndf, df2, es2, hch2, hwdf2, hdndf2, hlen⟩ :=
      (ih hfr hfv hwf d_b hwfb hdn).1 df errs hch
    refine ⟨?_, ?_, ?_⟩
    · intro e h
      rw [vfuel_anyV_run n root vs opt d df errs hch] at h
      simp [hlen0] at h
    · intro er h
      refine ⟨.multiple df2 es2 [], ?_⟩
      rw [vfuel_anyV_run n root vs opt d_b df2 es2 hch2]
      rw [hlen0] at hlen
      simp [hlen]
    · intro exc h
      rw [vfuel_anyV_run n root vs opt d df errs hch] at h
      simp [hlen0] at h
  case case20 =>
    intro n root vs opt d df errs hch hlen0 ih hfr hfv hwf d_b hwfb hdn
    simp [funcFreeV] at hfv
    obtain ⟨hwdf, hdndf, df2, es2, hch2, hwdf2, hdndf2, hlen⟩ :=
      (ih hfr hfv hwf d_b hwfb hdn).1 df errs hch
    refine ⟨?_, ?_, ?_⟩
    · intro e h
      rw [vfuel_anyV_run n root vs opt d df errs hch] at h
      simp [hlen0] at h
      subst h
      refine ⟨hwdf, hdndf, df2, ?_, hwdf2, hdndf2⟩
      rw [vfuel_anyV_run n root vs opt d_b df2 es2 hch2]
      have : ¬(es2.length = vs.length) := by
        rw [hlen]
        exact hlen0
      simp [this]
    · intro er h
      rw [vfuel_anyV_run n root vs opt d df errs hch] at h
      simp [hlen0] at h
    · intro exc h
      rw [vfuel_anyV_run n root vs opt d df errs hch] at h
      simp [hlen0] at h
  case case21 =>
    intro n root f d nd hf hfr hfv hwf d_b hwfb hdn
    simp [funcFreeV] at hfv
  case case22 =>
    intro n root f d exc0 hf hfr hfv hwf d_b hwfb hdn
    simp [funcFreeV] at hfv
  case case23 =>
    intro n root mn mx d exc0 hp hfr hfv hwf d_b hwfb hdn
    have hp2 : pyLen d_b = pyLen d := pyLen_congr d_b d hdn.symm
    refine ⟨?_, ?_, ?_⟩
    · intro e h
      simp [vfuel, hp] at h
    · intro er h
      simp [vfuel, hp] at h
    · intro exc h
      rw [hp] at hp2
      exact ⟨exc0, by simp [vfuel, hp2]⟩
  case case24 =>
    intro n root mn mx d l hp hb hfr hfv hwf d_b hwfb hdn
    have hp2 : pyLen d_b = pyLen d := pyLen_congr d_b d hdn.symm
    refine ⟨?_, ?_, ?_⟩
    · intro e h
      simp [vfuel, hp, hb] at h
    · intro er h
      rw [hp] at hp2
      exact ⟨.lengthErr d_b [], by simp [vfuel, hp2, hb]⟩
    · intro exc h
      simp [vfuel, hp, hb] at h
  case case25 =>
    intro n root mn mx d l hp hb ha hfr hfv hwf d_b hwfb hdn
    have hp2 : pyLen d_b = pyLen d := pyLen_congr d_b d hdn.symm
    rw [Bool.not_eq_true] at hb
    refine ⟨?_, ?_, ?_⟩
    · intro e h
      simp [vfuel, hp, hb, ha] at h
    · intro er h
      rw [hp] at hp2
      exact ⟨.lengthErr d_b [], by simp [vfuel, hp2, hb, ha]⟩
    · intro exc h
      simp [vfuel, hp, hb, ha] at h
  case case26 =>
    intro n root mn mx d l hp hb ha hfr hfv hwf d_b hwfb hdn
    have hp2 : pyLen d_b = pyLen d := pyLen_congr d_b d hdn.symm
    rw [Bool.not_eq_true] at hb
    rw [Bool.not_eq_true] at ha
    refine ⟨?_, ?_, ?_⟩
    · intro e h
      simp [vfuel, hp, hb, ha] at h
      subst h
      rw [hp] at hp2
      exact ⟨hwf, rfl, d_b, by simp [vfuel, hp2, hb, ha], hwfb, hdn.symm⟩
    · intro er h
      simp [vfuel, hp, hb, ha] at h
    · intro exc h
      simp [vfuel, hp, hb, ha] at h
  case case27 =>
    intro n root d hfr hfl hwf d_b hwfb hdn
    refine ⟨?_, ?_⟩
    · intro df es h
      rw [chainRun_nil] at h
      simp at h
      rw [← h.1, h.2]
      exact ⟨hwf, rfl, d_b, [], chainRun_nil n root d_b, hwfb, hdn.symm, rfl⟩
    · intro exc h
      rw [chainRun_nil] at h
      exact absurd h (by simp)
  case case28 =>
    intro n root v vs d exc0 hv ihv hfr hfl hwf d_b hwfb hdn
    simp [funcFreeL] at hfl
    obtain ⟨exc2, hv2⟩ := (ihv hfr hfl.1 hwf d_b hwfb hdn).2.2 exc0 hv
    refine ⟨?_, ?_⟩
    · intro df es h
      rw [chainRun_cons_pyerr n root v vs d exc0 hv] at h
      exact absurd h (by simp)
    · intro exc h
      rw [chainRun_cons_pyerr n root v vs d exc0 hv] at h
      simp at h
      subst h
      exact ⟨exc2, chainRun_cons_pyerr n root v vs d_b exc2 hv2⟩
  case case29 =>
    intro n root v vs d e hv ihv ih hfr hfl hwf d_b hwfb hdn
    simp [funcFreeL] at hfl
    obtain ⟨e2, hv2⟩ := (ihv hfr hfl.1 hwf d_b hwfb hdn).2.1 e hv
    have hrec := ih hfr hfl.2 hwf d_b hwfb hdn
    refine ⟨?_, ?_⟩
    · intro df es h
      cases hrest : chainRun n root vs d with
      | error exc =>
        rw [chainRun_cons_verr_err n root v vs d e exc hv hrest] at h
        exact absurd h (by simp)
      | ok q =>
        obtain ⟨df', es'⟩ := q
        rw [chainRun_cons_verr n root v vs d df' e es' hv hrest] at h
        simp at h
        obtain ⟨h1, h2⟩ := h
        subst h1
        obtain ⟨hwdf, hdndf, df2, es2, hch2, hwdf2, hdndf2, hlen⟩ :=
          hrec.1 df' es' hrest
        refine ⟨hwdf, hdndf, df2, e2 :: es2, ?_, hwdf2, hdndf2, ?_⟩
        · exact chainRun_cons_verr n root v vs d_b df2 e2 es2 hv2 hch2
        · rw [← h2]
          simp [hlen]
    · intro exc h
      cases hrest : chainRun n root vs d with
      | error exc' =>
        rw [chainRun_cons_verr_err n root v vs d e exc' hv hrest] at h
        simp at h
        subst h
        obtain ⟨exc2, hch2⟩ := hrec.2 exc' hrest
        exact ⟨exc2, chainRun_cons_verr_err n root v vs d_b e2 exc2 hv2 hch2⟩
      | ok q =>
        obtain ⟨df', es'⟩ := q
        rw [chainRun_cons_verr n root v vs d df' e es' hv hrest] at h
        exact absurd h (by simp)
  case case30 =>
    intro n root v vs d d2 hv ihv ih hfr hfl hwf d_b hwfb hdn
    simp [funcFreeL] at hfl
    obtain ⟨hwd2, hdnd2, e2b, hv2, hwe2b, hdne2b⟩ :=
      (ihv hfr hfl.1 hwf d_b hwfb hdn).1 d2 hv
    have hrec := ih hfr hfl.2 hwd2 e2b hwe2b hdne2b.symm
    refine ⟨?_, ?_⟩
    · intro df es h
      rw [chainRun_cons_ok n root v vs d d2 hv] at h
      obtain ⟨hwdf, hdndf, df2, es2, hch2, hwdf2, hdndf2, hlen⟩ :=
        hrec.1 df es h
      refine ⟨hwdf, hdndf.trans hdnd2, df2, es2, ?_, hwdf2, hdndf2, hlen⟩
      rw [chainRun_cons_ok n root v vs d_b e2b hv2]
      exact hch2
    · intro exc h
      rw [chainRun_cons_ok n root v vs d d2 hv] at h
      obtain ⟨exc2, hch2⟩ := hrec.2 exc h
      refine ⟨exc2, ?_⟩
      rw [chainRun_cons_ok n root v vs d_b e2b hv2]
      exact hch2
  case case31 =>
    intro n root pairs out notM hfr hfp hwfP hkd hd items_b out_b hwfb hkdb hdnp hdb
    have hib : items_b = [] := dnormP_eq_nil items_b hdnp
    subst hib
    refine ⟨?_, ?_⟩
    · intro o es nm h
      rw [dictRun_nil] at h
      simp at h
      refine ⟨[], [], [], by simp [← h.1], by simp [wfP], ?_, by simp [wfP], rfl,
        fun _ => rfl, by simp [← h.2.1]⟩
      rw [dictRun_nil]
      simp [← h.2.2]
    · intro exc h
      rw [dictRun_nil] at h
      exact absurd h (by simp)
  case case32 =>
    intro n root pairs k v rest out notM exc0 htk ihtk hfr hfp hwfP hkd hd items_b out_b hwfb hkdb hdnp hdb
    simp only [wfP, Bool.and_eq_true] at hwfP
    obtain ⟨w, rest_b, hib, hvw, hrest⟩ := dnormP_eq_cons k v rest items_b hdnp
    subst hib
    simp only [wfP, Bool.and_eq_true] at hwfb
    obtain ⟨exc2, htk2⟩ :=
      (ihtk hfr hfp hwfP.1.1 hwfP.1.2 w hwfb.1.2 hvw).2.2.2 exc0 htk
    refine ⟨?_, ?_⟩
    · intro o es nm h
      rw [dictRun_cons_err n root pairs k v rest out notM exc0 htk] at h
      exact absurd h (by simp)
    · intro exc h
      rw [dictRun_cons_err n root pairs k v rest out notM exc0 htk] at h
      simp at h
      subst h
      exact ⟨exc2, dictRun_cons_err n root pairs k w rest_b out_b notM exc2 htk2⟩
  case case33 =>
    intro n root pairs k v rest out notM htk ihtk ih hfr hfp hwfP hkd hd items_b out_b hwfb hkdb hdnp hdb
    simp only [wfP, Bool.and_eq_true] at hwfP
    simp only [keysDistinct, Bool.and_eq_true, List.all_eq_true,
      Bool.not_eq_true'] at hkd
    obtain ⟨w, rest_b, hib, hvw, hrest⟩ := dnormP_eq_cons k v rest items_b hdnp
    subst hib
    simp only [wfP, Bool.and_eq_true] at hwfb
    simp only [keysDistinct, Bool.and_eq_true, List.all_eq_true,
      Bool.not_eq_true'] at hkdb
    have htk2 : tryKey n root pairs 0 k w = .ok .noMatch :=
      (ihtk hfr hfp hwfP.1.1 hwfP.1.2 w hwfb.1.2 hvw).1 htk
    have hrec := ih hfr hfp hwfP.2 hkd.2 (fun q hq p hp => hd q (by simp [hq]) p hp)
      rest_b out_b hwfb.2 hkdb.2 hrest
      (fun q hq p hp => hdb q (by simp [hq]) p hp)
    refine ⟨?_, ?_⟩
    · intro o es nm h
      cases hrest0 : dictRun n root pairs rest out notM with
      | error exc =>
        rw [dictRun_cons_noMatch_err n root pairs k v rest out notM exc htk hrest0] at h
        exact absurd h (by simp)
      | ok q =>
        obtain ⟨o', es', nm'⟩ := q
        rw [dictRun_cons_noMatch n root pairs k v rest out o' notM nm' es' htk hrest0] at h
        simp at h
        obtain ⟨h1, h2, h3⟩ := h
        obtain ⟨new1, new2, es2, ho, hwn1, hrun2, hwn2, hdn21, hcond, hlen⟩ :=
          hrec.1 o' es' nm' hrest0
        refine ⟨new1, new2, .unknownKey k [] :: es2, ?_, hwn1, ?_, hwn2, hdn21,
          ?_, ?_⟩
        · rw [← h1]
          exact ho
        · rw [← h3]
          exact dictRun_cons_noMatch n root pairs k w rest_b out_b
            (out_b ++ new2) notM nm' es2 htk2 hrun2
        · intro hc
          rw [← h2] at hc
          exact absurd hc (by simp)
        · rw [← h2]
          simp [hlen]
    · intro exc h
      cases hrest0 : dictRun n root pairs rest out notM with
      | error exc' =>
        rw [dictRun_cons_noMatch_err n root pairs k v rest out notM exc' htk hrest0] at h
        simp at h
        subst h
        obtain ⟨exc2, hch2⟩ := hrec.2 exc' hrest0
        exact ⟨exc2, dictRun_cons_noMatch_err n root pairs k w rest_b out_b
          notM exc2 htk2 hch2⟩
      | ok q =>
        obtain ⟨o', es', nm'⟩ := q
        rw [dictRun_cons_noMatch n root pairs k v rest out o' notM nm' es' htk hrest0] at h
        exact absurd h (by simp)
  case case34 =>
    intro n root pairs k v rest out notM j e htk ihtk ih hfr hfp hwfP hkd hd items_b out_b hwfb hkdb hdnp hdb
    simp only [wfP, Bool.and_eq_true] at hwfP
    simp only [keysDistinct, Bool.and_eq_true, List.all_eq_true,
      Bool.not_eq_true'] at hkd
    obtain ⟨w, rest_b, hib, hvw, hrest⟩ := dnormP_eq_cons k v rest items_b hdnp
    subst hib
    simp only [wfP, Bool.and_eq_true] at hwfb
    simp only [keysDistinct, Bool.and_eq_true, List.all_eq_true,
      Bool.not_eq_true'] at hkdb
    obtain ⟨e2, htk2⟩ :=
      (ihtk hfr hfp hwfP.1.1 hwfP.1.2 w hwfb.1.2 hvw).2.1 j e htk
    have hrec := ih hfr hfp hwfP.2 hkd.2 (fun q hq p hp => hd q (by simp [hq]) p hp)
      rest_b out_b hwfb.2 hkdb.2 hrest
      (fun q hq p hp => hdb q (by simp [hq]) p hp)
    refine ⟨?_, ?_⟩
    · intro o es nm h
      cases hrest0 : dictRun n root pairs rest out (notM.erase j) with
      | error exc =>
        rw [dictRun_cons_valueFailed_err n root pairs k v rest out notM j e exc htk hrest0] at h
        exact absurd h (by simp)
      | ok q =>
        obtain ⟨o', es', nm'⟩ := q
        rw [dictRun_cons_valueFailed n root pairs k v rest out o' notM nm' j e es' htk hrest0] at h
        simp at h
        obtain ⟨h1, h2, h3⟩ := h
        obtain ⟨new1, new2, es2, ho, hwn1, hrun2, hwn2, hdn21, hcond, hlen⟩ :=
          hrec.1 o' es' nm' hrest0
        refine ⟨new1, new2, e2.push k :: es2, ?_, hwn1, ?_, hwn2, hdn21, ?_, ?_⟩
        · rw [← h1]
          exact ho
        · rw [← h3]
          exact dictRun_cons_valueFailed n root pairs k w rest_b out_b
            (out_b ++ new2) notM nm' j e2 es2 htk2 hrun2
        · intro hc
          rw [← h2] at hc
          exact absurd hc (by simp)
        · rw [← h2]
          simp [hlen]
    · intro exc h
      cases hrest0 : dictRun n root pairs rest out (notM.erase j) with
      | error exc' =>
        rw [dictRun_cons_valueFailed_err n root pairs k v rest out notM j e exc' htk hrest0] at h
        simp at h
        subst h
        obtain ⟨exc2, hch2⟩ := hrec.2 exc' hrest0
        exact ⟨exc2, dictRun_cons_valueFailed_err n root pairs k w rest_b out_b
          notM j e2 exc2 htk2 hch2⟩
      | ok q =>
        obtain ⟨o', es', nm'⟩ := q
        rw [dictRun_cons_valueFailed n root pairs k v rest out o' notM nm' j e es' htk hrest0] at h
        exact absurd h (by simp)
  case case35 =>
    intro n root pairs k v rest out notM j nk nv htk ihtk ih hfr hfp hwfP hkd hd items_b out_b hwfb hkdb hdnp hdb
    simp only [wfP, Bool.and_eq_true] at hwfP
    simp only [keysDistinct, Bool.and_eq_true, List.all_eq_true,
      Bool.not_eq_true'] at hkd
    obtain ⟨w, rest_b, hib, hvw, hrest⟩ := dnormP_eq_cons k v rest items_b hdnp
    subst hib
    simp only [wfP, Bool.and_eq_true] at hwfb
    simp only [keysDistinct, Bool.and_eq_true, List.all_eq_true,
      Bool.not_eq_true'] at hkdb
    obtain ⟨hnk, hwnv, hdnv, nv2, htk2, hwnv2, hdnv2⟩ :=
      (ihtk hfr hfp hwfP.1.1 hwfP.1.2 w hwfb.1.2 hvw).2.2.1 j nk nv htk
    subst hnk
    have hins : pyInsert out nk nv = out ++ [(nk, nv)] :=
      pyInsert_append out nk nv (fun p hp => hd (nk, v) (by simp) p hp)
    have hins2 : pyInsert out_b nk nv2 = out_b ++ [(nk, nv2)] :=
      pyInsert_append out_b nk nv2 (fun p hp => hdb (nk, w) (by simp) p hp)
    have hd2 : ∀ q ∈ rest, ∀ p ∈ out ++ [(nk, nv)], pyEq p.1 q.1 = false := by
      intro q hq p hp
      rcases List.mem_append.mp hp with hp0 | hp1
      · exact hd q (by simp [hq]) p hp0
      · simp at hp1
        rw [hp1]
        exact hkd.1 q hq
    have hd2b : ∀ q ∈ rest_b, ∀ p ∈ out_b ++ [(nk, nv2)], pyEq p.1 q.1 = false := by
      intro q hq p hp
      rcases List.mem_append.mp hp with hp0 | hp1
      · exact hdb q (by simp [hq]) p hp0
      · simp at hp1
        rw [hp1]
        exact hkdb.1 q hq
    rw [hins] at ih
    have hrec := ih hfr hfp hwfP.2 hkd.2 hd2 rest_b (out_b ++ [(nk, nv2)])
      hwfb.2 hkdb.2 hrest hd2b
    refine ⟨?_, ?_⟩
    · intro o es nm h
      rw [dictRun_cons_matched n root pairs nk v nk nv rest out notM j htk,
        hins] at h
      obtain ⟨new1, new2, es2, ho, hwn1, hrun2, hwn2, hdn21, hcond, hlen⟩ :=
        hrec.1 o es nm h
      refine ⟨(nk, nv) :: new1, (nk, nv2) :: new2, es2, ?_,
        by simp [wfP, hwfP.1.1, hwnv, hwn1], ?_, by simp [wfP, hwfP.1.1, hwnv2, hwn2],
        by simp [dnormP, hdnv2, hdn21], ?_, hlen⟩
      · rw [ho, List.append_assoc]
        rfl
      · rw [dictRun_cons_matched n root pairs nk w nk nv2 rest_b out_b notM j htk2,
          hins2, hrun2, List.append_assoc]
        rfl
      · intro hes
        simp only [dnormP]
        rw [hdnv, hcond hes]
    · intro exc h
      rw [dictRun_cons_matched n root pairs nk v nk nv rest out notM j htk,
        hins] at h
      obtain ⟨exc2, hch2⟩ := hrec.2 exc h
      refine ⟨exc2, ?_⟩
      rw [dictRun_cons_matched n root pairs nk w nk nv2 rest_b out_b notM j htk2,
        hins2]
      exact hch2
  case case36 =>
    intro n root j k v hfr hfp hsk hwv v_b hwvb hdnv
    refine ⟨?_, ?_, ?_, ?_⟩
    · intro _
      rw [tryKey_nil]
    · intro j2 e h
      rw [tryKey_nil] at h
      exact absurd h (by simp)
    · intro j2 nk nv h
      rw [tryKey_nil] at h
      exact absurd h (by simp)
    · intro exc h
      rw [tryKey_nil] at h
      exact absurd h (by simp)
  case case37 =>
    intro n root kv vv rest j k v exc0 hk ihk hfr hfp hsk hwv v_b hwvb hdnv
    refine ⟨?_, ?_, ?_, ?_⟩
    · intro h
      rw [tryKey_cons_kv_pyerr n root kv vv rest j k v exc0 hk] at h
      exact absurd h (by simp)
    · intro j2 e h
      rw [tryKey_cons_kv_pyerr n root kv vv rest j k v exc0 hk] at h
      exact absurd h (by simp)
    · intro j2 nk nv h
      rw [tryKey_cons_kv_pyerr n root kv vv rest j k v exc0 hk] at h
      exact absurd h (by simp)
    · intro exc h
      exact ⟨exc0, tryKey_cons_kv_pyerr n root kv vv rest j k v_b exc0 hk⟩
  case case38 =>
    intro n root kv vv rest j k v e0 hk ihk ih hfr hfp hsk hwv v_b hwvb hdnv
    simp [funcFreeP] at hfp
    have hrec := ih hfr hfp.2 hsk hwv v_b hwvb hdnv
    refine ⟨?_, ?_, ?_, ?_⟩
    · intro h
      rw [tryKey_cons_kv_verr n root kv vv rest j k v e0 hk] at h
      rw [tryKey_cons_kv_verr n root kv vv rest j k v_b e0 hk]
      exact hrec.1 h
    · intro j2 e h
      rw [tryKey_cons_kv_verr n root kv vv rest j k v e0 hk] at h
      obtain ⟨e2, h2⟩ := hrec.2.1 j2 e h
      refine ⟨e2, ?_⟩
      rw [tryKey_cons_kv_verr n root kv vv rest j k v_b e0 hk]
      exact h2
    · intro j2 nk nv h
      rw [tryKey_cons_kv_verr n root kv vv rest j k v e0 hk] at h
      obtain ⟨h1, h2, h3, nv2, h4, h5, h6⟩ := hrec.2.2.1 j2 nk nv h
      refine ⟨h1, h2, h3, nv2, ?_, h5, h6⟩
      rw [tryKey_cons_kv_verr n root kv vv rest j k v_b e0 hk]
      exact h4
    · intro exc h
      rw [tryKey_cons_kv_verr n root kv vv rest j k v e0 hk] at h
      obtain ⟨exc2, h2⟩ := hrec.2.2.2 exc h
      refine ⟨exc2, ?_⟩
      rw [tryKey_cons_kv_verr n root kv vv rest j k v_b e0 hk]
      exact h2
  case case39 =>
    intro n root kv vv rest j k v nk0 hk exc0 hv ihk ihv hfr hfp hsk hwv v_b hwvb hdnv
    simp [funcFreeP] at hfp
    obtain ⟨exc2, hv2⟩ := (ihv hfr hfp.1.2 hwv v_b hwvb hdnv).2.2 exc0 hv
    refine ⟨?_, ?_, ?_, ?_⟩
    · intro h
      rw [tryKey_cons_ok_vv_pyerr n root kv vv rest j k v nk0 exc0 hk hv] at h
      exact absurd h (by simp)
    · intro j2 e h
      rw [tryKey_cons_ok_vv_pyerr n root kv vv rest j k v nk0 exc0 hk hv] at h
      exact absurd h (by simp)
    · intro j2 nk nv h
      rw [tryKey_cons_ok_vv_pyerr n root kv vv rest j k v nk0 exc0 hk hv] at h
      exact absurd h (by simp)
    · intro exc h
      exact ⟨exc2, tryKey_cons_ok_vv_pyerr n root kv vv rest j k v_b nk0 exc2 hk hv2⟩
  case case40 =>
    intro n root kv vv rest j k v nk0 hk e0 hv ihk ihv hfr hfp hsk hwv v_b hwvb hdnv
    simp [funcFreeP] at hfp
    obtain ⟨e2, hv2⟩ := (ihv hfr hfp.1.2 hwv v_b hwvb hdnv).2.1 e0 hv
    refine ⟨?_, ?_, ?_, ?_⟩
    · intro h
      rw [tryKey_cons_ok_vv_verr n root kv vv rest j k v nk0 e0 hk hv] at h
      exact absurd h (by simp)
    · intro j2 e h
      rw [tryKey_cons_ok_vv_verr n root kv vv rest j k v nk0 e0 hk hv] at h
      simp at h
      refine ⟨e2, ?_⟩
      rw [tryKey_cons_ok_vv_verr n root kv vv rest j k v_b nk0 e2 hk hv2]
      rw [← h.1]
    · intro j2 nk nv h
      rw [tryKey_cons_ok_vv_verr n root kv vv rest j k v nk0 e0 hk hv] at h
      exact absurd h (by simp)
    · intro exc h
      rw [tryKey_cons_ok_vv_verr n root kv vv rest j k v nk0 e0 hk hv] at h
      exact absurd h (by simp)
  case case41 =>
    intro n root kv vv rest j k v nk0 hk nv0 hv ihk ihv hfr hfp hsk hwv v_b hwvb hdnv
    simp [funcFreeP] at hfp
    have hnk0 : nk0 = k :=
      identity_main.1 n root kv k hfr hfp.1.1 (scalar_dsorted k hsk) nk0 hk
    obtain ⟨hwnv0, hdnv0, nv2, hv2, hwnv2, hdnv2⟩ :=
      (ihv hfr hfp.1.2 hwv v_b hwvb hdnv).1 nv0 hv
    refine ⟨?_, ?_, ?_, ?_⟩
    · intro h
      rw [tryKey_cons_ok_vv_ok n root kv vv rest j k v nk0 nv0 hk hv] at h
      exact absurd h (by simp)
    · intro j2 e h
      rw [tryKey_cons_ok_vv_ok n root kv vv rest j k v nk0 nv0 hk hv] at h
      exact absurd h (by simp)
    · intro j2 nk nv h
      rw [tryKey_cons_ok_vv_ok n root kv vv rest j k v nk0 nv0 hk hv] at h
      simp at h
      obtain ⟨h1, h2, h3⟩ := h
      subst h1
      subst h2
      subst h3
      refine ⟨hnk0, hwnv0, hdnv0, nv2, ?_, hwnv2, hdnv2⟩
      rw [tryKey_cons_ok_vv_ok n root kv vv rest j k v_b nk0 nv2 hk hv2, hnk0]
    · intro exc h
      rw [tryKey_cons_ok_vv_ok n root kv vv rest j k v nk0 nv0 hk hv] at h
      exact absurd h (by simp)
  case case42 =>
    intro n root ev i hfr hfv hwl ys hwly hdnl
    have hys : ys = [] := dnormL_eq_nil ys hdnl
    subst hys
    refine ⟨?_, ?_⟩
    · intro nd es h
      rw [listRun_nil] at h
      simp at h
      refine ⟨[], [], ?_, by simp [h.1, wfL], by simp [wfL], by simp [h.1],
        fun _ => by simp [h.1], by simp [h.2]⟩
      rw [listRun_nil]
    · intro exc h
      rw [listRun_nil] at h
      exact absurd h (by simp)
  case case43 =>
    intro n root ev i x xs exc0 hx ihx hfr hfv hwl ys hwly hdnl
    simp only [wfL, Bool.and_eq_true] at hwl
    obtain ⟨y, ys2, hys, hxy, hrest⟩ := dnormL_eq_cons x xs ys hdnl
    subst hys
    simp only [wfL, Bool.and_eq_true] at hwly
    obtain ⟨exc2, hx2⟩ := (ihx hfr hfv hwl.1 y hwly.1 hxy).2.2 exc0 hx
    refine ⟨?_, ?_⟩
    · intro nd es h
      rw [listRun_cons_pyerr n root ev i x xs exc0 hx] at h
      exact absurd h (by simp)
    · intro exc h
      rw [listRun_cons_pyerr n root ev i x xs exc0 hx] at h
      simp at h
      subst h
      exact ⟨exc2, listRun_cons_pyerr n root ev i y ys2 exc2 hx2⟩
  case case44 =>
    intro n root ev i x xs y0 hx ihx ih hfr hfv hwl ys hwly hdnl
    simp only [wfL, Bool.and_eq_true] at hwl
    obtain ⟨y, ys2, hys, hxy, hrest⟩ := dnormL_eq_cons x xs ys hdnl
    subst hys
    simp only [wfL, Bool.and_eq_true] at hwly
    obtain ⟨hwy0, hdny0, y2, hx2, hwy2, hdny2⟩ :=
      (ihx hfr hfv hwl.1 y hwly.1 hxy).1 y0 hx
    have hrec := ih hfr hfv hwl.2 ys2 hwly.2 hrest
    refine ⟨?_, ?_⟩
    · intro nd es h
      cases hrest0 : listRun n root ev (i + 1) xs with
      | error exc =>
        rw [listRun_cons_ok_err n root ev i x y0 xs exc hx hrest0] at h
        exact absurd h (by simp)
      | ok q =>
        obtain ⟨nd', es'⟩ := q
        rw [listRun_cons_ok n root ev i x y0 xs nd' es' hx hrest0] at h
        simp at h
        obtain ⟨h1, h2⟩ := h
        obtain ⟨nd2', es2', hrun2, hwnd', hwnd2', hdnd', hcond, hlen⟩ :=
          hrec.1 nd' es' hrest0
        refine ⟨y2 :: nd2', es2', ?_, ?_, ?_, ?_, ?_, ?_⟩
        · exact listRun_cons_ok n root ev i y y2 ys2 nd2' es2' hx2 hrun2
        · rw [← h1]
          simp [wfL, hwy0, hwnd']
        · simp [wfL, hwy2, hwnd2']
        · rw [← h1]
          simp [dnormL, hdny2, hdnd']
        · intro hes
          rw [← h2] at hes
          rw [← h1]
          simp only [dnormL]
          rw [hdny0, hcond hes]
        · rw [← h2]
          exact hlen
    · intro exc h
      cases hrest0 : listRun n root ev (i + 1) xs with
      | error exc' =>
        rw [listRun_cons_ok_err n root ev i x y0 xs exc' hx hrest0] at h
        simp at h
        subst h
        obtain ⟨exc2, hch2⟩ := hrec.2 exc' hrest0
        exact ⟨exc2, listRun_cons_ok_err n root ev i y y2 ys2 exc2 hx2 hch2⟩
      | ok q =>
        obtain ⟨nd', es'⟩ := q
        rw [listRun_cons_ok n root ev i x y0 xs nd' es' hx hrest0] at h
        exact absurd h (by simp)
  case case45 =>
    intro n root ev i x xs e hx ihx ih hfr hfv hwl ys hwly hdnl
    simp only [wfL, Bool.and_eq_true] at hwl
    obtain ⟨y, ys2, hys, hxy, hrest⟩ := dnormL_eq_cons x xs ys hdnl
    subst hys
    simp only [wfL, Bool.and_eq_true] at hwly
    obtain ⟨e2, hx2⟩ := (ihx hfr hfv hwl.1 y hwly.1 hxy).2.1 e hx
    have hrec := ih hfr hfv hwl.2 ys2 hwly.2 hrest
    refine ⟨?_, ?_⟩
    · intro nd es h
      cases hrest0 : listRun n root ev (i + 1) xs with
      | error exc =>
        rw [listRun_cons_verr_err n root ev i x xs e exc hx hrest0] at h
        exact absurd h (by simp)
      | ok q =>
        obtain ⟨nd', es'⟩ := q
        rw [listRun_cons_verr n root ev i x xs nd' e es' hx hrest0] at h
        simp at h
        obtain ⟨h1, h2⟩ := h
        obtain ⟨nd2', es2', hrun2, hwnd', hwnd2', hdnd', hcond, hlen⟩ :=
          hrec.1 nd' es' hrest0
        refine ⟨nd2', e2.push (.int i) :: es2', ?_, ?_, hwnd2', ?_, ?_, ?_⟩
        · exact listRun_cons_verr n root ev i y ys2 nd2' e2 es2' hx2 hrun2
        · rw [← h1]
          exact hwnd'
        · rw [← h1]
          exact hdnd'
        · intro hes
          rw [← h2] at hes
          exact absurd hes (by simp)
        · rw [← h2]
          simp [hlen]
    · intro exc h
      cases hrest0 : listRun n root ev (i + 1) xs with
      | error exc' =>
        rw [listRun_cons_verr_err n root ev i x xs e exc' hx hrest0] at h
        simp at h
        subst h
        obtain ⟨exc2, hch2⟩ := hrec.2 exc' hrest0
        exact ⟨exc2, listRun_cons_verr_err n root ev i y ys2 e2 exc2 hx2 hch2⟩
      | ok q =>
        obtain ⟨nd', es'⟩ := q
        rw [listRun_cons_verr n root ev i x xs nd' e es' hx hrest0] at h
        exact absurd h (by simp)

/-- C8 amended: for every schema compiled from a raw schema containing no
callable transform, and every well-formed input (mappings with
`==`-distinct scalar keys, as real Python dicts guarantee): a successful
validation yields well-formed output that is Python-`==` to the input,
and re-validating that output with the same schema succeeds and returns
Python-`==`-equal output.  The transform-free restriction is forced by
the counterexample. -/
theorem c8_amended (raw : RawSchema) (v : Validator) (n : Nat) (d e : Data)
    (_hc : compile raw = .ok v) (hf : funcFreeV v = true)
    (hwf : wfData d = true) (h : vfuel n v v d = .ok e) :
    wfData e = true ∧ pyEq e d = true ∧
    ∃ e2, vfuel n v v e = .ok e2 ∧ pyEq e2 e = true := by
  obtain ⟨hwe, hdne, _⟩ := (sim_main.1 n v v d hf hf hwf d hwf rfl).1 e h
  obtain ⟨_, _, e2, hrev, hwe2, hdne2⟩ :=
    (sim_main.1 n v v d hf hf hwf e hwe hdne.symm).1 e h
  exact ⟨hwe, pyEq_of_dnorm_eq e d hwf hdne, e2, hrev,
    pyEq_of_dnorm_eq e2 e hwe hdne2⟩

/-- C8 witness: the schema `{1: str, 2: str}` on the unsorted well-formed
input `{2: 'y', 1: 'x'}` validates to the sorted `==`-equal mapping
`{1: 'x', 2: 'y'}`, and re-validating that output succeeds with
`==`-equal output. -/
theorem c8_witness :
    wfData (.dict [(.int 1, .str "x"), (.int 2, .str "y")]) = true ∧
    pyEq (.dict [(.int 1, .str "x"), (.int 2, .str "y")])
      (.dict [(.int 2, .str "y"), (.int 1, .str "x")]) = true ∧
    ∃ e2,
      vfuel 1 (.dictV [(.lit (.int 1) false, .type .str false),
          (.lit (.int 2) false, .type .str false)])
        (.dictV [(.lit (.int 1) false, .type .str false),
          (.lit (.int 2) false, .type .str false)])
        (.dict [(.int 1, .str "x"), (.int 2, .str "y")]) = .ok e2 ∧
      pyEq e2 (.dict [(.int 1, .str "x"), (.int 2, .str "y")]) = true := by
  exact c8_amended
    (.dictS [(.intLit 1, .typeTag .str), (.intLit 2, .typeTag .str)])
    (.dictV [(.lit (.int 1) false, .type .str false),
      (.lit (.int 2) false, .type .str false)])
    1
    (.dict [(.int 2, .str "y"), (.int 1, .str "x")])
    (.dict [(.int 1, .str "x"), (.int 2, .str "y")])
    (by simp [compile, compilePairs, Except.bind, bind])
    (by simp [funcFreeV, funcFreeP])
    (by simp [wfData, keysDistinct, wfP, isScalar, pyEq])
    (by simp [vfuel, dictRun, tryKey, sortPairs, insertPair, cmpKey, cmpInt,
      numVal, pyEq, isinstance, pyInsert, initNotMatched, Validator.optional,
      missingErrors, finishErrors, Except.bind, bind, List.erase])
